import Mathlib

set_option maxRecDepth 40000

/-! Shallow embedding of the bitboard chess engine of src/cython/cychess.pyx
    (the final revision of the Board class in that file). Conditions are
    modelled as Bool, matching the C expressions; machine integers are Nat,
    with the uint64 complement written against mask64 and the uint16
    counters reduced mod 2^16; signed square arithmetic is Int with
    truncating division, as in C with cdivision enabled. -/

/-- Mask of 64 one bits: the uint64 complement of a bit is mask64 xor bit. -/
def mask64 : Nat := 2 ^ 64 - 1

/-- Source sq_to_bit: 1ULL << sq. -/
def sq_to_bit (sq : Nat) : Nat := 1 <<< sq

/-- The uint64 store m &= ~sq_to_bit sq. -/
def bclear (m sq : Nat) : Nat := m &&& (mask64 ^^^ sq_to_bit sq)

/-- The uint64 store m |= sq_to_bit sq. -/
def bset (m sq : Nat) : Nat := m ||| sq_to_bit sq

/-- The 0 <= t < 64 bound check on a C int square value. -/
def sqOk (t : Int) : Bool :=
  match t with
  | Int.ofNat n => n < 64
  | Int.negSucc _ => false

-- Piece constants: PIECE_NONE=0, WP=1, WN=2, WB=3, WR=4, WQ=5, WK=6,
-- BP=7, BN=8, BB=9, BR=10, BQ=11, BK=12.
-- Castling flags: CASTLE_WK=1, CASTLE_WQ=2, CASTLE_BK=4, CASTLE_BQ=8.

/-- PROMO_PIECES table: side 0=white, 1=black; idx 0=Q,1=N,2=B,3=R. -/
def promoPieces (side idx : Nat) : Nat :=
  if side = 0 then
    (if idx = 0 then 5 else if idx = 1 then 2 else if idx = 2 then 3 else 4)
  else
    (if idx = 0 then 11 else if idx = 1 then 8 else if idx = 2 then 9 else 10)

def KNIGHT_DELTAS : List Int := [15, 17, 10, 6, -6, -10, -17, -15]

/-- PAWN_PUSH by side (0=white/up, 1=black/down). -/
def pawnPush (side : Nat) : Int := if side = 0 then 8 else -8

def pawnDouble (side : Nat) : Int := if side = 0 then 16 else -16

def pawnCapWest (side : Nat) : Int := if side = 0 then 7 else -9

def pawnCapEast (side : Nat) : Int := if side = 0 then 9 else -7

def KING_DELTAS : List Int := [-9, -8, -7, -1, 1, 7, 8, 9]

def ROOK_DIRECTIONS : List Int := [8, -8, 1, -1]

def BISHOP_DIRECTIONS : List Int := [9, 7, -7, -9]

def QUEEN_DIRECTIONS : List Int := [8, -8, 1, -1, 9, 7, -7, -9]

/-- is_promo_rank from the source. -/
def is_promo_rank (sq side : Nat) : Bool :=
  (side == 0 && sq / 8 == 7) || (side == 1 && sq / 8 == 0)

/-- A generated move: from square, to square, promotion code (0 none, 1..4). -/
structure Move where
  fr_sq : Nat
  to_sq : Nat
  promo : Nat
deriving DecidableEq, Repr

/-- The UndoState record pushed by make_move. -/
structure UndoState where
  fr_sq : Nat
  to_sq : Nat
  mover_type : Nat
  cap_type : Nat
  castling : Nat
  promo : Nat
  ep_square : Int
  ep_captured_sq : Int
  castle_rook_fr : Int
  halfmove : Nat
  fullmove : Nat
deriving DecidableEq, Repr

/-- The Board state: 12 piece bitboards, 3 occupancy masks, side to move,
castling rights, en-passant square, move counters, the pseudo/legal move
buffer (the moves array together with move_count), the undo stack (the
undo_stack array together with undo_index) and the legal-move-cache
validity flag. -/
structure Board where
  pieces : List Nat
  occupancy : List Nat
  white_to_move : Bool
  castling : Nat
  ep_square : Int
  halfmove : Nat
  fullmove : Nat
  movesBuf : List Move
  undo_stack : List UndoState
  legal_valid : Bool
deriving DecidableEq, Repr

/-- Piece bitboard i (0-based index, piece type minus one). -/
def Board.pc (b : Board) (i : Nat) : Nat := b.pieces.getD i 0

/-- Occupancy mask i (0 white, 1 black, 2 combined). -/
def Board.occ (b : Board) (i : Nat) : Nat := b.occupancy.getD i 0

/-- The store pieces[i] &= ~bit(sq) on the piece list. -/
def lclr (l : List Nat) (i sq : Nat) : List Nat := l.set i (bclear (l.getD i 0) sq)

/-- The store pieces[i] |= bit(sq) on the piece list. -/
def lset (l : List Nat) (i sq : Nat) : List Nat := l.set i (bset (l.getD i 0) sq)

/-- The two occupancy accumulation loops of update_occupancy, computed from
the twelve piece bitboards (the wildcard case covers ill-formed lists and
agrees with the source loop on them). -/
def occOf (ps : List Nat) : List Nat :=
  match ps with
  | [p0, p1, p2, p3, p4, p5, p6, p7, p8, p9, p10, p11] =>
    [p0 ||| p1 ||| p2 ||| p3 ||| p4 ||| p5,
     p6 ||| p7 ||| p8 ||| p9 ||| p10 ||| p11,
     (p0 ||| p1 ||| p2 ||| p3 ||| p4 ||| p5) |||
       (p6 ||| p7 ||| p8 ||| p9 ||| p10 ||| p11)]
  | _ =>
    [(ps.take 6).foldl (fun acc x => acc ||| x) 0,
     ((ps.drop 6).take 6).foldl (fun acc x => acc ||| x) 0,
     (ps.take 6).foldl (fun acc x => acc ||| x) 0 |||
       ((ps.drop 6).take 6).foldl (fun acc x => acc ||| x) 0]

/-- Source update_occupancy. -/
def update_occupancy (b : Board) : Board :=
  { b with occupancy := occOf b.pieces }

/-- Source clear: zero all bitboards and reset flags and counters. It does
not touch the undo stack, the move buffer or the legal_valid flag. -/
def clearBoard (b : Board) : Board :=
  { b with
      pieces := List.replicate 12 0, occupancy := [0, 0, 0],
      white_to_move := true, castling := 0, ep_square := -1,
      halfmove := 0, fullmove := 1 }

/-- Source set_start_position. -/
def set_start_position (b : Board) : Board :=
  update_occupancy
  { b with
      pieces := [0x000000000000FF00,
                 sq_to_bit 1 ||| sq_to_bit 6,
                 sq_to_bit 2 ||| sq_to_bit 5,
                 sq_to_bit 0 ||| sq_to_bit 7,
                 sq_to_bit 3,
                 sq_to_bit 4,
                 0x00FF000000000000,
                 sq_to_bit 57 ||| sq_to_bit 62,
                 sq_to_bit 58 ||| sq_to_bit 61,
                 sq_to_bit 56 ||| sq_to_bit 63,
                 sq_to_bit 59,
                 sq_to_bit 60],
      white_to_move := true, castling := 15, ep_square := -1,
      halfmove := 0, fullmove := 1 }

/-- A Board as produced by the Cython constructor: cleared position, empty
undo stack, invalid legal cache. -/
def freshBoard : Board :=
  clearBoard ⟨[], [], true, 0, -1, 0, 1, [], [], false⟩

/-- The standard starting position on a freshly constructed Board. -/
def startBoard : Board := set_start_position freshBoard

/-- The for i in range(12) scan for the first bitboard containing the
given bit; yields the piece type (index+1) or 0. -/
def pieceScanAux (bit : Nat) : List Nat → Nat → Nat
  | [], _ => 0
  | p :: ps, i => if p &&& bit ≠ 0 then i + 1 else pieceScanAux bit ps (i + 1)

def pieceScan (ps : List Nat) (bit : Nat) : Nat := pieceScanAux bit ps 0

/-- Source get_piece_at: piece type at square (0 none, 255 invalid). -/
def get_piece_at (b : Board) (sq : Int) : Nat :=
  if !sqOk sq then 255 else pieceScan b.pieces (sq_to_bit sq.toNat)

/-- The for sq in range(64) search of find_king_sq: first square of the
king bitboard, or -1. -/
def findKingAux (bb : Nat) : Nat → Nat → Int
  | 0, _ => -1
  | fuel + 1, sq =>
    if sq_to_bit sq &&& bb ≠ 0 then (sq : Int) else findKingAux bb fuel (sq + 1)

/-- Source find_king_sq. -/
def find_king_sq (b : Board) (isWhite : Bool) : Int :=
  findKingAux (b.pc (if isWhite then 5 else 11)) 64 0

/-- Source add_move: append to the move buffer unless it is full (256). -/
def addMove (buf : List Move) (fr toS promo : Nat) : List Move :=
  if 256 ≤ buf.length then buf else buf ++ [⟨fr, toS, promo⟩]

/-- The promotion fan-out loop: for p in range(4): add_move(sq, target, p+1). -/
def addPromos (buf : List Move) (fr toS : Nat) : List Move :=
  addMove (addMove (addMove (addMove buf fr toS 1) fr toS 2) fr toS 3) fr toS 4

/-- Ascending loop combinator: applies f at start, start+1, ...,
start+fuel-1, threading the move buffer. -/
def upFrom (f : Nat → List Move → List Move) : Nat → Nat → List Move → List Move
  | _, 0, acc => acc
  | start, fuel + 1, acc => upFrom f (start + 1) fuel (f start acc)

/-- One knight origin square of generate_knight_moves: loop over the eight
knight deltas with the L-shape wraparound check. -/
def knightStep (bb own : Nat) (sq : Nat) (acc : List Move) : List Move :=
  if sq_to_bit sq &&& bb = 0 then acc else
  KNIGHT_DELTAS.foldl (fun acc2 d =>
    let target : Int := (sq : Int) + d
    if sqOk target then
      let t := target.toNat
      let dx := Nat.dist (t % 8) (sq % 8)
      let dy := Nat.dist (t / 8) (sq / 8)
      if (dx == 1 && dy == 2) || (dx == 2 && dy == 1) then
        if sq_to_bit t &&& own = 0 then addMove acc2 sq t 0 else acc2
      else acc2
    else acc2) acc

/-- Source generate_knight_moves. -/
def generate_knight_moves (bb own : Nat) (buf : List Move) : List Move :=
  upFrom (knightStep bb own) 0 64 buf

/-- The single-push block of one pawn origin square of generate_pawn_moves,
with the nested double push and the promotion fan-out. -/
def pawnPushBlock (own opp : Nat) (side sq : Nat) (acc : List Move) : List Move :=
  let start_rank := (side == 0 && sq / 8 == 1) || (side == 1 && sq / 8 == 6)
  let target : Int := (sq : Int) + pawnPush side
  if sqOk target then
    let t := target.toNat
    if sq_to_bit t &&& (own ||| opp) = 0 then
      let acc1 :=
        if is_promo_rank t side then addPromos acc sq t
        else addMove acc sq t 0
      -- double push
      if start_rank then
        let dtarget : Int := (sq : Int) + pawnDouble side
        if sqOk dtarget then
          let dt := dtarget.toNat
          if sq_to_bit dt &&& (own ||| opp) = 0 then addMove acc1 sq dt 0
          else acc1
        else acc1
      else acc1
    else acc
  else acc

/-- One diagonal-capture block (west or east by capDelta) of one pawn
origin square, with the en-passant target test and promotion fan-out. -/
def pawnCapBlock (ep : Int) (opp : Nat) (side sq : Nat) (capDelta : Int)
    (acc : List Move) : List Move :=
  let target : Int := (sq : Int) + capDelta
  if sqOk target then
    let t := target.toNat
    if Nat.dist (t % 8) (sq % 8) = 1 then
      let rank_ok := (side == 0 && sq / 8 == 4) || (side == 1 && sq / 8 == 3)
      if sq_to_bit t &&& opp ≠ 0 ∨ (target = ep ∧ rank_ok = true) then
        if is_promo_rank t side then addPromos acc sq t
        else addMove acc sq t 0
      else acc
    else acc
  else acc

/-- One pawn origin square of generate_pawn_moves: single push with the
nested double push, then west and east captures. -/
def pawnStep (ep : Int) (bb own opp : Nat) (side : Nat) (sq : Nat)
    (acc : List Move) : List Move :=
  if sq_to_bit sq &&& bb = 0 then acc else
  pawnCapBlock ep opp side sq (pawnCapEast side)
    (pawnCapBlock ep opp side sq (pawnCapWest side)
      (pawnPushBlock own opp side sq acc))

/-- Source generate_pawn_moves. -/
def generate_pawn_moves (ep : Int) (bb own opp : Nat) (side : Nat)
    (buf : List Move) : List Move :=
  upFrom (pawnStep ep bb own opp side) 0 64 buf

/-- One ray of the sliding generators: walk from target in steps of
dirDelta, stopping off board, on a wraparound (the vertical, horizontal
and diagonal file-rank tests; the direction class is hoisted out of the
loop, where the source recomputes the same values each iteration), or at
the first blocker, adding the capture when the blocker is an enemy. Fuel
64 dominates the at most seven ray steps of the source while loop. -/
def slideRay (own opp : Nat) (sq : Nat) (dirDelta : Int) (vertical horizontal : Bool) :
    Nat → Int → List Move → List Move
  | 0, _, acc => acc
  | fuel + 1, target, acc =>
    if sqOk target then
      let t := target.toNat
      if vertical = true ∧ (t &&& 7) ≠ (sq &&& 7) then acc
      else if vertical = false ∧ horizontal = true ∧ t / 8 ≠ sq / 8 then acc
      else if vertical = false ∧ horizontal = false ∧
          Nat.dist (t &&& 7) (sq &&& 7) ≠ Nat.dist (t / 8) (sq / 8) then acc
      else if sq_to_bit t &&& (own ||| opp) ≠ 0 then
        (if sq_to_bit t &&& opp ≠ 0 then addMove acc sq t 0 else acc)
      else slideRay own opp sq dirDelta vertical horizontal fuel (target + dirDelta)
             (addMove acc sq t 0)
    else acc

/-- One slider origin square: walk every direction of dirs. -/
def sliderStep (dirs : List Int) (bb own opp : Nat) (sq : Nat)
    (acc : List Move) : List Move :=
  if sq_to_bit sq &&& bb = 0 then acc else
  dirs.foldl (fun acc2 d =>
    slideRay own opp sq d (d == 8 || d == -8) (d == 1 || d == -1) 64
      ((sq : Int) + d) acc2) acc

/-- Source generate_rook_moves. -/
def generate_rook_moves (bb own opp : Nat) (buf : List Move) : List Move :=
  upFrom (sliderStep ROOK_DIRECTIONS bb own opp) 0 64 buf

/-- Source generate_bishop_moves. -/
def generate_bishop_moves (bb own opp : Nat) (buf : List Move) : List Move :=
  upFrom (sliderStep BISHOP_DIRECTIONS bb own opp) 0 64 buf

/-- Source generate_queen_moves. -/
def generate_queen_moves (bb own opp : Nat) (buf : List Move) : List Move :=
  upFrom (sliderStep QUEEN_DIRECTIONS bb own opp) 0 64 buf

/-- One reverse pawn-capture probe of square_attacked against the
attacking side's pawn bitboard. -/
def pawnProbe (pawnBB : Nat) (sq : Int) (rev : Int) : Bool :=
  let probe := sq + rev
  if sqOk probe then
    let p := probe.toNat
    if (((p % 8 : Nat) : Int) - sq.tmod 8).natAbs = 1 then
      sq_to_bit p &&& pawnBB ≠ 0
    else false
  else false

/-- One ray of the slider part of square_attacked: walk by rev from sq,
break on leaving the line (diag selects the diagonal test), and test the
first blocker against attMask. -/
def attackRay (allOcc attMask : Nat) (origFile origRank : Int) (rev : Int)
    (diag : Bool) : Nat → Int → Bool
  | 0, _ => false
  | fuel + 1, probe =>
    if sqOk probe then
      let p := probe.toNat
      let dfile : Int := ((p % 8 : Nat) : Int) - origFile
      let drank : Int := ((p / 8 : Nat) : Int) - origRank
      if (if diag then dfile.natAbs ≠ drank.natAbs else dfile ≠ 0 ∧ drank ≠ 0) then
        false
      else if sq_to_bit p &&& allOcc ≠ 0 then sq_to_bit p &&& attMask ≠ 0
      else attackRay allOcc attMask origFile origRank rev diag fuel (probe + rev)
    else false

/-- Source square_attacked: reverse pawn probes, knight and king offsets,
then orthogonal rays for rook/queen and diagonal rays for bishop/queen.
The piece bitboards the source reads inside its loops are hoisted. -/
def square_attacked (b : Board) (sq : Int) (attackerWhite : Bool) : Bool :=
  let att_side : Nat := if attackerWhite then 0 else 1
  let pawnBB := b.pc (if attackerWhite then 0 else 6)
  let knightBB := b.pc (if attackerWhite then 1 else 7)
  let kingBB := b.pc (if attackerWhite then 5 else 11)
  pawnProbe pawnBB sq (-(pawnCapWest att_side)) ||
  pawnProbe pawnBB sq (-(pawnCapEast att_side)) ||
  (KNIGHT_DELTAS.any (fun d =>
    let probe := sq + d
    if sqOk probe then
      let p := probe.toNat
      let dx := (((p % 8 : Nat) : Int) - sq.tmod 8).natAbs
      let dy := (((p / 8 : Nat) : Int) - sq.tdiv 8).natAbs
      if (dx == 1 && dy == 2) || (dx == 2 && dy == 1) then
        sq_to_bit p &&& knightBB ≠ 0
      else false
    else false)) ||
  (KING_DELTAS.any (fun d =>
    let probe := sq + d
    if sqOk probe then
      let p := probe.toNat
      let dx : Int := ((p % 8 : Nat) : Int) - sq.tmod 8
      let dy : Int := ((p / 8 : Nat) : Int) - sq.tdiv 8
      if dx.natAbs ≤ 1 ∧ dy.natAbs ≤ 1 ∧ (dx ≠ 0 ∨ dy ≠ 0) then
        sq_to_bit p &&& kingBB ≠ 0
      else false
    else false)) ||
  (let att_rook := b.pc (if attackerWhite then 3 else 9) |||
                   b.pc (if attackerWhite then 4 else 10)
   ROOK_DIRECTIONS.any (fun d =>
     attackRay (b.occ 2) att_rook (sq.tmod 8) (sq.tdiv 8) (-d) false 64 (sq + -d))) ||
  (let att_bishop := b.pc (if attackerWhite then 2 else 8) |||
                     b.pc (if attackerWhite then 4 else 10)
   BISHOP_DIRECTIONS.any (fun d =>
     attackRay (b.occ 2) att_bishop (sq.tmod 8) (sq.tdiv 8) (-d) true 64 (sq + -d)))

/-- Source is_in_check: with check_invalid the roles are swapped
(defender_white = white_to_move xor check_invalid). -/
def is_in_check (b : Board) (check_invalid : Bool) : Bool :=
  let defender_white := xor b.white_to_move check_invalid
  square_attacked b (find_king_sq b defender_white) (!defender_white)

/-- The normal king steps of generate_king_moves: the eight king deltas
with the one-step wraparound check. -/
def kingNormal (own : Nat) (king_sq : Nat) (buf : List Move) : List Move :=
  KING_DELTAS.foldl (fun acc d =>
    let target : Int := (king_sq : Int) + d
    if sqOk target then
      let t := target.toNat
      if Nat.dist (t / 8) (king_sq / 8) ≤ 1 ∧ Nat.dist (t % 8) (king_sq % 8) ≤ 1 then
        if sq_to_bit t &&& own = 0 then addMove acc king_sq t 0 else acc
      else acc
    else acc) buf

/-- Source generate_king_moves: normal king steps, then castling unless
the side to move is in check. A missing king fails an assert in the
source; that aborting path is modelled as leaving the buffer unchanged. -/
def generate_king_moves (b : Board) (bb own : Nat) (buf : List Move) : List Move :=
  let king_find := findKingAux bb 64 0
  if king_find = -1 then buf else
  let king_sq := king_find.toNat
  let buf1 := kingNormal own king_sq buf
  if is_in_check b false then buf1 else
  if b.white_to_move then
    let buf2 :=
      if b.castling &&& 1 ≠ 0 ∧ king_sq = 4 ∧
         b.occ 2 &&& (sq_to_bit 5 ||| sq_to_bit 6) = 0 ∧
         square_attacked b 6 false = false ∧ square_attacked b 5 false = false
      then addMove buf1 4 6 0 else buf1
    if b.castling &&& 2 ≠ 0 ∧ king_sq = 4 ∧
       b.occ 2 &&& (sq_to_bit 1 ||| sq_to_bit 2 ||| sq_to_bit 3) = 0 ∧
       square_attacked b 2 false = false ∧ square_attacked b 3 false = false
    then addMove buf2 4 2 0 else buf2
  else
    let buf2 :=
      if b.castling &&& 4 ≠ 0 ∧ king_sq = 60 ∧
         b.occ 2 &&& (sq_to_bit 61 ||| sq_to_bit 62) = 0 ∧
         square_attacked b 62 true = false ∧ square_attacked b 61 true = false
      then addMove buf1 60 62 0 else buf1
    if b.castling &&& 8 ≠ 0 ∧ king_sq = 60 ∧
       b.occ 2 &&& (sq_to_bit 57 ||| sq_to_bit 58 ||| sq_to_bit 59) = 0 ∧
       square_attacked b 58 true = false ∧ square_attacked b 59 true = false
    then addMove buf2 60 58 0 else buf2

/-- Source generate_pseudo_legal_moves: pawns, knights, kings, rooks,
bishops, queens for the side to move; invalidates the legal cache and
rebuilds the move buffer. -/
def generate_pseudo_legal_moves (b : Board) : Board :=
  let own := b.occ (if b.white_to_move then 0 else 1)
  let opp := b.occ (if b.white_to_move then 1 else 0)
  let side : Nat := if b.white_to_move then 0 else 1
  let buf := generate_pawn_moves b.ep_square
               (b.pc (if b.white_to_move then 0 else 6)) own opp side []
  let buf := generate_knight_moves (b.pc (if b.white_to_move then 1 else 7)) own buf
  let buf := generate_king_moves b (b.pc (if b.white_to_move then 5 else 11)) own buf
  let buf := generate_rook_moves (b.pc (if b.white_to_move then 3 else 9)) own opp buf
  let buf := generate_bishop_moves (b.pc (if b.white_to_move then 2 else 8)) own opp buf
  let buf := generate_queen_moves (b.pc (if b.white_to_move then 4 else 10)) own opp buf
  { b with movesBuf := buf, legal_valid := false }

/-- Source set_piece (internal): invalidate the cache, clear the square
from every piece mask and the occupancy masks, then place the new piece. -/
def set_piece (b : Board) (sq : Int) (piece_type : Nat) : Board :=
  if !sqOk sq then { b with legal_valid := false } else
  let n := sq.toNat
  let ps := b.pieces.map (fun m => bclear m n)
  let os := b.occupancy.map (fun m => bclear m n)
  if piece_type ≠ 0 then
    { b with
        legal_valid := false,
        pieces := lset ps (piece_type - 1) n,
        occupancy := lset (lset os (if piece_type ≤ 6 then 0 else 1) n) 2 n }
  else { b with legal_valid := false, pieces := ps, occupancy := os }

/-- The piece-bitboard effect of make_move: clear the mover from fr, clear
a captured piece and the en-passant captured pawn, relocate the castle
rook, place the mover at to, and apply the promotion override (the source
routes it through set_piece, which clears the square from every mask and
then places the promoted piece). The occupancy stores the source threads
along these edits are dead: the final update_occupancy recompute
overwrites them. -/
def makePieces (ps0 : List Nat) (wtm : Bool) (fr_sq to_sq promo mover_type cap_type : Nat)
    (ep_captured_sq castle_rook_fr : Int) : List Nat :=
  let ps := lclr ps0 (mover_type - 1) fr_sq
  let ps := if cap_type ≠ 0 then lclr ps (cap_type - 1) to_sq else ps
  let ps :=
    if ep_captured_sq ≠ -1 then
      lclr ps ((if wtm then 7 else 1) - 1) ep_captured_sq.toNat
    else ps
  let mover_side : Nat := if mover_type ≤ 6 then 0 else 1
  let ps :=
    if castle_rook_fr ≠ -1 then
      let rook_to := if fr_sq < to_sq then to_sq - 1 else to_sq + 1
      let rook_type : Nat := if mover_side = 0 then 4 else 10
      lset (lclr ps (rook_type - 1) castle_rook_fr.toNat) (rook_type - 1) rook_to
    else ps
  let ps := lset ps (mover_type - 1) to_sq
  if promo ≠ 0 then
    lset (ps.map (fun m => bclear m to_sq))
      (promoPieces mover_side (promo - 1) - 1) to_sq
  else ps

/-- The success path of make_move, once the argument, stack and mover
checks have passed: record the undo state, move the bits, then update
flags, counters, the recomputed castling rights, and occupancy. -/
def make_move_apply (b0 : Board) (fr_sq to_sq promo mover_type : Nat) : Board :=
  let cap_type := pieceScan b0.pieces (sq_to_bit to_sq)
  let mover_side : Nat := if mover_type ≤ 6 then 0 else 1
  -- detect specials before changing anything
  let ep_captured_sq : Int :=
    if (mover_type = 1 ∨ mover_type = 7) ∧ b0.ep_square = (to_sq : Int) then
      (to_sq : Int) + (if b0.white_to_move then -8 else 8)
    else -1
  let castle_rook_fr : Int :=
    if (mover_type = 6 ∨ mover_type = 12) ∧ Nat.dist fr_sq to_sq = 2 ∧
       fr_sq / 8 = to_sq / 8 then
      (if mover_side = 0 then (if fr_sq < to_sq then 7 else 0)
       else (if fr_sq < to_sq then 63 else 56))
    else -1
  -- record undo (pre-change)
  let und : UndoState :=
    ⟨fr_sq, to_sq, mover_type, cap_type, b0.castling, promo,
     b0.ep_square, ep_captured_sq, castle_rook_fr, b0.halfmove, b0.fullmove⟩
  let ps := makePieces b0.pieces b0.white_to_move fr_sq to_sq promo mover_type
              cap_type ep_captured_sq castle_rook_fr
  -- state updates
  let wtm := !b0.white_to_move
  let halfmove :=
    if mover_type = 1 ∨ mover_type = 7 ∨ cap_type ≠ 0 then 0
    else (b0.halfmove + 1) % 65536
  let fullmove := if wtm = false then (b0.fullmove + 1) % 65536 else b0.fullmove
  let ep_square : Int :=
    if (mover_type = 1 ∨ mover_type = 7) ∧ Nat.dist to_sq fr_sq = 16 then
      (fr_sq : Int) + pawnPush mover_side
    else -1
  -- castling rights recomputed from piece placement
  let cr1 : Nat :=
    if ps.getD 5 0 &&& sq_to_bit 4 ≠ 0 ∧ ps.getD 3 0 &&& sq_to_bit 7 ≠ 0 then 1 else 0
  let cr2 :=
    if ps.getD 5 0 &&& sq_to_bit 4 ≠ 0 ∧ ps.getD 3 0 &&& sq_to_bit 0 ≠ 0 then cr1 ||| 2 else cr1
  let cr3 :=
    if ps.getD 11 0 &&& sq_to_bit 60 ≠ 0 ∧ ps.getD 9 0 &&& sq_to_bit 63 ≠ 0 then cr2 ||| 4 else cr2
  let cr4 :=
    if ps.getD 11 0 &&& sq_to_bit 60 ≠ 0 ∧ ps.getD 9 0 &&& sq_to_bit 56 ≠ 0 then cr3 ||| 8 else cr3
  { b0 with
      pieces := ps, occupancy := occOf ps, white_to_move := wtm,
      castling := cr4, ep_square := ep_square, halfmove := halfmove,
      fullmove := fullmove, undo_stack := und :: b0.undo_stack,
      legal_valid := false }

/-- Source make_move (internal, uint8 arguments): validate, then apply. -/
def make_move (b0 : Board) (fr_sq to_sq promo : Nat) : Bool × Board :=
  if 64 ≤ fr_sq ∨ 64 ≤ to_sq then (false, { b0 with legal_valid := false }) else
  if 1024 ≤ b0.undo_stack.length then (false, { b0 with legal_valid := false }) else
  let mover_type := pieceScan b0.pieces (sq_to_bit fr_sq)
  if mover_type = 0 then (false, { b0 with legal_valid := false }) else
  (true, make_move_apply b0 fr_sq to_sq promo mover_type)

/-- Source make_move (public): casts its int arguments to uint8. -/
def make_move_pub (b : Board) (fr_sq to_sq : Int) (promo : Nat) : Bool × Board :=
  make_move b (fr_sq % 256).toNat (to_sq % 256).toNat promo

/-- The piece-bitboard effect of undo_move: remove the mover or promoted
piece from to, restore the captured piece, the en-passant captured pawn
and the castle rook, and restore the mover at fr. -/
def undoPieces (ps0 : List Nat) (und : UndoState) : List Nat :=
  let mover_side : Nat := if und.mover_type ≤ 6 then 0 else 1
  let ps :=
    if und.promo = 0 then lclr ps0 (und.mover_type - 1) und.to_sq
    else lclr ps0 (promoPieces mover_side (und.promo - 1) - 1) und.to_sq
  let ps := if und.cap_type ≠ 0 then lset ps (und.cap_type - 1) und.to_sq else ps
  let ps :=
    if und.ep_captured_sq ≠ -1 then
      lset ps ((if und.mover_type ≤ 6 then 7 else 1) - 1) und.ep_captured_sq.toNat
    else ps
  let ps :=
    if und.castle_rook_fr ≠ -1 then
      let rook_to := if und.fr_sq < und.to_sq then und.to_sq - 1 else und.to_sq + 1
      let rook_type : Nat :=
        if und.mover_type = 6 then 4 else if und.mover_type = 12 then 10 else 0
      if rook_type ≠ 0 then
        lset (lclr ps (rook_type - 1) rook_to) (rook_type - 1) und.castle_rook_fr.toNat
      else ps
    else ps
  lset ps (und.mover_type - 1) und.fr_sq

/-- Source undo_move: no-op when the stack is empty, else pop the record,
invert the make in reverse order, restore flags and counters verbatim,
flip the side back and recompute occupancy (which overwrites the dead
incremental occupancy stores of the source). -/
def undo_move (b0 : Board) : Board :=
  match b0.undo_stack with
  | [] => b0
  | und :: rest =>
    let ps := undoPieces b0.pieces und
    { b0 with
        pieces := ps, occupancy := occOf ps,
        white_to_move := !b0.white_to_move, castling := und.castling,
        ep_square := und.ep_square, halfmove := und.halfmove,
        fullmove := und.fullmove, undo_stack := rest, legal_valid := false }

/-- The filtering loop of generate_legal_moves: make each pseudo-legal
move, keep it when the mover's king is safe, and undo. -/
def legalLoop : List Move → Board → List Move → Board × List Move
  | [], b, acc => (b, acc)
  | m :: ms, b, acc =>
    let r := make_move b m.fr_sq m.to_sq m.promo
    if r.1 then
      legalLoop ms (undo_move r.2)
        (if is_in_check r.2 true then acc else acc ++ [m])
    else legalLoop ms r.2 acc

/-- Source generate_legal_moves: return the cached list when it is valid
and force is not set, else generate pseudo-legal moves and filter them by
king safety; yields the board and the legal move count. -/
def generate_legal_moves (b : Board) (force : Bool) : Board × Nat :=
  if b.legal_valid ∧ force = false then (b, b.movesBuf.length) else
  let b1 := generate_pseudo_legal_moves b
  let p := legalLoop b1.movesBuf b1 []
  ({ p.1 with movesBuf := p.2, legal_valid := true }, p.2.length)

/-- The legal move list of a position, as generate_legal_moves leaves it
in the move buffer. -/
def legalList (b : Board) : List Move := (generate_legal_moves b false).1.movesBuf

/-- The recursion of perft over the cached move list (move_cache[depth]). -/
def perftGo (f : Board → Board × Nat) : List Move → Board → Nat → Board × Nat
  | [], b, acc => (b, acc)
  | m :: ms, b, acc =>
    let r := make_move b m.fr_sq m.to_sq m.promo
    if r.1 then
      let s := f r.2
      perftGo f ms (undo_move s.1) (acc + s.2)
    else perftGo f ms r.2 acc

/-- Source perft. -/
def perft : Board → Nat → Board × Nat
  | b, 0 => (b, 1)
  | b, d + 1 =>
    let p := generate_legal_moves b false
    perftGo (fun bb => perft bb d) p.1.movesBuf p.1 0

/-- Source game_result: None while a legal move exists, -1 for a win by
Black, 1 for a win by White (checkmate of the side to move), 0 for
stalemate. -/
def game_result (b : Board) : Board × Option Int :=
  let p := generate_legal_moves b false
  if 0 < p.1.movesBuf.length then (p.1, none)
  else if is_in_check p.1 false then
    (p.1, some (if p.1.white_to_move then -1 else 1))
  else (p.1, some 0)


/-! ## Well-formedness invariants of a Board -/

/-- The occupancy part of well-formedness: twelve bitboards below 2^64,
pairwise disjoint, with the occupancy masks equal to their recompute. -/
abbrev WFocc (b : Board) : Prop :=
  b.pieces.length = 12 ∧ (∀ i < 12, b.pc i < 2 ^ 64) ∧
  (∀ i < 12, ∀ j < 12, i ≠ j → b.pc i &&& b.pc j = 0) ∧
  b.occupancy = occOf b.pieces

/-- Each castling-right bit implies the king and the matching rook stand on
their original squares (make_move recomputes the rights from placement). -/
abbrev CastleWF (b : Board) : Prop :=
  (b.castling &&& 1 ≠ 0 → (b.pc 5).testBit 4 = true ∧ (b.pc 3).testBit 7 = true) ∧
  (b.castling &&& 2 ≠ 0 → (b.pc 5).testBit 4 = true ∧ (b.pc 3).testBit 0 = true) ∧
  (b.castling &&& 4 ≠ 0 → (b.pc 11).testBit 60 = true ∧ (b.pc 9).testBit 63 = true) ∧
  (b.castling &&& 8 ≠ 0 → (b.pc 11).testBit 60 = true ∧ (b.pc 9).testBit 56 = true)

/-- The en-passant square is unset, or records the double push the opponent
just made: an empty square behind the pushed pawn, on the rank make_move
assigns. -/
abbrev EpOk (b : Board) : Prop :=
  b.ep_square = -1 ∨
  (b.white_to_move = true ∧ 40 ≤ b.ep_square ∧ b.ep_square < 48 ∧
    (b.pc 6).testBit (b.ep_square.toNat - 8) = true ∧
    (b.occ 2).testBit b.ep_square.toNat = false) ∨
  (b.white_to_move = false ∧ 16 ≤ b.ep_square ∧ b.ep_square < 24 ∧
    (b.pc 0).testBit (b.ep_square.toNat + 8) = true ∧
    (b.occ 2).testBit b.ep_square.toNat = false)

/-- Well-formed board state. -/
abbrev WF (b : Board) : Prop :=
  WFocc b ∧ b.castling < 16 ∧ CastleWF b ∧ EpOk b

/-- The occupancy invariant of the specification: the side masks are
disjoint, the combined mask is their union, and every combined bit is set
in exactly one piece bitboard. -/
def OccInv (b : Board) : Prop :=
  b.occ 0 &&& b.occ 1 = 0 ∧
  b.occ 2 = b.occ 0 ||| b.occ 1 ∧
  (∀ s, (b.occ 2).testBit s = true → ∃! i, i < 12 ∧ (b.pc i).testBit s = true)


/-! ## Pseudo-legal move shapes (what each generator block can emit) -/

/-- What pawnPushBlock can add for origin sq. -/
def pushEmit (own opp : Nat) (side sq : Nat) (m : Move) : Prop :=
  sqOk ((sq : Int) + pawnPush side) = true ∧ m.fr_sq = sq ∧
  (own ||| opp).testBit ((sq : Int) + pawnPush side).toNat = false ∧
  ((m.to_sq = ((sq : Int) + pawnPush side).toNat ∧
     (is_promo_rank m.to_sq side = true ∧ 1 ≤ m.promo ∧ m.promo ≤ 4 ∨
      is_promo_rank m.to_sq side = false ∧ m.promo = 0)) ∨
   (m.promo = 0 ∧
     ((side == 0 && sq / 8 == 1) || (side == 1 && sq / 8 == 6)) = true ∧
     sqOk ((sq : Int) + pawnDouble side) = true ∧
     m.to_sq = ((sq : Int) + pawnDouble side).toNat ∧
     (own ||| opp).testBit m.to_sq = false))

/-- What pawnCapBlock can add for origin sq and capture delta. -/
def capEmit (ep : Int) (opp : Nat) (side sq : Nat) (capDelta : Int) (m : Move) : Prop :=
  sqOk ((sq : Int) + capDelta) = true ∧ m.fr_sq = sq ∧
  m.to_sq = ((sq : Int) + capDelta).toNat ∧
  Nat.dist (m.to_sq % 8) (sq % 8) = 1 ∧
  (opp.testBit m.to_sq = true ∨ ((sq : Int) + capDelta = ep ∧
    ((side == 0 && sq / 8 == 4) || (side == 1 && sq / 8 == 3)) = true)) ∧
  (is_promo_rank m.to_sq side = true ∧ 1 ≤ m.promo ∧ m.promo ≤ 4 ∨
   is_promo_rank m.to_sq side = false ∧ m.promo = 0)

/-- What knightStep and the slider generators can add: a move from the
origin to a board square that is not occupied by the mover's side. -/
def stepEmit (own opp : Nat) (sq : Nat) (m : Move) : Prop :=
  m.fr_sq = sq ∧ m.to_sq < 64 ∧ m.promo = 0 ∧
  (own.testBit m.to_sq = false ∨ opp.testBit m.to_sq = true)

/-- What the normal-step part of generate_king_moves can add: one king
step, within one file and one rank of the origin. -/
def kingStepEmit (own ksq : Nat) (m : Move) : Prop :=
  m.fr_sq = ksq ∧ m.to_sq < 64 ∧ m.promo = 0 ∧ own.testBit m.to_sq = false ∧
  Nat.dist (m.to_sq / 8) (ksq / 8) ≤ 1 ∧ Nat.dist (m.to_sq % 8) (ksq % 8) ≤ 1

/-! ## Pseudo-legal move property (what make/undo relies on) -/

/-- The side's occupancy mask index. -/
def sideIdx (wtm : Bool) : Nat := if wtm then 0 else 1

/-- Promotion code consistency: nonzero only for a pawn reaching the last
rank, and then between 1 and 4. -/
abbrev PromoOkP (m : Move) (i : Nat) : Prop :=
  m.promo = 0 ∨ (1 ≤ m.promo ∧ m.promo ≤ 4 ∧
    ((i = 0 ∧ m.to_sq / 8 = 7) ∨ (i = 6 ∧ m.to_sq / 8 = 0)))

/-- A pawn move spanning 16 squares is a double push from the start rank
over an empty intermediate square. -/
abbrev DoubleOkP (b : Board) (m : Move) (i : Nat) : Prop :=
  (i = 0 → Nat.dist m.to_sq m.fr_sq = 16 →
    m.fr_sq / 8 = 1 ∧ m.to_sq = m.fr_sq + 16 ∧
    (b.occ 2).testBit (m.fr_sq + 8) = false) ∧
  (i = 6 → Nat.dist m.to_sq m.fr_sq = 16 →
    m.fr_sq / 8 = 6 ∧ m.to_sq + 16 = m.fr_sq ∧
    (b.occ 2).testBit (m.fr_sq - 8) = false)

/-- A king move spanning two files on one rank is one of the four castle
moves, with the matching right bit set and the squares between king and
rook empty. -/
abbrev CastleOkP (b : Board) (m : Move) (i : Nat) : Prop :=
  (i = 5 ∨ i = 11) → Nat.dist m.fr_sq m.to_sq = 2 → m.fr_sq / 8 = m.to_sq / 8 →
    ((i = 5 ∧ m.fr_sq = 4 ∧
       ((m.to_sq = 6 ∧ b.castling &&& 1 ≠ 0 ∧
          b.occ 2 &&& (sq_to_bit 5 ||| sq_to_bit 6) = 0) ∨
        (m.to_sq = 2 ∧ b.castling &&& 2 ≠ 0 ∧
          b.occ 2 &&& (sq_to_bit 1 ||| sq_to_bit 2 ||| sq_to_bit 3) = 0))) ∨
     (i = 11 ∧ m.fr_sq = 60 ∧
       ((m.to_sq = 62 ∧ b.castling &&& 4 ≠ 0 ∧
          b.occ 2 &&& (sq_to_bit 61 ||| sq_to_bit 62) = 0) ∨
        (m.to_sq = 58 ∧ b.castling &&& 8 ≠ 0 ∧
          b.occ 2 &&& (sq_to_bit 57 ||| sq_to_bit 58 ||| sq_to_bit 59) = 0))))

/-- A pseudo-legal move of piece bitboard i: in-board squares, mover of the
side to move standing on the from square, the to square free of the
mover's side, and the promotion, double-push and castling consistency
conditions the generators guarantee. -/
abbrev GoodMoveAt (b : Board) (m : Move) (i : Nat) : Prop :=
  m.fr_sq < 64 ∧ m.to_sq < 64 ∧ m.promo ≤ 4 ∧ i < 12 ∧
  (b.white_to_move = true → i < 6) ∧ (b.white_to_move = false → 6 ≤ i) ∧
  (b.pc i).testBit m.fr_sq = true ∧
  (b.occ (sideIdx b.white_to_move)).testBit m.to_sq = false ∧
  PromoOkP m i ∧ DoubleOkP b m i ∧ CastleOkP b m i

/-- A pseudo-legal move: GoodMoveAt for some piece bitboard. -/
def GoodMove (b : Board) (m : Move) : Prop := ∃ i, GoodMoveAt b m i


/-- What the castling part of generate_king_moves can add: the side to
move not in check, and one of the four castle moves with its right bit,
empty between-squares and unattacked transit squares. -/
def kingCastleEmit (b : Board) (m : Move) : Prop :=
  is_in_check b false = false ∧
  ((b.white_to_move = true ∧
     ((m = ⟨4, 6, 0⟩ ∧ b.castling &&& 1 ≠ 0 ∧
        b.occ 2 &&& (sq_to_bit 5 ||| sq_to_bit 6) = 0 ∧
        square_attacked b 6 false = false ∧ square_attacked b 5 false = false) ∨
      (m = ⟨4, 2, 0⟩ ∧ b.castling &&& 2 ≠ 0 ∧
        b.occ 2 &&& (sq_to_bit 1 ||| sq_to_bit 2 ||| sq_to_bit 3) = 0 ∧
        square_attacked b 2 false = false ∧ square_attacked b 3 false = false))) ∨
   (b.white_to_move = false ∧
     ((m = ⟨60, 62, 0⟩ ∧ b.castling &&& 4 ≠ 0 ∧
        b.occ 2 &&& (sq_to_bit 61 ||| sq_to_bit 62) = 0 ∧
        square_attacked b 62 true = false ∧ square_attacked b 61 true = false) ∨
      (m = ⟨60, 58, 0⟩ ∧ b.castling &&& 8 ≠ 0 ∧
        b.occ 2 &&& (sq_to_bit 57 ||| sq_to_bit 58 ||| sq_to_bit 59) = 0 ∧
        square_attacked b 58 true = false ∧ square_attacked b 59 true = false))))


/-- The board index that ends holding the mover after a (possible)
promotion override. -/
def moveTarget (promo mt : Nat) : Nat :=
  if promo = 0 then mt - 1
  else promoPieces (if mt ≤ 6 then 0 else 1) (promo - 1) - 1

/-- Positions reachable from the start position by playing legal moves
through make_move. -/
inductive Reachable : Board → Prop where
  | start : Reachable startBoard
  | step {b : Board} {m : Move} : Reachable b → m ∈ legalList b →
      Reachable (make_move b m.fr_sq m.to_sq m.promo).2


/-! ## Bit-level toolkit -/

theorem sq_to_bit_eq (s : Nat) : sq_to_bit s = 2 ^ s := by
  simp [sq_to_bit, Nat.shiftLeft_eq]

theorem testBit_sq_to_bit (s i : Nat) :
    (sq_to_bit s).testBit i = decide (i = s) := by
  rw [sq_to_bit_eq]
  rcases eq_or_ne i s with h | h
  · subst h; simp [Nat.testBit_two_pow_self]
  · simp [Nat.testBit_two_pow_of_ne (Ne.symm h), h]

theorem sq_to_bit_lt (s : Nat) (h : s < 64) : sq_to_bit s < 2 ^ 64 := by
  rw [sq_to_bit_eq]
  exact Nat.pow_lt_pow_right (by norm_num) h

theorem testBit_ge_64 {x : Nat} (hx : x < 2 ^ 64) {i : Nat} (hi : 64 ≤ i) :
    x.testBit i = false := by
  by_contra h
  have := Nat.testBit_implies_ge (x := x) (i := i) (by simpa using h)
  have : (2 : Nat) ^ 64 ≤ 2 ^ i := Nat.pow_le_pow_right (by norm_num) hi
  omega

theorem mask_ext64 {x y : Nat} (hx : x < 2 ^ 64) (hy : y < 2 ^ 64)
    (h : ∀ i < 64, x.testBit i = y.testBit i) : x = y := by
  apply Nat.eq_of_testBit_eq
  intro i
  rcases lt_or_ge i 64 with hi | hi
  · exact h i hi
  · rw [testBit_ge_64 hx hi, testBit_ge_64 hy hi]

theorem testBit_mask64 (i : Nat) : mask64.testBit i = decide (i < 64) := by
  show ((2 : Nat) ^ 64 - 1).testBit i = decide (i < 64)
  rw [Nat.testBit_two_pow_sub_one]

theorem testBit_bclear (m s i : Nat) (hi : i < 64) :
    (bclear m s).testBit i = (m.testBit i && !(decide (i = s))) := by
  simp [bclear, Nat.testBit_land, Nat.testBit_xor, testBit_mask64,
    testBit_sq_to_bit, hi]

theorem testBit_bset (m s i : Nat) :
    (bset m s).testBit i = (m.testBit i || decide (i = s)) := by
  simp [bset, Nat.testBit_lor, testBit_sq_to_bit]

theorem bclear_le (m s : Nat) : bclear m s ≤ m := Nat.and_le_left

theorem bclear_lt (m s : Nat) (hm : m < 2 ^ 64) : bclear m s < 2 ^ 64 :=
  Nat.lt_of_le_of_lt (bclear_le m s) hm

theorem bset_lt (m s : Nat) (hm : m < 2 ^ 64) (hs : s < 64) :
    bset m s < 2 ^ 64 :=
  Nat.or_lt_two_pow hm (sq_to_bit_lt s hs)

theorem bset_bclear (x s : Nat) (hx : x < 2 ^ 64) (hs : s < 64)
    (h : x.testBit s = true) : bset (bclear x s) s = x := by
  apply mask_ext64 (bset_lt _ _ (bclear_lt _ _ hx) hs) hx
  intro i hi
  rw [testBit_bset, testBit_bclear _ _ _ hi]
  rcases eq_or_ne i s with rfl | hne
  · simp [h]
  · simp [hne]

theorem bclear_bset (x s : Nat) (hx : x < 2 ^ 64) (hs : s < 64)
    (h : x.testBit s = false) : bclear (bset x s) s = x := by
  apply mask_ext64 (bclear_lt _ _ (bset_lt _ _ hx hs)) hx
  intro i hi
  rw [testBit_bclear _ _ _ hi, testBit_bset]
  rcases eq_or_ne i s with rfl | hne
  · simp [h]
  · simp [hne]

theorem bclear_noop (x s : Nat) (hx : x < 2 ^ 64)
    (h : x.testBit s = false) : bclear x s = x := by
  apply mask_ext64 (bclear_lt _ _ hx) hx
  intro i hi
  rw [testBit_bclear _ _ _ hi]
  rcases eq_or_ne i s with rfl | hne
  · simp [h]
  · simp [hne]

theorem land_sq_to_bit_eq_zero (p s : Nat) :
    (p &&& sq_to_bit s = 0) ↔ p.testBit s = false := by
  constructor
  · intro h
    have := congrArg (fun x => Nat.testBit x s) h
    simpa [Nat.testBit_land, testBit_sq_to_bit] using this
  · intro h
    apply Nat.eq_of_testBit_eq
    intro i
    rcases eq_or_ne i s with rfl | hne
    · simp [Nat.testBit_land, testBit_sq_to_bit, h]
    · simp [Nat.testBit_land, testBit_sq_to_bit, hne]

theorem sq_to_bit_land_eq_zero (p s : Nat) :
    (sq_to_bit s &&& p = 0) ↔ p.testBit s = false := by
  rw [Nat.land_comm]
  exact land_sq_to_bit_eq_zero p s

theorem land_eq_zero_iff_testBit {x y : Nat} :
    x &&& y = 0 ↔ ∀ i, x.testBit i = false ∨ y.testBit i = false := by
  constructor
  · intro h i
    have := congrArg (fun z => Nat.testBit z i) h
    simp only [Nat.testBit_land, Nat.zero_testBit] at this
    rcases Bool.and_eq_false_iff.mp this with h' | h'
    · exact Or.inl h'
    · exact Or.inr h'
  · intro h
    apply Nat.eq_of_testBit_eq
    intro i
    simp only [Nat.testBit_land, Nat.zero_testBit]
    rcases h i with h' | h' <;> simp [h']

/-! ## List access toolkit -/

theorem getD_set_self (l : List Nat) (i : Nat) (x : Nat) (h : i < l.length) :
    (l.set i x).getD i 0 = x := by
  induction l generalizing i with
  | nil => simp at h
  | cons a t ih =>
    cases i with
    | zero => simp
    | succ n =>
      simp only [List.set, List.getD, List.getElem?_cons_succ]
      have := ih n (by simpa using h)
      simpa [List.getD] using this

theorem getD_set_ne (l : List Nat) (i j : Nat) (x : Nat) (h : i ≠ j) :
    (l.set i x).getD j 0 = l.getD j 0 := by
  induction l generalizing i j with
  | nil => simp
  | cons a t ih =>
    cases i with
    | zero =>
      cases j with
      | zero => exact absurd rfl h
      | succ n => simp [List.getD]
    | succ n =>
      cases j with
      | zero => simp [List.getD]
      | succ k =>
        simp only [List.set, List.getD, List.getElem?_cons_succ]
        have := ih n k (by omega)
        simpa [List.getD] using this

theorem getD_map_bclear (l : List Nat) (s j : Nat) :
    (l.map (fun m => bclear m s)).getD j 0 = bclear (l.getD j 0) s := by
  induction l generalizing j with
  | nil => simp [List.getD, bclear]
  | cons a t ih =>
    cases j with
    | zero => simp [List.getD]
    | succ n => simpa [List.getD] using ih n

theorem length_lclr (l : List Nat) (i s : Nat) : (lclr l i s).length = l.length := by
  simp [lclr]

theorem length_lset (l : List Nat) (i s : Nat) : (lset l i s).length = l.length := by
  simp [lset]

theorem getD_lclr_self (l : List Nat) (i s : Nat) (h : i < l.length) :
    (lclr l i s).getD i 0 = bclear (l.getD i 0) s := getD_set_self _ _ _ h

theorem getD_lclr_ne (l : List Nat) (i j s : Nat) (h : i ≠ j) :
    (lclr l i s).getD j 0 = l.getD j 0 := getD_set_ne _ _ _ _ h

theorem getD_lset_self (l : List Nat) (i s : Nat) (h : i < l.length) :
    (lset l i s).getD i 0 = bset (l.getD i 0) s := getD_set_self _ _ _ h

theorem getD_lset_ne (l : List Nat) (i j s : Nat) (h : i ≠ j) :
    (lset l i s).getD j 0 = l.getD j 0 := getD_set_ne _ _ _ _ h

theorem list12_ext {l1 l2 : List Nat} (h1 : l1.length = 12) (h2 : l2.length = 12)
    (h : ∀ j < 12, l1.getD j 0 = l2.getD j 0) : l1 = l2 := by
  apply List.ext_getElem (by omega)
  intro j hj1 hj2
  have hj : j < 12 := by omega
  have := h j hj
  rwa [List.getD_eq_getElem l1 0 (by omega), List.getD_eq_getElem l2 0 (by omega)] at this

/-! ## occOf, pieceScan and findKing characterizations -/

/-- The white half of the occupancy recompute. -/
def whiteUnion (ps : List Nat) : Nat :=
  ps.getD 0 0 ||| ps.getD 1 0 ||| ps.getD 2 0 ||| ps.getD 3 0 |||
    ps.getD 4 0 ||| ps.getD 5 0

/-- The black half of the occupancy recompute. -/
def blackUnion (ps : List Nat) : Nat :=
  ps.getD 6 0 ||| ps.getD 7 0 ||| ps.getD 8 0 ||| ps.getD 9 0 |||
    ps.getD 10 0 ||| ps.getD 11 0

theorem occOf_eq {ps : List Nat} (h : ps.length = 12) :
    occOf ps = [whiteUnion ps, blackUnion ps, whiteUnion ps ||| blackUnion ps] := by
  match ps, h with
  | [p0, p1, p2, p3, p4, p5, p6, p7, p8, p9, p10, p11], _ => rfl

theorem occOf_length (ps : List Nat) : (occOf ps).length = 3 := by
  unfold occOf
  split <;> rfl

theorem testBit_whiteUnion (ps : List Nat) (s : Nat) :
    (whiteUnion ps).testBit s =
      ((ps.getD 0 0).testBit s || (ps.getD 1 0).testBit s || (ps.getD 2 0).testBit s ||
       (ps.getD 3 0).testBit s || (ps.getD 4 0).testBit s || (ps.getD 5 0).testBit s) := by
  simp [whiteUnion, Nat.testBit_lor]

theorem testBit_blackUnion (ps : List Nat) (s : Nat) :
    (blackUnion ps).testBit s =
      ((ps.getD 6 0).testBit s || (ps.getD 7 0).testBit s || (ps.getD 8 0).testBit s ||
       (ps.getD 9 0).testBit s || (ps.getD 10 0).testBit s || (ps.getD 11 0).testBit s) := by
  simp [blackUnion, Nat.testBit_lor]

theorem pieceScanAux_eq_zero (bit : Nat) :
    ∀ (l : List Nat) (i : Nat), (∀ j < l.length, l.getD j 0 &&& bit = 0) →
      pieceScanAux bit l i = 0 := by
  intro l
  induction l with
  | nil => intro i _; rfl
  | cons p t ih =>
    intro i h
    have h0 : p &&& bit = 0 := by simpa [List.getD] using h 0 (by simp)
    unfold pieceScanAux
    rw [if_neg (by simp [h0])]
    exact ih (i + 1) (fun j hj => by simpa [List.getD] using h (j + 1) (by simpa using hj))

theorem pieceScanAux_ne_zero (bit : Nat) :
    ∀ (l : List Nat) (i k : Nat), k < l.length → l.getD k 0 &&& bit ≠ 0 →
      pieceScanAux bit l i ≠ 0 := by
  intro l
  induction l with
  | nil => intro i k hk; simp at hk
  | cons p t ih =>
    intro i k hk hbit
    unfold pieceScanAux
    by_cases hp : p &&& bit ≠ 0
    · rw [if_pos hp]; omega
    · rw [if_neg hp]
      cases k with
      | zero => simp [List.getD] at hbit; exact absurd hbit hp
      | succ n =>
        exact ih (i + 1) n (by simpa using hk) (by simpa [List.getD] using hbit)

theorem pieceScanAux_found (bit : Nat) :
    ∀ (l : List Nat) (i k : Nat), k < l.length →
      l.getD k 0 &&& bit ≠ 0 → (∀ j < k, l.getD j 0 &&& bit = 0) →
      pieceScanAux bit l i = i + k + 1 := by
  intro l
  induction l with
  | nil => intro i k hk; simp at hk
  | cons p t ih =>
    intro i k hk hbit hlow
    cases k with
    | zero =>
      have hb : p &&& bit ≠ 0 := by simpa [List.getD_cons_zero] using hbit
      unfold pieceScanAux
      rw [if_pos hb]
    | succ n =>
      have hp : ¬(p &&& bit ≠ 0) := by
        have := hlow 0 (by omega)
        simp only [List.getD_cons_zero] at this
        simp [this]
      unfold pieceScanAux
      rw [if_neg hp]
      have := ih (i + 1) n (by simpa using hk) (by simpa [List.getD] using hbit)
        (fun j hj => by simpa [List.getD] using hlow (j + 1) (by omega))
      omega

theorem pieceScanAux_cases (bit : Nat) :
    ∀ (l : List Nat) (i : Nat), pieceScanAux bit l i = 0 ∨
      ∃ j, j < l.length ∧ l.getD j 0 &&& bit ≠ 0 ∧ pieceScanAux bit l i = i + j + 1 := by
  intro l
  induction l with
  | nil => intro i; exact Or.inl rfl
  | cons p t ih =>
    intro i
    unfold pieceScanAux
    by_cases hp : p &&& bit ≠ 0
    · rw [if_pos hp]
      exact Or.inr ⟨0, by simp, by simpa [List.getD] using hp, by omega⟩
    · rw [if_neg hp]
      rcases ih (i + 1) with h | ⟨j, hj, hbit, heq⟩
      · exact Or.inl h
      · exact Or.inr ⟨j + 1, by simpa using hj, by simpa [List.getD] using hbit, by omega⟩

theorem findKingAux_found (bb : Nat) :
    ∀ (fuel s k : Nat), s ≤ k → k < s + fuel →
      sq_to_bit k &&& bb ≠ 0 → (∀ j, s ≤ j → j < k → sq_to_bit j &&& bb = 0) →
      findKingAux bb fuel s = (k : Int) := by
  intro fuel
  induction fuel with
  | zero => intro s k h1 h2; omega
  | succ n ih =>
    intro s k h1 h2 hbit hlow
    unfold findKingAux
    rcases eq_or_lt_of_le h1 with rfl | hlt
    · rw [if_pos hbit]
    · rw [if_neg (by simp [hlow s le_rfl hlt])]
      exact ih (s + 1) k hlt (by omega) hbit (fun j hj1 hj2 => hlow j (by omega) hj2)

theorem findKingAux_spec (bb : Nat) :
    ∀ (fuel s : Nat), findKingAux bb fuel s = -1 ∨
      ∃ k : Nat, findKingAux bb fuel s = (k : Int) ∧ sq_to_bit k &&& bb ≠ 0 ∧
        s ≤ k ∧ k < s + fuel := by
  intro fuel
  induction fuel with
  | zero => intro s; exact Or.inl rfl
  | succ n ih =>
    intro s
    unfold findKingAux
    by_cases hbit : sq_to_bit s &&& bb ≠ 0
    · rw [if_pos hbit]
      exact Or.inr ⟨s, rfl, hbit, le_rfl, by omega⟩
    · rw [if_neg hbit]
      rcases ih (s + 1) with h | ⟨k, heq, hk, h1, h2⟩
      · exact Or.inl h
      · exact Or.inr ⟨k, heq, hk, by omega, by omega⟩

/-! ## Consequences of WFocc -/

theorem WFocc_occ0 {b : Board} (h : WFocc b) : b.occ 0 = whiteUnion b.pieces := by
  show b.occupancy.getD 0 0 = _
  rw [h.2.2.2, occOf_eq h.1]
  rfl

theorem WFocc_occ1 {b : Board} (h : WFocc b) : b.occ 1 = blackUnion b.pieces := by
  show b.occupancy.getD 1 0 = _
  rw [h.2.2.2, occOf_eq h.1]
  rfl

theorem WFocc_occ2 {b : Board} (h : WFocc b) :
    b.occ 2 = whiteUnion b.pieces ||| blackUnion b.pieces := by
  show b.occupancy.getD 2 0 = _
  rw [h.2.2.2, occOf_eq h.1]
  rfl

theorem occ2_testBit {b : Board} (h : WFocc b) (s : Nat) :
    (b.occ 2).testBit s = ((b.occ 0).testBit s || (b.occ 1).testBit s) := by
  rw [WFocc_occ2 h, WFocc_occ0 h, WFocc_occ1 h, Nat.testBit_lor]

theorem occ0_testBit_iff {b : Board} (h : WFocc b) (s : Nat) :
    (b.occ 0).testBit s = true ↔ ∃ i < 6, (b.pc i).testBit s = true := by
  rw [WFocc_occ0 h, testBit_whiteUnion]
  constructor
  · intro hs
    simp only [Bool.or_eq_true] at hs
    rcases hs with ((((h0 | h1) | h2) | h3) | h4) | h5
    · exact ⟨0, by omega, h0⟩
    · exact ⟨1, by omega, h1⟩
    · exact ⟨2, by omega, h2⟩
    · exact ⟨3, by omega, h3⟩
    · exact ⟨4, by omega, h4⟩
    · exact ⟨5, by omega, h5⟩
  · rintro ⟨i, hi, hbit⟩
    simp only [Bool.or_eq_true]
    interval_cases i
    · exact Or.inl (Or.inl (Or.inl (Or.inl (Or.inl hbit))))
    · exact Or.inl (Or.inl (Or.inl (Or.inl (Or.inr hbit))))
    · exact Or.inl (Or.inl (Or.inl (Or.inr hbit)))
    · exact Or.inl (Or.inl (Or.inr hbit))
    · exact Or.inl (Or.inr hbit)
    · exact Or.inr hbit

theorem occ1_testBit_iff {b : Board} (h : WFocc b) (s : Nat) :
    (b.occ 1).testBit s = true ↔ ∃ i, 6 ≤ i ∧ i < 12 ∧ (b.pc i).testBit s = true := by
  rw [WFocc_occ1 h, testBit_blackUnion]
  constructor
  · intro hs
    simp only [Bool.or_eq_true] at hs
    rcases hs with ((((h0 | h1) | h2) | h3) | h4) | h5
    · exact ⟨6, by omega, by omega, h0⟩
    · exact ⟨7, by omega, by omega, h1⟩
    · exact ⟨8, by omega, by omega, h2⟩
    · exact ⟨9, by omega, by omega, h3⟩
    · exact ⟨10, by omega, by omega, h4⟩
    · exact ⟨11, by omega, by omega, h5⟩
  · rintro ⟨i, hi6, hi12, hbit⟩
    simp only [Bool.or_eq_true]
    interval_cases i
    · exact Or.inl (Or.inl (Or.inl (Or.inl (Or.inl hbit))))
    · exact Or.inl (Or.inl (Or.inl (Or.inl (Or.inr hbit))))
    · exact Or.inl (Or.inl (Or.inl (Or.inr hbit)))
    · exact Or.inl (Or.inl (Or.inr hbit))
    · exact Or.inl (Or.inr hbit)
    · exact Or.inr hbit

theorem occ2_testBit_iff {b : Board} (h : WFocc b) (s : Nat) :
    (b.occ 2).testBit s = true ↔ ∃ i < 12, (b.pc i).testBit s = true := by
  rw [occ2_testBit h]
  constructor
  · intro hs
    rcases Bool.or_eq_true_iff.mp hs with h0 | h1
    · obtain ⟨i, hi, hb⟩ := (occ0_testBit_iff h s).mp h0
      exact ⟨i, by omega, hb⟩
    · obtain ⟨i, hi6, hi12, hb⟩ := (occ1_testBit_iff h s).mp h1
      exact ⟨i, hi12, hb⟩
  · rintro ⟨i, hi, hbit⟩
    rcases lt_or_ge i 6 with h6 | h6
    · exact Bool.or_eq_true_iff.mpr (Or.inl ((occ0_testBit_iff h s).mpr ⟨i, h6, hbit⟩))
    · exact Bool.or_eq_true_iff.mpr (Or.inr ((occ1_testBit_iff h s).mpr ⟨i, h6, hi, hbit⟩))

theorem pc_clear_of_occ2 {b : Board} (h : WFocc b) {s : Nat}
    (hs : (b.occ 2).testBit s = false) {i : Nat} (hi : i < 12) :
    (b.pc i).testBit s = false := by
  by_contra hb
  have : (b.occ 2).testBit s = true := (occ2_testBit_iff h s).mpr ⟨i, hi, by simpa using hb⟩
  simp [this] at hs

theorem pc_unique_at {b : Board} (h : WFocc b) {i j s : Nat} (hi : i < 12) (hj : j < 12)
    (hne : i ≠ j) (hbit : (b.pc i).testBit s = true) : (b.pc j).testBit s = false := by
  have hd := h.2.2.1 i hi j hj hne
  rcases land_eq_zero_iff_testBit.mp hd s with h' | h'
  · rw [hbit] at h'; exact absurd h' (by simp)
  · exact h'

theorem WFocc_OccInv {b : Board} (h : WFocc b) : OccInv b := by
  refine ⟨?_, ?_, ?_⟩
  · apply land_eq_zero_iff_testBit.mpr
    intro s
    by_cases h0 : (b.occ 0).testBit s = true
    · right
      obtain ⟨i, hi, hb⟩ := (occ0_testBit_iff h s).mp h0
      by_contra h1
      obtain ⟨j, hj6, hj12, hb2⟩ := (occ1_testBit_iff h s).mp (by simpa using h1)
      have := pc_unique_at h (by omega : i < 12) hj12 (by omega) hb
      simp [this] at hb2
    · exact Or.inl (by simpa using h0)
  · rw [WFocc_occ2 h, WFocc_occ0 h, WFocc_occ1 h]
  · intro s hs
    obtain ⟨i, hi, hb⟩ := (occ2_testBit_iff h s).mp hs
    refine ⟨i, ⟨hi, hb⟩, ?_⟩
    rintro j ⟨hj, hbj⟩
    by_contra hne
    have := pc_unique_at h hj hi (by omega) hbj
    simp [this] at hb

/-! ## Generator membership lemmas -/

theorem sqOk_iff (t : Int) : sqOk t = true ↔ 0 ≤ t ∧ t < 64 := by
  unfold sqOk
  cases t <;> simp

theorem mem_addMove {buf : List Move} {fr toS promo : Nat} {m : Move}
    (h : m ∈ addMove buf fr toS promo) : m ∈ buf ∨ m = ⟨fr, toS, promo⟩ := by
  unfold addMove at h
  split at h
  · exact Or.inl h
  · rcases List.mem_append.mp h with h1 | h1
    · exact Or.inl h1
    · exact Or.inr (List.mem_singleton.mp h1)

theorem mem_addMove_mono {buf : List Move} {fr toS promo : Nat} {m : Move}
    (h : m ∈ buf) : m ∈ addMove buf fr toS promo := by
  unfold addMove
  split
  · exact h
  · exact List.mem_append.mpr (Or.inl h)

theorem mem_addMove_self {buf : List Move} {fr toS promo : Nat}
    (h : buf.length < 256) : (⟨fr, toS, promo⟩ : Move) ∈ addMove buf fr toS promo := by
  unfold addMove
  rw [if_neg (by omega)]
  simp

theorem length_addMove_le (buf : List Move) (fr toS promo : Nat) :
    (addMove buf fr toS promo).length ≤ buf.length + 1 := by
  unfold addMove
  split
  · omega
  · simp

theorem mem_addPromos {buf : List Move} {fr toS : Nat} {m : Move}
    (h : m ∈ addPromos buf fr toS) :
    m ∈ buf ∨ ∃ p, 1 ≤ p ∧ p ≤ 4 ∧ m = ⟨fr, toS, p⟩ := by
  unfold addPromos at h
  rcases mem_addMove h with h | rfl
  · rcases mem_addMove h with h | rfl
    · rcases mem_addMove h with h | rfl
      · rcases mem_addMove h with h | rfl
        · exact Or.inl h
        · exact Or.inr ⟨1, by omega, by omega, rfl⟩
      · exact Or.inr ⟨2, by omega, by omega, rfl⟩
    · exact Or.inr ⟨3, by omega, by omega, rfl⟩
  · exact Or.inr ⟨4, by omega, by omega, rfl⟩

theorem mem_foldl_moves {α : Type} {g : List Move → α → List Move} {Q : α → Move → Prop}
    (hg : ∀ acc d mm, mm ∈ g acc d → mm ∈ acc ∨ Q d mm) :
    ∀ (l : List α) (acc : List Move) (m : Move), m ∈ l.foldl g acc →
      m ∈ acc ∨ ∃ d ∈ l, Q d m := by
  intro l
  induction l with
  | nil => intro acc m h; exact Or.inl h
  | cons a t ih =>
    intro acc m h
    rcases ih (g acc a) m h with h1 | ⟨d, hd, hq⟩
    · rcases hg acc a m h1 with h2 | h2
      · exact Or.inl h2
      · exact Or.inr ⟨a, by simp, h2⟩
    · exact Or.inr ⟨d, by simp [hd], hq⟩

theorem mem_upFrom {f : Nat → List Move → List Move} {Q : Nat → Move → Prop}
    (hf : ∀ s acc mm, mm ∈ f s acc → mm ∈ acc ∨ Q s mm) :
    ∀ (fuel start : Nat) (acc : List Move) (m : Move),
      m ∈ upFrom f start fuel acc →
      m ∈ acc ∨ ∃ s, start ≤ s ∧ s < start + fuel ∧ Q s m := by
  intro fuel
  induction fuel with
  | zero => intro start acc m h; exact Or.inl h
  | succ n ih =>
    intro start acc m h
    unfold upFrom at h
    rcases ih (start + 1) (f start acc) m h with h1 | ⟨s, h2, h3, hq⟩
    · rcases hf start acc m h1 with h2 | h2
      · exact Or.inl h2
      · exact Or.inr ⟨start, le_rfl, by omega, h2⟩
    · exact Or.inr ⟨s, by omega, by omega, hq⟩

theorem pawnPushBlock_mem {own opp side sq : Nat} {acc : List Move} {m : Move}
    (h : m ∈ pawnPushBlock own opp side sq acc) :
    m ∈ acc ∨ pushEmit own opp side sq m := by
  unfold pawnPushBlock at h
  dsimp only at h
  split at h
  case isFalse => exact Or.inl h
  case isTrue hsq =>
    split at h
    case isFalse => exact Or.inl h
    case isTrue hempty =>
      have hemp : (own ||| opp).testBit ((sq : Int) + pawnPush side).toNat = false :=
        (sq_to_bit_land_eq_zero _ _).mp hempty
      have hacc1 : ∀ mm : Move,
          mm ∈ (if is_promo_rank ((sq : Int) + pawnPush side).toNat side then
                  addPromos acc sq ((sq : Int) + pawnPush side).toNat
                else addMove acc sq ((sq : Int) + pawnPush side).toNat 0) →
          mm ∈ acc ∨ pushEmit own opp side sq mm := by
        intro mm hmm
        split at hmm
        case isTrue hpr =>
          rcases mem_addPromos hmm with h1 | ⟨p, hp1, hp2, rfl⟩
          · exact Or.inl h1
          · exact Or.inr ⟨hsq, rfl, hemp, Or.inl ⟨rfl, Or.inl ⟨hpr, hp1, hp2⟩⟩⟩
        case isFalse hpr =>
          rcases mem_addMove hmm with h1 | rfl
          · exact Or.inl h1
          · exact Or.inr ⟨hsq, rfl, hemp, Or.inl ⟨rfl, Or.inr ⟨by simpa using hpr, rfl⟩⟩⟩
      split at h
      case isFalse => exact hacc1 m h
      case isTrue hsr =>
        split at h
        case isFalse => exact hacc1 m h
        case isTrue hdsq =>
          split at h
          case isFalse => exact hacc1 m h
          case isTrue hdemp =>
            rcases mem_addMove h with h1 | rfl
            · exact hacc1 m h1
            · exact Or.inr ⟨hsq, rfl, hemp, Or.inr ⟨rfl, hsr, hdsq, rfl,
                (sq_to_bit_land_eq_zero _ _).mp hdemp⟩⟩

theorem pawnCapBlock_mem {ep : Int} {opp side sq : Nat} {cd : Int}
    {acc : List Move} {m : Move}
    (h : m ∈ pawnCapBlock ep opp side sq cd acc) :
    m ∈ acc ∨ capEmit ep opp side sq cd m := by
  unfold pawnCapBlock at h
  dsimp only at h
  split at h
  case isFalse => exact Or.inl h
  case isTrue hsq =>
    split at h
    case isFalse => exact Or.inl h
    case isTrue hdist =>
      split at h
      case isFalse => exact Or.inl h
      case isTrue hcond =>
        have hcond2 : opp.testBit ((sq : Int) + cd).toNat = true ∨
            ((sq : Int) + cd = ep ∧
              ((side == 0 && sq / 8 == 4) || (side == 1 && sq / 8 == 3)) = true) := by
          rcases hcond with h1 | h1
          · left
            rcases Bool.eq_false_or_eq_true (opp.testBit ((sq : Int) + cd).toNat) with h2 | h2
            · exact h2
            · exact absurd ((sq_to_bit_land_eq_zero _ _).mpr h2) h1
          · exact Or.inr h1
        split at h
        case isTrue hpr =>
          rcases mem_addPromos h with h1 | ⟨p, hp1, hp2, rfl⟩
          · exact Or.inl h1
          · exact Or.inr ⟨hsq, rfl, rfl, hdist, hcond2, Or.inl ⟨hpr, hp1, hp2⟩⟩
        case isFalse hpr =>
          rcases mem_addMove h with h1 | rfl
          · exact Or.inl h1
          · exact Or.inr ⟨hsq, rfl, rfl, hdist, hcond2, Or.inr ⟨by simpa using hpr, rfl⟩⟩

theorem pawnStep_mem {ep : Int} {bb own opp side sq : Nat} {acc : List Move} {m : Move}
    (h : m ∈ pawnStep ep bb own opp side sq acc) :
    m ∈ acc ∨ (sq_to_bit sq &&& bb ≠ 0 ∧
      (pushEmit own opp side sq m ∨ capEmit ep opp side sq (pawnCapWest side) m ∨
       capEmit ep opp side sq (pawnCapEast side) m)) := by
  unfold pawnStep at h
  split at h
  · exact Or.inl h
  case isFalse hg =>
    rcases pawnCapBlock_mem h with h1 | he
    · rcases pawnCapBlock_mem h1 with h2 | hw
      · rcases pawnPushBlock_mem h2 with h3 | hp
        · exact Or.inl h3
        · exact Or.inr ⟨hg, Or.inl hp⟩
      · exact Or.inr ⟨hg, Or.inr (Or.inl hw)⟩
    · exact Or.inr ⟨hg, Or.inr (Or.inr he)⟩

theorem generate_pawn_moves_mem {ep : Int} {bb own opp side : Nat}
    {buf : List Move} {m : Move}
    (h : m ∈ generate_pawn_moves ep bb own opp side buf) :
    m ∈ buf ∨ ∃ s, s < 64 ∧ sq_to_bit s &&& bb ≠ 0 ∧
      (pushEmit own opp side s m ∨ capEmit ep opp side s (pawnCapWest side) m ∨
       capEmit ep opp side s (pawnCapEast side) m) := by
  unfold generate_pawn_moves at h
  have key : m ∈ buf ∨ ∃ s, 0 ≤ s ∧ s < 0 + 64 ∧ (sq_to_bit s &&& bb ≠ 0 ∧
      (pushEmit own opp side s m ∨ capEmit ep opp side s (pawnCapWest side) m ∨
       capEmit ep opp side s (pawnCapEast side) m)) := by
    refine mem_upFrom (Q := fun s mm => sq_to_bit s &&& bb ≠ 0 ∧
      (pushEmit own opp side s mm ∨ capEmit ep opp side s (pawnCapWest side) mm ∨
       capEmit ep opp side s (pawnCapEast side) mm)) ?_ 64 0 buf m h
    intro s acc mm hm
    exact pawnStep_mem hm
  rcases key with h1 | ⟨s, _, h3, hg, hq⟩
  · exact Or.inl h1
  · exact Or.inr ⟨s, by omega, hg, hq⟩

theorem knightStep_mem {bb own sq : Nat} {acc : List Move} {m : Move}
    (h : m ∈ knightStep bb own sq acc) :
    m ∈ acc ∨ (sq_to_bit sq &&& bb ≠ 0 ∧ stepEmit own 0 sq m) := by
  unfold knightStep at h
  split at h
  · exact Or.inl h
  case isFalse hg =>
    have key : m ∈ acc ∨ ∃ d ∈ KNIGHT_DELTAS, stepEmit own 0 sq m := by
      refine mem_foldl_moves ?_ KNIGHT_DELTAS acc m h
      intro acc2 d mm hm
      dsimp only at hm
      split at hm
      case isFalse => exact Or.inl hm
      case isTrue hsq =>
        split at hm
        case isFalse => exact Or.inl hm
        case isTrue =>
          split at hm
          case isFalse => exact Or.inl hm
          case isTrue hown =>
            rcases mem_addMove hm with h1 | rfl
            · exact Or.inl h1
            · refine Or.inr ⟨rfl, ?_, rfl, Or.inl ((sq_to_bit_land_eq_zero _ _).mp hown)⟩
              show ((sq : Int) + d).toNat < 64
              have := (sqOk_iff _).mp hsq
              omega
    rcases key with h1 | ⟨d, _, hq⟩
    · exact Or.inl h1
    · exact Or.inr ⟨hg, hq⟩

theorem generate_knight_moves_mem {bb own : Nat} {buf : List Move} {m : Move}
    (h : m ∈ generate_knight_moves bb own buf) :
    m ∈ buf ∨ ∃ s, s < 64 ∧ sq_to_bit s &&& bb ≠ 0 ∧ stepEmit own 0 s m := by
  unfold generate_knight_moves at h
  have key : m ∈ buf ∨ ∃ s, 0 ≤ s ∧ s < 0 + 64 ∧
      (sq_to_bit s &&& bb ≠ 0 ∧ stepEmit own 0 s m) := by
    refine mem_upFrom (Q := fun s mm => sq_to_bit s &&& bb ≠ 0 ∧ stepEmit own 0 s mm)
      ?_ 64 0 buf m h
    intro s acc mm hm
    exact knightStep_mem hm
  rcases key with h1 | ⟨s, _, h3, hg, hq⟩
  · exact Or.inl h1
  · exact Or.inr ⟨s, by omega, hg, hq⟩

theorem mem_slideRay {own opp sq : Nat} {d : Int} {v hz : Bool} :
    ∀ (fuel : Nat) (t : Int) (acc : List Move) (m : Move),
      m ∈ slideRay own opp sq d v hz fuel t acc →
      m ∈ acc ∨ stepEmit own opp sq m := by
  intro fuel
  induction fuel with
  | zero => intro t acc m h; exact Or.inl h
  | succ n ih =>
    intro t acc m h
    unfold slideRay at h
    split at h
    case isFalse => exact Or.inl h
    case isTrue hsq =>
      simp only [] at h
      split at h
      case isTrue => exact Or.inl h
      case isFalse =>
        split at h
        case isTrue => exact Or.inl h
        case isFalse =>
          split at h
          case isTrue => exact Or.inl h
          case isFalse =>
            split at h
            case isTrue hblock =>
              split at h
              case isTrue hopp =>
                rcases mem_addMove h with h1 | rfl
                · exact Or.inl h1
                · refine Or.inr ⟨rfl, ?_, rfl, Or.inr ?_⟩
                  · show t.toNat < 64
                    have := (sqOk_iff _).mp hsq
                    omega
                  · rcases Bool.eq_false_or_eq_true (opp.testBit t.toNat) with h2 | h2
                    · exact h2
                    · exact absurd ((sq_to_bit_land_eq_zero _ _).mpr h2) hopp
              case isFalse => exact Or.inl h
            case isFalse hempty =>
              have h0 : sq_to_bit t.toNat &&& (own ||| opp) = 0 := not_not.mp hempty
              have hb : (own ||| opp).testBit t.toNat = false :=
                (sq_to_bit_land_eq_zero _ _).mp h0
              simp only [Nat.testBit_lor, Bool.or_eq_false_iff] at hb
              rcases ih (t + d) (addMove acc sq t.toNat 0) m h with h1 | h1
              · rcases mem_addMove h1 with h2 | rfl
                · exact Or.inl h2
                · refine Or.inr ⟨rfl, ?_, rfl, Or.inl hb.1⟩
                  show t.toNat < 64
                  have := (sqOk_iff _).mp hsq
                  omega
              · exact Or.inr h1

theorem sliderStep_mem {dirs : List Int} {bb own opp sq : Nat} {acc : List Move} {m : Move}
    (h : m ∈ sliderStep dirs bb own opp sq acc) :
    m ∈ acc ∨ (sq_to_bit sq &&& bb ≠ 0 ∧ stepEmit own opp sq m) := by
  unfold sliderStep at h
  split at h
  · exact Or.inl h
  case isFalse hg =>
    have key : m ∈ acc ∨ ∃ d ∈ dirs, stepEmit own opp sq m := by
      refine mem_foldl_moves ?_ dirs acc m h
      intro acc2 d mm hm
      exact mem_slideRay 64 _ _ _ hm
    rcases key with h1 | ⟨d, _, hq⟩
    · exact Or.inl h1
    · exact Or.inr ⟨hg, hq⟩

theorem generate_rook_moves_mem {bb own opp : Nat} {buf : List Move} {m : Move}
    (h : m ∈ generate_rook_moves bb own opp buf) :
    m ∈ buf ∨ ∃ s, s < 64 ∧ sq_to_bit s &&& bb ≠ 0 ∧ stepEmit own opp s m := by
  unfold generate_rook_moves at h
  have key : m ∈ buf ∨ ∃ s, 0 ≤ s ∧ s < 0 + 64 ∧
      (sq_to_bit s &&& bb ≠ 0 ∧ stepEmit own opp s m) := by
    refine mem_upFrom (Q := fun s mm => sq_to_bit s &&& bb ≠ 0 ∧ stepEmit own opp s mm)
      ?_ 64 0 buf m h
    intro s acc mm hm
    exact sliderStep_mem hm
  rcases key with h1 | ⟨s, _, h3, hg, hq⟩
  · exact Or.inl h1
  · exact Or.inr ⟨s, by omega, hg, hq⟩

theorem generate_bishop_moves_mem {bb own opp : Nat} {buf : List Move} {m : Move}
    (h : m ∈ generate_bishop_moves bb own opp buf) :
    m ∈ buf ∨ ∃ s, s < 64 ∧ sq_to_bit s &&& bb ≠ 0 ∧ stepEmit own opp s m := by
  unfold generate_bishop_moves at h
  have key : m ∈ buf ∨ ∃ s, 0 ≤ s ∧ s < 0 + 64 ∧
      (sq_to_bit s &&& bb ≠ 0 ∧ stepEmit own opp s m) := by
    refine mem_upFrom (Q := fun s mm => sq_to_bit s &&& bb ≠ 0 ∧ stepEmit own opp s mm)
      ?_ 64 0 buf m h
    intro s acc mm hm
    exact sliderStep_mem hm
  rcases key with h1 | ⟨s, _, h3, hg, hq⟩
  · exact Or.inl h1
  · exact Or.inr ⟨s, by omega, hg, hq⟩

theorem generate_queen_moves_mem {bb own opp : Nat} {buf : List Move} {m : Move}
    (h : m ∈ generate_queen_moves bb own opp buf) :
    m ∈ buf ∨ ∃ s, s < 64 ∧ sq_to_bit s &&& bb ≠ 0 ∧ stepEmit own opp s m := by
  unfold generate_queen_moves at h
  have key : m ∈ buf ∨ ∃ s, 0 ≤ s ∧ s < 0 + 64 ∧
      (sq_to_bit s &&& bb ≠ 0 ∧ stepEmit own opp s m) := by
    refine mem_upFrom (Q := fun s mm => sq_to_bit s &&& bb ≠ 0 ∧ stepEmit own opp s mm)
      ?_ 64 0 buf m h
    intro s acc mm hm
    exact sliderStep_mem hm
  rcases key with h1 | ⟨s, _, h3, hg, hq⟩
  · exact Or.inl h1
  · exact Or.inr ⟨s, by omega, hg, hq⟩

theorem length_foldl_le {α : Type} {g : List Move → α → List Move}
    (hg : ∀ acc d, (g acc d).length ≤ acc.length + 1) :
    ∀ (l : List α) (acc : List Move), (l.foldl g acc).length ≤ acc.length + l.length := by
  intro l
  induction l with
  | nil => intro acc; simp
  | cons a t ih =>
    intro acc
    have h1 := ih (g acc a)
    have h2 := hg acc a
    simp only [List.foldl_cons, List.length_cons]
    omega

theorem kingNormal_mem {own ksq : Nat} {buf : List Move} {m : Move}
    (h : m ∈ kingNormal own ksq buf) : m ∈ buf ∨ kingStepEmit own ksq m := by
  unfold kingNormal at h
  have key : m ∈ buf ∨ ∃ d ∈ KING_DELTAS, kingStepEmit own ksq m := by
    refine mem_foldl_moves ?_ KING_DELTAS buf m h
    intro acc2 d mm hm
    dsimp only at hm
    split at hm
    case isFalse => exact Or.inl hm
    case isTrue hsq =>
      split at hm
      case isFalse => exact Or.inl hm
      case isTrue hgeo =>
        split at hm
        case isFalse => exact Or.inl hm
        case isTrue hown =>
          rcases mem_addMove hm with h1 | rfl
          · exact Or.inl h1
          · refine Or.inr ⟨rfl, ?_, rfl, (sq_to_bit_land_eq_zero _ _).mp hown,
              hgeo.1, hgeo.2⟩
            show ((ksq : Int) + d).toNat < 64
            have := (sqOk_iff _).mp hsq
            omega
  rcases key with h1 | ⟨d, _, hq⟩
  · exact Or.inl h1
  · exact Or.inr hq

theorem kingNormal_length_le (own ksq : Nat) (buf : List Move) :
    (kingNormal own ksq buf).length ≤ buf.length + 8 := by
  unfold kingNormal
  have hg : ∀ (acc : List Move) (d : Int), ((fun (acc : List Move) (d : Int) =>
      let target : Int := (ksq : Int) + d
      if sqOk target then
        let t := target.toNat
        if Nat.dist (t / 8) (ksq / 8) ≤ 1 ∧ Nat.dist (t % 8) (ksq % 8) ≤ 1 then
          if sq_to_bit t &&& own = 0 then addMove acc ksq t 0 else acc
        else acc
      else acc) acc d).length ≤ acc.length + 1 := by
    intro acc d
    dsimp only
    split
    · split
      · split
        · exact length_addMove_le _ _ _ _
        · omega
      · omega
    · omega
  have hfd := length_foldl_le hg KING_DELTAS buf
  simpa using hfd

theorem generate_king_moves_mem {b : Board} {bb own : Nat} {buf : List Move} {m : Move}
    (h : m ∈ generate_king_moves b bb own buf) :
    m ∈ buf ∨ ∃ ksq, ksq < 64 ∧ sq_to_bit ksq &&& bb ≠ 0 ∧
      (kingStepEmit own ksq m ∨ (kingCastleEmit b m ∧ m.fr_sq = ksq)) := by
  unfold generate_king_moves at h
  dsimp only at h
  rcases findKingAux_spec bb 64 0 with heq | ⟨k, heq, hbit, _, hk64⟩
  · rw [heq, if_pos rfl] at h
    exact Or.inl h
  · rw [heq, if_neg (by omega), Int.toNat_natCast] at h
    have hnorm : ∀ mm : Move, mm ∈ kingNormal own k buf →
        mm ∈ buf ∨ ∃ ksq, ksq < 64 ∧ sq_to_bit ksq &&& bb ≠ 0 ∧
          (kingStepEmit own ksq mm ∨ (kingCastleEmit b mm ∧ mm.fr_sq = ksq)) := by
      intro mm hmm
      rcases kingNormal_mem hmm with h1 | h1
      · exact Or.inl h1
      · exact Or.inr ⟨k, by omega, hbit, Or.inl h1⟩
    split at h
    case isTrue => exact hnorm m h
    case isFalse hchk =>
      have hchk2 : is_in_check b false = false := by simpa using hchk
      split at h
      case isTrue hw =>
        have hbuf2 : ∀ mm : Move,
            mm ∈ (if b.castling &&& 1 ≠ 0 ∧ k = 4 ∧
                    b.occ 2 &&& (sq_to_bit 5 ||| sq_to_bit 6) = 0 ∧
                    square_attacked b 6 false = false ∧ square_attacked b 5 false = false
                  then addMove (kingNormal own k buf) 4 6 0 else kingNormal own k buf) →
            mm ∈ buf ∨ ∃ ksq, ksq < 64 ∧ sq_to_bit ksq &&& bb ≠ 0 ∧
              (kingStepEmit own ksq mm ∨ (kingCastleEmit b mm ∧ mm.fr_sq = ksq)) := by
          intro mm hmm
          split at hmm
          case isTrue hK =>
            rcases mem_addMove hmm with h1 | rfl
            · exact hnorm mm h1
            · refine Or.inr ⟨k, by omega, hbit, Or.inr ⟨⟨hchk2, Or.inl ⟨hw, Or.inl
                ⟨rfl, hK.1, hK.2.2.1, hK.2.2.2.1, hK.2.2.2.2⟩⟩⟩, ?_⟩⟩
              have hk4 := hK.2.1
              show 4 = k
              omega
          case isFalse => exact hnorm mm hmm
        split at h
        case isTrue hQ =>
          rcases mem_addMove h with h1 | rfl
          · exact hbuf2 m h1
          · refine Or.inr ⟨k, by omega, hbit, Or.inr ⟨⟨hchk2, Or.inl ⟨hw, Or.inr
              ⟨rfl, hQ.1, hQ.2.2.1, hQ.2.2.2.1, hQ.2.2.2.2⟩⟩⟩, ?_⟩⟩
            have hk4 := hQ.2.1
            show 4 = k
            omega
        case isFalse => exact hbuf2 m h
      case isFalse hw =>
        have hw2 : b.white_to_move = false := by simpa using hw
        have hbuf2 : ∀ mm : Move,
            mm ∈ (if b.castling &&& 4 ≠ 0 ∧ k = 60 ∧
                    b.occ 2 &&& (sq_to_bit 61 ||| sq_to_bit 62) = 0 ∧
                    square_attacked b 62 true = false ∧ square_attacked b 61 true = false
                  then addMove (kingNormal own k buf) 60 62 0 else kingNormal own k buf) →
            mm ∈ buf ∨ ∃ ksq, ksq < 64 ∧ sq_to_bit ksq &&& bb ≠ 0 ∧
              (kingStepEmit own ksq mm ∨ (kingCastleEmit b mm ∧ mm.fr_sq = ksq)) := by
          intro mm hmm
          split at hmm
          case isTrue hK =>
            rcases mem_addMove hmm with h1 | rfl
            · exact hnorm mm h1
            · refine Or.inr ⟨k, by omega, hbit, Or.inr ⟨⟨hchk2, Or.inr ⟨hw2, Or.inl
                ⟨rfl, hK.1, hK.2.2.1, hK.2.2.2.1, hK.2.2.2.2⟩⟩⟩, ?_⟩⟩
              have hk60 := hK.2.1
              show 60 = k
              omega
          case isFalse => exact hnorm mm hmm
        split at h
        case isTrue hQ =>
          rcases mem_addMove h with h1 | rfl
          · exact hbuf2 m h1
          · refine Or.inr ⟨k, by omega, hbit, Or.inr ⟨⟨hchk2, Or.inr ⟨hw2, Or.inr
              ⟨rfl, hQ.1, hQ.2.2.1, hQ.2.2.2.1, hQ.2.2.2.2⟩⟩⟩, ?_⟩⟩
            have hk60 := hQ.2.1
            show 60 = k
            omega
        case isFalse => exact hbuf2 m h

/-! ## From emitted shapes to pseudo-legal move properties -/

theorem testBit_of_land_ne {p s : Nat} (h : sq_to_bit s &&& p ≠ 0) :
    p.testBit s = true := by
  rcases Bool.eq_false_or_eq_true (p.testBit s) with h2 | h2
  · exact h2
  · exact absurd ((sq_to_bit_land_eq_zero _ _).mpr h2) h

theorem testBit_false_of_land_mask {x y : Nat} (h : x &&& y = 0) {t : Nat}
    (ht : y.testBit t = true) : x.testBit t = false := by
  rcases land_eq_zero_iff_testBit.mp h t with h1 | h1
  · exact h1
  · rw [ht] at h1
    exact absurd h1 (by simp)

theorem occ2_eq_or {b : Board} (h : WFocc b) : b.occ 2 = b.occ 0 ||| b.occ 1 := by
  rw [WFocc_occ2 h, WFocc_occ0 h, WFocc_occ1 h]

theorem occ0_clear_of_occ1 {b : Board} (h : WFocc b) {t : Nat}
    (h1 : (b.occ 1).testBit t = true) : (b.occ 0).testBit t = false := by
  have hd := (WFocc_OccInv h).1
  rcases land_eq_zero_iff_testBit.mp hd t with h4 | h4
  · exact h4
  · rw [h1] at h4
    exact absurd h4 (by simp)

theorem occ1_clear_of_occ0 {b : Board} (h : WFocc b) {t : Nat}
    (h1 : (b.occ 0).testBit t = true) : (b.occ 1).testBit t = false := by
  have hd := (WFocc_OccInv h).1
  rcases land_eq_zero_iff_testBit.mp hd t with h4 | h4
  · rw [h1] at h4; exact absurd h4 (by simp)
  · exact h4

theorem occ_side_clear_of_occ2 {b : Board} (h : WFocc b) {t : Nat} {j : Nat}
    (hj : j = 0 ∨ j = 1) (h2 : (b.occ 2).testBit t = false) :
    (b.occ j).testBit t = false := by
  have := occ2_testBit h t
  rw [h2] at this
  have hor := this.symm
  rcases Bool.or_eq_false_iff.mp hor with ⟨ha, hb⟩
  rcases hj with rfl | rfl
  · exact ha
  · exact hb

theorem stepEmit_good {b : Board} {i s : Nat} {opp : Nat} {m : Move}
    (hi : i < 12) (hwi : b.white_to_move = true → i < 6)
    (hbi : b.white_to_move = false → 6 ≤ i)
    (hni : ¬(i = 0 ∨ i = 5 ∨ i = 6 ∨ i = 11))
    (hs : s < 64) (hbit : (b.pc i).testBit s = true)
    (hopp : ∀ t, opp.testBit t = true →
      (b.occ (sideIdx b.white_to_move)).testBit t = false)
    (he : stepEmit (b.occ (sideIdx b.white_to_move)) opp s m) :
    GoodMoveAt b m i := by
  obtain ⟨hfr, hto, hpr, hde⟩ := he
  refine ⟨by omega, hto, by omega, hi, hwi, hbi, by rw [hfr]; exact hbit, ?_,
    Or.inl hpr, ⟨by omega, by omega⟩, by omega⟩
  rcases hde with h1 | h1
  · exact h1
  · exact hopp _ h1

theorem kingStepEmit_good {b : Board} {i k : Nat} {m : Move}
    (hi : i = 5 ∨ i = 11) (hwi : b.white_to_move = true → i < 6)
    (hbi : b.white_to_move = false → 6 ≤ i)
    (hk : k < 64) (hbit : (b.pc i).testBit k = true)
    (he : kingStepEmit (b.occ (sideIdx b.white_to_move)) k m) :
    GoodMoveAt b m i := by
  obtain ⟨hfr, hto, hpr, hocc, hr, hf⟩ := he
  refine ⟨by omega, hto, by omega, by omega, hwi, hbi, by rw [hfr]; exact hbit, hocc,
    Or.inl hpr, ⟨by omega, by omega⟩, ?_⟩
  intro _ hd2 hrank
  exfalso
  rw [hfr] at hd2 hrank
  simp only [Nat.dist] at hd2 hr hf
  omega

theorem kingCastleEmit_good {b : Board} (hWF : WF b) {m : Move}
    (he : kingCastleEmit b m)
    (hbit : (b.pc (if b.white_to_move then 5 else 11)).testBit m.fr_sq = true) :
    GoodMoveAt b m (if b.white_to_move then 5 else 11) := by
  obtain ⟨hchk, hcases⟩ := he
  have hocc2 := occ2_eq_or hWF.1
  rcases hcases with ⟨hw, hcc⟩ | ⟨hw, hcc⟩
  · rw [hw] at hbit ⊢
    simp only [if_true] at hbit ⊢
    have hside : sideIdx b.white_to_move = 0 := by rw [hw]; rfl
    rcases hcc with ⟨hm, hb1, hoc, ha1, ha2⟩ | ⟨hm, hb1, hoc, ha1, ha2⟩
    · subst hm
      have h6 : (b.occ 2).testBit 6 = false := by
        refine testBit_false_of_land_mask hoc ?_
        simp [Nat.testBit_lor, testBit_sq_to_bit]
      refine ⟨by decide, by decide, by decide, by decide, fun _ => by omega,
        fun hf => by rw [hw] at hf; exact absurd hf (by simp), hbit, ?_,
        Or.inl rfl, ⟨by intro h0; exact absurd h0 (by decide),
          by intro h6; exact absurd h6 (by decide)⟩, ?_⟩
      · rw [hside]
        exact occ_side_clear_of_occ2 hWF.1 (Or.inl rfl) h6
      · intro _ _ _
        exact Or.inl ⟨rfl, rfl, Or.inl ⟨rfl, hb1, hoc⟩⟩
    · subst hm
      have h2 : (b.occ 2).testBit 2 = false := by
        refine testBit_false_of_land_mask hoc ?_
        simp [Nat.testBit_lor, testBit_sq_to_bit]
      refine ⟨by decide, by decide, by decide, by decide, fun _ => by omega,
        fun hf => by rw [hw] at hf; exact absurd hf (by simp), hbit, ?_,
        Or.inl rfl, ⟨by intro h0; exact absurd h0 (by decide),
          by intro h6; exact absurd h6 (by decide)⟩, ?_⟩
      · rw [hside]
        exact occ_side_clear_of_occ2 hWF.1 (Or.inl rfl) h2
      · intro _ _ _
        exact Or.inl ⟨rfl, rfl, Or.inr ⟨rfl, hb1, hoc⟩⟩
  · rw [hw] at hbit ⊢
    simp only [if_false, Bool.false_eq_true] at hbit ⊢
    have hside : sideIdx b.white_to_move = 1 := by rw [hw]; rfl
    rcases hcc with ⟨hm, hb1, hoc, ha1, ha2⟩ | ⟨hm, hb1, hoc, ha1, ha2⟩
    · subst hm
      have h62 : (b.occ 2).testBit 62 = false := by
        refine testBit_false_of_land_mask hoc ?_
        simp [Nat.testBit_lor, testBit_sq_to_bit]
      refine ⟨by decide, by decide, by decide, by decide,
        fun hf => by rw [hw] at hf; exact absurd hf (by simp), fun _ => by omega,
        hbit, ?_, Or.inl rfl, ⟨by intro h0; exact absurd h0 (by decide),
          by intro h6; exact absurd h6 (by decide)⟩, ?_⟩
      · rw [hside]
        exact occ_side_clear_of_occ2 hWF.1 (Or.inr rfl) h62
      · intro _ _ _
        exact Or.inr ⟨rfl, rfl, Or.inl ⟨rfl, hb1, hoc⟩⟩
    · subst hm
      have h58 : (b.occ 2).testBit 58 = false := by
        refine testBit_false_of_land_mask hoc ?_
        simp [Nat.testBit_lor, testBit_sq_to_bit]
      refine ⟨by decide, by decide, by decide, by decide,
        fun hf => by rw [hw] at hf; exact absurd hf (by simp), fun _ => by omega,
        hbit, ?_, Or.inl rfl, ⟨by intro h0; exact absurd h0 (by decide),
          by intro h6; exact absurd h6 (by decide)⟩, ?_⟩
      · rw [hside]
        exact occ_side_clear_of_occ2 hWF.1 (Or.inr rfl) h58
      · intro _ _ _
        exact Or.inr ⟨rfl, rfl, Or.inr ⟨rfl, hb1, hoc⟩⟩

theorem pushEmit_good_w {b : Board} (hWF : WF b) {s : Nat} {m : Move}
    (hwtm : b.white_to_move = true) (hs : s < 64)
    (hbit : (b.pc 0).testBit s = true)
    (he : pushEmit (b.occ 0) (b.occ 1) 0 s m) :
    GoodMoveAt b m 0 := by
  obtain ⟨hsq, hfr, hemp, hcase⟩ := he
  subst hfr
  have hocc2 := occ2_eq_or hWF.1
  have hpp : pawnPush 0 = 8 := rfl
  rw [hpp] at hsq hemp
  have hsqi := (sqOk_iff _).mp hsq
  have htn : ((m.fr_sq : Int) + 8).toNat = m.fr_sq + 8 := by omega
  rw [htn] at hemp
  simp only [Nat.testBit_lor, Bool.or_eq_false_iff] at hemp
  have hside : sideIdx b.white_to_move = 0 := by rw [hwtm]; rfl
  have hnb : b.white_to_move = false → (6 : Nat) ≤ 0 := fun hf => by
    rw [hwtm] at hf; exact absurd hf (by simp)
  rcases hcase with ⟨hto, hpromo⟩ | ⟨hp0, hsr, hdsq, hto, hdemp⟩
  · rw [hpp, htn] at hto
    have hple : m.promo ≤ 4 := by
      rcases hpromo with ⟨h1, h2, h3⟩ | ⟨h1, h2⟩
      · omega
      · omega
    refine ⟨hs, by omega, hple, by omega, fun _ => by omega, hnb, hbit, ?_, ?_,
      ⟨?_, fun h6 => absurd h6 (by decide)⟩, fun hor => absurd hor (by decide)⟩
    · rw [hside, hto]
      exact hemp.1
    · rcases hpromo with ⟨hpr, h1, h4⟩ | ⟨hpr, h0⟩
      · right
        refine ⟨h1, h4, Or.inl ⟨rfl, ?_⟩⟩
        simpa [is_promo_rank] using hpr
      · exact Or.inl h0
    · intro _ h16
      exfalso
      rw [hto] at h16
      simp only [Nat.dist] at h16
      omega
  · have hpd : pawnDouble 0 = 16 := rfl
    rw [hpd] at hdsq hto
    have hdsqi := (sqOk_iff _).mp hdsq
    have htn2 : ((m.fr_sq : Int) + 16).toNat = m.fr_sq + 16 := by omega
    rw [htn2] at hto
    have hsr2 : m.fr_sq / 8 = 1 := by simpa using hsr
    refine ⟨hs, by omega, by omega, by omega, fun _ => by omega, hnb, hbit, ?_,
      Or.inl hp0, ⟨?_, fun h6 => absurd h6 (by decide)⟩,
      fun hor => absurd hor (by decide)⟩
    · rw [hside, hto]
      rw [hto] at hdemp
      simp only [Nat.testBit_lor, Bool.or_eq_false_iff] at hdemp
      exact hdemp.1
    · intro _ _
      refine ⟨hsr2, hto, ?_⟩
      rw [hocc2]
      simp only [Nat.testBit_lor, Bool.or_eq_false_iff]
      exact hemp

theorem pushEmit_good_b {b : Board} (hWF : WF b) {s : Nat} {m : Move}
    (hwtm : b.white_to_move = false) (hs : s < 64)
    (hbit : (b.pc 6).testBit s = true)
    (he : pushEmit (b.occ 1) (b.occ 0) 1 s m) :
    GoodMoveAt b m 6 := by
  obtain ⟨hsq, hfr, hemp, hcase⟩ := he
  subst hfr
  have hocc2 := occ2_eq_or hWF.1
  have hpp : pawnPush 1 = -8 := rfl
  rw [hpp] at hsq hemp
  have hsqi := (sqOk_iff _).mp hsq
  have htn : ((m.fr_sq : Int) + -8).toNat = m.fr_sq - 8 := by omega
  rw [htn] at hemp
  simp only [Nat.testBit_lor, Bool.or_eq_false_iff] at hemp
  have hside : sideIdx b.white_to_move = 1 := by rw [hwtm]; rfl
  have hnw : b.white_to_move = true → (6 : Nat) < 6 := fun hf => by
    rw [hwtm] at hf; exact absurd hf (by simp)
  rcases hcase with ⟨hto, hpromo⟩ | ⟨hp0, hsr, hdsq, hto, hdemp⟩
  · rw [hpp, htn] at hto
    have hple : m.promo ≤ 4 := by
      rcases hpromo with ⟨h1, h2, h3⟩ | ⟨h1, h2⟩
      · omega
      · omega
    refine ⟨hs, by omega, hple, by omega, hnw, fun _ => by omega, hbit, ?_, ?_,
      ⟨fun h0 => absurd h0 (by decide), ?_⟩, fun hor => absurd hor (by decide)⟩
    · rw [hside, hto]
      exact hemp.1
    · rcases hpromo with ⟨hpr, h1, h4⟩ | ⟨hpr, h0⟩
      · right
        refine ⟨h1, h4, Or.inr ⟨rfl, ?_⟩⟩
        simpa [is_promo_rank] using hpr
      · exact Or.inl h0
    · intro _ h16
      exfalso
      rw [hto] at h16
      simp only [Nat.dist] at h16
      omega
  · have hpd : pawnDouble 1 = -16 := rfl
    rw [hpd] at hdsq hto
    have hdsqi := (sqOk_iff _).mp hdsq
    have htn2 : ((m.fr_sq : Int) + -16).toNat = m.fr_sq - 16 := by omega
    rw [htn2] at hto
    have hsr2 : m.fr_sq / 8 = 6 := by simpa using hsr
    refine ⟨hs, by omega, by omega, by omega, hnw, fun _ => by omega, hbit, ?_,
      Or.inl hp0, ⟨fun h0 => absurd h0 (by decide), ?_⟩,
      fun hor => absurd hor (by decide)⟩
    · rw [hside, hto]
      rw [hto] at hdemp
      simp only [Nat.testBit_lor, Bool.or_eq_false_iff] at hdemp
      exact hdemp.1
    · intro _ _
      refine ⟨hsr2, by omega, ?_⟩
      have hfr8 : m.fr_sq - 8 = m.fr_sq - 8 := rfl
      rw [hocc2]
      simp only [Nat.testBit_lor, Bool.or_eq_false_iff]
      exact ⟨hemp.2, hemp.1⟩

theorem capEmit_good_w {b : Board} (hWF : WF b) {s : Nat} {cd : Int} {m : Move}
    (hwtm : b.white_to_move = true) (hcd : cd = 7 ∨ cd = 9) (hs : s < 64)
    (hbit : (b.pc 0).testBit s = true)
    (he : capEmit b.ep_square (b.occ 1) 0 s cd m) :
    GoodMoveAt b m 0 := by
  obtain ⟨hsq, hfr, hto, hdist, hcond, hpromo⟩ := he
  subst hfr
  have hsqi := (sqOk_iff _).mp hsq
  have htn : ((m.fr_sq : Int) + cd).toNat = m.fr_sq + cd.toNat := by
    rcases hcd with rfl | rfl <;> omega
  rw [htn] at hto
  have hside : sideIdx b.white_to_move = 0 := by rw [hwtm]; rfl
  have hnb : b.white_to_move = false → (6 : Nat) ≤ 0 := fun hf => by
    rw [hwtm] at hf; exact absurd hf (by simp)
  have hple : m.promo ≤ 4 := by
    rcases hpromo with ⟨h1, h2, h3⟩ | ⟨h1, h2⟩
    · omega
    · omega
  have hocc0 : (b.occ 0).testBit m.to_sq = false := by
    rcases hcond with h1 | ⟨heq, hrank⟩
    · exact occ0_clear_of_occ1 hWF.1 h1
    · rcases hWF.2.2.2 with hm1 | ⟨_, h40, h48, _, hocc⟩ | ⟨hbw, _⟩
      · rw [hm1] at heq
        rcases hcd with rfl | rfl <;> omega
      · have : b.ep_square.toNat = m.to_sq := by
          rw [← heq, htn]
          exact hto.symm
        rw [this] at hocc
        exact occ_side_clear_of_occ2 hWF.1 (Or.inl rfl) hocc
      · rw [hwtm] at hbw
        exact absurd hbw (by simp)
  refine ⟨hs, by rcases hcd with rfl | rfl <;> omega, hple, by omega,
    fun _ => by omega, hnb, hbit, by rw [hside]; exact hocc0, ?_,
    ⟨?_, fun h6 => absurd h6 (by decide)⟩, fun hor => absurd hor (by decide)⟩
  · rcases hpromo with ⟨hpr, h1, h4⟩ | ⟨hpr, h0⟩
    · right
      refine ⟨h1, h4, Or.inl ⟨rfl, ?_⟩⟩
      simpa [is_promo_rank] using hpr
    · exact Or.inl h0
  · intro _ h16
    exfalso
    rw [hto] at h16
    simp only [Nat.dist] at h16
    rcases hcd with rfl | rfl <;> omega

theorem capEmit_good_b {b : Board} (hWF : WF b) {s : Nat} {cd : Int} {m : Move}
    (hwtm : b.white_to_move = false) (hcd : cd = -9 ∨ cd = -7) (hs : s < 64)
    (hbit : (b.pc 6).testBit s = true)
    (he : capEmit b.ep_square (b.occ 0) 1 s cd m) :
    GoodMoveAt b m 6 := by
  obtain ⟨hsq, hfr, hto, hdist, hcond, hpromo⟩ := he
  subst hfr
  have hsqi := (sqOk_iff _).mp hsq
  have htn : ((m.fr_sq : Int) + cd).toNat = m.fr_sq - (-cd).toNat := by
    rcases hcd with rfl | rfl <;> omega
  rw [htn] at hto
  have hside : sideIdx b.white_to_move = 1 := by rw [hwtm]; rfl
  have hnw : b.white_to_move = true → (6 : Nat) < 6 := fun hf => by
    rw [hwtm] at hf; exact absurd hf (by simp)
  have hple : m.promo ≤ 4 := by
    rcases hpromo with ⟨h1, h2, h3⟩ | ⟨h1, h2⟩
    · omega
    · omega
  have hocc1 : (b.occ 1).testBit m.to_sq = false := by
    rcases hcond with h1 | ⟨heq, hrank⟩
    · exact occ1_clear_of_occ0 hWF.1 h1
    · rcases hWF.2.2.2 with hm1 | ⟨hbw, _⟩ | ⟨_, h16, h24, _, hocc⟩
      · rw [hm1] at heq
        rcases hcd with rfl | rfl <;> omega
      · rw [hwtm] at hbw
        exact absurd hbw (by simp)
      · have : b.ep_square.toNat = m.to_sq := by
          rw [← heq, htn]
          exact hto.symm
        rw [this] at hocc
        exact occ_side_clear_of_occ2 hWF.1 (Or.inr rfl) hocc
  refine ⟨hs, by rcases hcd with rfl | rfl <;> omega, hple, by omega,
    hnw, fun _ => by omega, hbit, by rw [hside]; exact hocc1, ?_,
    ⟨fun h0 => absurd h0 (by decide), ?_⟩, fun hor => absurd hor (by decide)⟩
  · rcases hpromo with ⟨hpr, h1, h4⟩ | ⟨hpr, h0⟩
    · right
      refine ⟨h1, h4, Or.inr ⟨rfl, ?_⟩⟩
      simpa [is_promo_rank] using hpr
    · exact Or.inl h0
  · intro _ h16
    exfalso
    rw [hto] at h16
    simp only [Nat.dist] at h16
    rcases hcd with rfl | rfl <;> omega

theorem bool_tf {x : Bool} (h1 : x = true) (h2 : x = false) {C : Prop} : C := by
  rw [h1] at h2
  exact absurd h2 (by simp)

/-- Every move the pseudo-legal generator leaves in the buffer of a
well-formed board is pseudo-legal in the GoodMove sense. -/
theorem pseudo_sound {b : Board} (hWF : WF b) {m : Move}
    (hm : m ∈ (generate_pseudo_legal_moves b).movesBuf) : GoodMove b m := by
  cases hw : b.white_to_move with
  | true =>
    simp only [generate_pseudo_legal_moves, hw, if_true] at hm
    have hsi : sideIdx b.white_to_move = 0 := by rw [hw]; rfl
    rcases (generate_queen_moves_mem hm).symm with ⟨s, hs, hb, hq⟩ | hm
    · have he2 : stepEmit (b.occ (sideIdx b.white_to_move)) (b.occ 1) s m := by
        rw [hsi]; exact hq
      exact ⟨4, stepEmit_good (by decide) (fun _ => by decide) (fun hf => bool_tf hw hf)
        (by decide) hs (testBit_of_land_ne hb)
        (fun t ht => by rw [hsi]; exact occ0_clear_of_occ1 hWF.1 ht) he2⟩
    rcases (generate_bishop_moves_mem hm).symm with ⟨s, hs, hb, hq⟩ | hm
    · have he2 : stepEmit (b.occ (sideIdx b.white_to_move)) (b.occ 1) s m := by
        rw [hsi]; exact hq
      exact ⟨2, stepEmit_good (by decide) (fun _ => by decide) (fun hf => bool_tf hw hf)
        (by decide) hs (testBit_of_land_ne hb)
        (fun t ht => by rw [hsi]; exact occ0_clear_of_occ1 hWF.1 ht) he2⟩
    rcases (generate_rook_moves_mem hm).symm with ⟨s, hs, hb, hq⟩ | hm
    · have he2 : stepEmit (b.occ (sideIdx b.white_to_move)) (b.occ 1) s m := by
        rw [hsi]; exact hq
      exact ⟨3, stepEmit_good (by decide) (fun _ => by decide) (fun hf => bool_tf hw hf)
        (by decide) hs (testBit_of_land_ne hb)
        (fun t ht => by rw [hsi]; exact occ0_clear_of_occ1 hWF.1 ht) he2⟩
    rcases (generate_king_moves_mem hm).symm with ⟨ksq, hk, hb, hcase⟩ | hm
    · rcases hcase with hq | ⟨hc, hfr⟩
      · have he2 : kingStepEmit (b.occ (sideIdx b.white_to_move)) ksq m := by
          rw [hsi]; exact hq
        exact ⟨5, kingStepEmit_good (Or.inl rfl) (fun _ => by decide)
          (fun hf => bool_tf hw hf) hk (testBit_of_land_ne hb) he2⟩
      · have hbit2 : (b.pc (if b.white_to_move then 5 else 11)).testBit m.fr_sq = true := by
          rw [hw, hfr]
          exact testBit_of_land_ne hb
        exact ⟨if b.white_to_move then 5 else 11, kingCastleEmit_good hWF hc hbit2⟩
    rcases (generate_knight_moves_mem hm).symm with ⟨s, hs, hb, hq⟩ | hm
    · have he2 : stepEmit (b.occ (sideIdx b.white_to_move)) 0 s m := by
        rw [hsi]; exact hq
      exact ⟨1, stepEmit_good (by decide) (fun _ => by decide) (fun hf => bool_tf hw hf)
        (by decide) hs (testBit_of_land_ne hb)
        (fun t ht => absurd ht (by simp [Nat.zero_testBit])) he2⟩
    rcases (generate_pawn_moves_mem hm).symm with ⟨s, hs, hb, hshape⟩ | hm
    · rcases hshape with hp | hcw | hce
      · exact ⟨0, pushEmit_good_w hWF hw hs (testBit_of_land_ne hb) hp⟩
      · exact ⟨0, capEmit_good_w hWF hw (Or.inl rfl) hs (testBit_of_land_ne hb) hcw⟩
      · exact ⟨0, capEmit_good_w hWF hw (Or.inr rfl) hs (testBit_of_land_ne hb) hce⟩
    exact absurd hm (List.not_mem_nil m)
  | false =>
    simp only [generate_pseudo_legal_moves, hw, if_false] at hm
    have hsi : sideIdx b.white_to_move = 1 := by rw [hw]; rfl
    rcases (generate_queen_moves_mem hm).symm with ⟨s, hs, hb, hq⟩ | hm
    · have he2 : stepEmit (b.occ (sideIdx b.white_to_move)) (b.occ 0) s m := by
        rw [hsi]; exact hq
      exact ⟨10, stepEmit_good (by decide) (fun hf => bool_tf hf hw) (fun _ => by decide)
        (by decide) hs (testBit_of_land_ne hb)
        (fun t ht => by rw [hsi]; exact occ1_clear_of_occ0 hWF.1 ht) he2⟩
    rcases (generate_bishop_moves_mem hm).symm with ⟨s, hs, hb, hq⟩ | hm
    · have he2 : stepEmit (b.occ (sideIdx b.white_to_move)) (b.occ 0) s m := by
        rw [hsi]; exact hq
      exact ⟨8, stepEmit_good (by decide) (fun hf => bool_tf hf hw) (fun _ => by decide)
        (by decide) hs (testBit_of_land_ne hb)
        (fun t ht => by rw [hsi]; exact occ1_clear_of_occ0 hWF.1 ht) he2⟩
    rcases (generate_rook_moves_mem hm).symm with ⟨s, hs, hb, hq⟩ | hm
    · have he2 : stepEmit (b.occ (sideIdx b.white_to_move)) (b.occ 0) s m := by
        rw [hsi]; exact hq
      exact ⟨9, stepEmit_good (by decide) (fun hf => bool_tf hf hw) (fun _ => by decide)
        (by decide) hs (testBit_of_land_ne hb)
        (fun t ht => by rw [hsi]; exact occ1_clear_of_occ0 hWF.1 ht) he2⟩
    rcases (generate_king_moves_mem hm).symm with ⟨ksq, hk, hb, hcase⟩ | hm
    · rcases hcase with hq | ⟨hc, hfr⟩
      · have he2 : kingStepEmit (b.occ (sideIdx b.white_to_move)) ksq m := by
          rw [hsi]; exact hq
        exact ⟨11, kingStepEmit_good (Or.inr rfl) (fun hf => bool_tf hf hw)
          (fun _ => by decide) hk (testBit_of_land_ne hb) he2⟩
      · have hbit2 : (b.pc (if b.white_to_move then 5 else 11)).testBit m.fr_sq = true := by
          rw [hw, hfr]
          exact testBit_of_land_ne hb
        exact ⟨if b.white_to_move then 5 else 11, kingCastleEmit_good hWF hc hbit2⟩
    rcases (generate_knight_moves_mem hm).symm with ⟨s, hs, hb, hq⟩ | hm
    · have he2 : stepEmit (b.occ (sideIdx b.white_to_move)) 0 s m := by
        rw [hsi]; exact hq
      exact ⟨7, stepEmit_good (by decide) (fun hf => bool_tf hf hw) (fun _ => by decide)
        (by decide) hs (testBit_of_land_ne hb)
        (fun t ht => absurd ht (by simp [Nat.zero_testBit])) he2⟩
    rcases (generate_pawn_moves_mem hm).symm with ⟨s, hs, hb, hshape⟩ | hm
    · rcases hshape with hp | hcw | hce
      · exact ⟨6, pushEmit_good_b hWF hw hs (testBit_of_land_ne hb) hp⟩
      · exact ⟨6, capEmit_good_b hWF hw (Or.inl rfl) hs (testBit_of_land_ne hb) hcw⟩
      · exact ⟨6, capEmit_good_b hWF hw (Or.inr rfl) hs (testBit_of_land_ne hb) hce⟩
    exact absurd hm (List.not_mem_nil m)

/-! ## The piece-bitboard inverse: undo of make, by move shape -/

theorem testBit_bclear_of_false {x s t : Nat} (ht : t < 64) (h : x.testBit t = false) :
    (bclear x s).testBit t = false := by
  rw [testBit_bclear _ _ _ ht, h]
  rfl

theorem bclear_idem (x s : Nat) (hx : x < 2 ^ 64) (hs : s < 64) :
    bclear (bclear x s) s = bclear x s :=
  bclear_noop _ _ (bclear_lt _ _ hx) (by rw [testBit_bclear _ _ _ hs]; simp)

theorem inv_normal
    (ps : List Nat) (wtm : Bool) (fr toS promo mt c : Nat)
    (cst : Nat) (ep0 : Int) (hm0 fm0 : Nat)
    (h12 : ps.length = 12)
    (hbound : ∀ j, j < 12 → ps.getD j 0 < 2 ^ 64)
    (hfr : fr < 64) (hto : toS < 64)
    (hmt1 : 1 ≤ mt) (hmt12 : mt ≤ 12)
    (hbitM : (ps.getD (mt - 1) 0).testBit fr = true)
    (hToClear : ∀ j, j < 12 → (c = 0 ∨ j ≠ c - 1) → (ps.getD j 0).testBit toS = false)
    (hcap : c = 0 ∨ (1 ≤ c ∧ c ≤ 12 ∧ c - 1 ≠ mt - 1 ∧
      (ps.getD (c - 1) 0).testBit toS = true ∧
      (mt ≤ 6 → 7 ≤ c) ∧ (7 ≤ mt → c ≤ 6)))
    (hpromo : promo = 0 ∨ (1 ≤ promo ∧ promo ≤ 4 ∧ (mt = 1 ∨ mt = 7))) :
    undoPieces (makePieces ps wtm fr toS promo mt c (-1) (-1))
      ⟨fr, toS, mt, c, cst, promo, ep0, -1, -1, hm0, fm0⟩ = ps := by
  have hneg1 : ¬((-1 : Int) ≠ -1) := fun h => h rfl
  have hM12 : mt - 1 < 12 := by omega
  unfold makePieces undoPieces
  dsimp only
  simp only [if_neg hneg1]
  rcases hpromo with rfl | ⟨hp1, hp4, hmt17⟩
  · -- no promotion
    simp only [if_neg (show ¬((0 : Nat) ≠ 0) from fun h => h rfl), if_pos rfl, ite_true]
    rcases hcap with rfl | ⟨hc1, hc12, hcne, hcbit, hcw, hcb⟩
    · -- quiet move
      simp only [if_neg (show ¬((0 : Nat) ≠ 0) from fun h => h rfl)]
      apply list12_ext (by simp [lclr, lset, h12]) h12
      intro j hj
      by_cases hjM : j = mt - 1
      · rw [hjM]
        have e1 : (lclr ps (mt - 1) fr).getD (mt - 1) 0 = bclear (ps.getD (mt - 1) 0) fr :=
          getD_lclr_self _ _ _ (by rw [h12]; omega)
        have e2 : (lset (lclr ps (mt - 1) fr) (mt - 1) toS).getD (mt - 1) 0 =
            bset (bclear (ps.getD (mt - 1) 0) fr) toS := by
          rw [getD_lset_self _ _ _ (by simp [lclr, h12]; omega), e1]
        have e3 : (lclr (lset (lclr ps (mt - 1) fr) (mt - 1) toS) (mt - 1) toS).getD (mt - 1) 0 =
            bclear (bset (bclear (ps.getD (mt - 1) 0) fr) toS) toS := by
          rw [getD_lclr_self _ _ _ (by simp [lclr, lset, h12]; omega), e2]
        rw [getD_lset_self _ _ _ (by simp [lclr, lset, h12]; omega), e3,
          bclear_bset _ _ (bclear_lt _ _ (hbound _ hM12)) hto
            (testBit_bclear_of_false hto (hToClear _ hM12 (Or.inl rfl))),
          bset_bclear _ _ (hbound _ hM12) hfr hbitM]
      · rw [getD_lset_ne _ _ _ _ (Ne.symm hjM), getD_lclr_ne _ _ _ _ (Ne.symm hjM),
          getD_lset_ne _ _ _ _ (Ne.symm hjM), getD_lclr_ne _ _ _ _ (Ne.symm hjM)]
    · -- capture
      have hcne0 : c ≠ 0 := by omega
      have hK12 : c - 1 < 12 := by omega
      have hKM : c - 1 ≠ mt - 1 := hcne
      simp only [if_pos hcne0, ite_true]
      apply list12_ext (by simp [lclr, lset, h12]) h12
      intro j hj
      by_cases hjM : j = mt - 1
      · rw [hjM]
        have e1 : (lclr ps (mt - 1) fr).getD (mt - 1) 0 = bclear (ps.getD (mt - 1) 0) fr :=
          getD_lclr_self _ _ _ (by rw [h12]; omega)
        have e2 : (lclr (lclr ps (mt - 1) fr) (c - 1) toS).getD (mt - 1) 0 =
            bclear (ps.getD (mt - 1) 0) fr := by
          rw [getD_lclr_ne _ _ _ _ hKM, e1]
        have e3 : (lset (lclr (lclr ps (mt - 1) fr) (c - 1) toS) (mt - 1) toS).getD (mt - 1) 0 =
            bset (bclear (ps.getD (mt - 1) 0) fr) toS := by
          rw [getD_lset_self _ _ _ (by simp [lclr, h12]; omega), e2]
        have e4 : (lclr (lset (lclr (lclr ps (mt - 1) fr) (c - 1) toS) (mt - 1) toS)
            (mt - 1) toS).getD (mt - 1) 0 =
            bclear (bset (bclear (ps.getD (mt - 1) 0) fr) toS) toS := by
          rw [getD_lclr_self _ _ _ (by simp [lclr, lset, h12]; omega), e3]
        have e5 : (lset (lclr (lset (lclr (lclr ps (mt - 1) fr) (c - 1) toS) (mt - 1) toS)
            (mt - 1) toS) (c - 1) toS).getD (mt - 1) 0 =
            bclear (bset (bclear (ps.getD (mt - 1) 0) fr) toS) toS := by
          rw [getD_lset_ne _ _ _ _ hKM, e4]
        rw [getD_lset_self _ _ _ (by simp [lclr, lset, h12]; omega), e5,
          bclear_bset _ _ (bclear_lt _ _ (hbound _ hM12)) hto
            (testBit_bclear_of_false hto (hToClear _ hM12 (Or.inr (Ne.symm hKM)))),
          bset_bclear _ _ (hbound _ hM12) hfr hbitM]
      · by_cases hjK : j = c - 1
        · rw [hjK]
          have hMK : mt - 1 ≠ c - 1 := Ne.symm hKM
          have e1 : (lclr ps (mt - 1) fr).getD (c - 1) 0 = ps.getD (c - 1) 0 :=
            getD_lclr_ne _ _ _ _ hMK
          have e2 : (lclr (lclr ps (mt - 1) fr) (c - 1) toS).getD (c - 1) 0 =
              bclear (ps.getD (c - 1) 0) toS := by
            rw [getD_lclr_self _ _ _ (by simp [lclr, h12]; omega), e1]
          have e3 : (lset (lclr (lclr ps (mt - 1) fr) (c - 1) toS) (mt - 1) toS).getD (c - 1) 0 =
              bclear (ps.getD (c - 1) 0) toS := by
            rw [getD_lset_ne _ _ _ _ hMK, e2]
          have e4 : (lclr (lset (lclr (lclr ps (mt - 1) fr) (c - 1) toS) (mt - 1) toS)
              (mt - 1) toS).getD (c - 1) 0 = bclear (ps.getD (c - 1) 0) toS := by
            rw [getD_lclr_ne _ _ _ _ hMK, e3]
          have e5 : (lset (lclr (lset (lclr (lclr ps (mt - 1) fr) (c - 1) toS) (mt - 1) toS)
              (mt - 1) toS) (c - 1) toS).getD (c - 1) 0 =
              bset (bclear (ps.getD (c - 1) 0) toS) toS := by
            rw [getD_lset_self _ _ _ (by simp [lclr, lset, h12]; omega), e4]
          rw [getD_lset_ne _ _ _ _ hMK, e5,
            bset_bclear _ _ (hbound _ hK12) hto hcbit]
        · rw [getD_lset_ne _ _ _ _ (Ne.symm hjM), getD_lset_ne _ _ _ _ (Ne.symm hjK),
            getD_lclr_ne _ _ _ _ (Ne.symm hjM), getD_lset_ne _ _ _ _ (Ne.symm hjM),
            getD_lclr_ne _ _ _ _ (Ne.symm hjK), getD_lclr_ne _ _ _ _ (Ne.symm hjM)]
  · -- promotion
    have hpne0 : promo ≠ 0 := by omega
    simp only [if_pos hpne0, if_neg hpne0, ite_true]
    have hPb : (mt = 1 → 1 ≤ promoPieces (if mt ≤ 6 then 0 else 1) (promo - 1) - 1 ∧
          promoPieces (if mt ≤ 6 then 0 else 1) (promo - 1) - 1 ≤ 4) ∧
        (mt = 7 → 7 ≤ promoPieces (if mt ≤ 6 then 0 else 1) (promo - 1) - 1 ∧
          promoPieces (if mt ≤ 6 then 0 else 1) (promo - 1) - 1 ≤ 10) := by
      rcases hmt17 with rfl | rfl
      · refine ⟨fun _ => ?_, fun h7 => absurd h7 (by decide)⟩
        interval_cases promo <;> decide
      · refine ⟨fun h1 => absurd h1 (by decide), fun _ => ?_⟩
        interval_cases promo <;> decide
    set P := promoPieces (if mt ≤ 6 then 0 else 1) (promo - 1) - 1 with hPdef
    have hP12 : P < 12 := by
      rcases hmt17 with h | h
      · have := hPb.1 h; omega
      · have := hPb.2 h; omega
    have hPM : P ≠ mt - 1 := by
      rcases hmt17 with h | h
      · have := hPb.1 h; omega
      · have := hPb.2 h; omega
    have hPK : c ≠ 0 → P ≠ c - 1 := by
      intro hc0
      rcases hcap with h | ⟨hc1, hc12, hcne, hcbit, hcw, hcb⟩
      · exact absurd h hc0
      · rcases hmt17 with h | h
        · have := hPb.1 h
          have := hcw (by omega)
          omega
        · have := hPb.2 h
          have := hcb (by omega)
          omega
    have hPclear : (ps.getD P 0).testBit toS = false := by
      apply hToClear P hP12
      by_cases hc0 : c = 0
      · exact Or.inl hc0
      · exact Or.inr (hPK hc0)
    rcases hcap with rfl | ⟨hc1, hc12, hcne, hcbit, hcw, hcb⟩
    · -- promotion without capture
      simp only [if_neg (show ¬((0 : Nat) ≠ 0) from fun h => h rfl)]
      apply list12_ext (by simp [lclr, lset, h12]) h12
      intro j hj
      by_cases hjM : j = mt - 1
      · rw [hjM]
        have e1 : (lclr ps (mt - 1) fr).getD (mt - 1) 0 = bclear (ps.getD (mt - 1) 0) fr :=
          getD_lclr_self _ _ _ (by rw [h12]; omega)
        have e2 : (lset (lclr ps (mt - 1) fr) (mt - 1) toS).getD (mt - 1) 0 =
            bset (bclear (ps.getD (mt - 1) 0) fr) toS := by
          rw [getD_lset_self _ _ _ (by simp [lclr, h12]; omega), e1]
        have e3 : ((lset (lclr ps (mt - 1) fr) (mt - 1) toS).map
            (fun x => bclear x toS)).getD (mt - 1) 0 =
            bclear (bset (bclear (ps.getD (mt - 1) 0) fr) toS) toS := by
          rw [getD_map_bclear, e2]
        have e4 : (lset ((lset (lclr ps (mt - 1) fr) (mt - 1) toS).map
            (fun x => bclear x toS)) P toS).getD (mt - 1) 0 =
            bclear (bset (bclear (ps.getD (mt - 1) 0) fr) toS) toS := by
          rw [getD_lset_ne _ _ _ _ hPM, e3]
        have e5 : (lclr (lset ((lset (lclr ps (mt - 1) fr) (mt - 1) toS).map
            (fun x => bclear x toS)) P toS) P toS).getD (mt - 1) 0 =
            bclear (bset (bclear (ps.getD (mt - 1) 0) fr) toS) toS := by
          rw [getD_lclr_ne _ _ _ _ hPM, e4]
        rw [getD_lset_self _ _ _ (by simp [lclr, lset, h12]; omega), e5,
          bclear_bset _ _ (bclear_lt _ _ (hbound _ hM12)) hto
            (testBit_bclear_of_false hto (hToClear _ hM12 (Or.inl rfl))),
          bset_bclear _ _ (hbound _ hM12) hfr hbitM]
      · by_cases hjP : j = P
        · rw [hjP]
          have e1 : (lclr ps (mt - 1) fr).getD P 0 = ps.getD P 0 :=
            getD_lclr_ne _ _ _ _ (fun he => hjM (hjP.trans he.symm) |>.elim)
          have e2 : (lset (lclr ps (mt - 1) fr) (mt - 1) toS).getD P 0 = ps.getD P 0 := by
            rw [getD_lset_ne _ _ _ _ (Ne.symm hPM), e1]
          have e3 : ((lset (lclr ps (mt - 1) fr) (mt - 1) toS).map
              (fun x => bclear x toS)).getD P 0 = bclear (ps.getD P 0) toS := by
            rw [getD_map_bclear, e2]
          have e4 : (lset ((lset (lclr ps (mt - 1) fr) (mt - 1) toS).map
              (fun x => bclear x toS)) P toS).getD P 0 =
              bset (bclear (ps.getD P 0) toS) toS := by
            rw [getD_lset_self _ _ _ (by simp [lclr, lset, h12]; omega), e3]
          have e5 : (lclr (lset ((lset (lclr ps (mt - 1) fr) (mt - 1) toS).map
              (fun x => bclear x toS)) P toS) P toS).getD P 0 =
              bclear (bset (bclear (ps.getD P 0) toS) toS) toS := by
            rw [getD_lclr_self _ _ _ (by simp [lclr, lset, h12]; omega), e4]
          rw [getD_lset_ne _ _ _ _ (Ne.symm hPM), e5,
            bclear_bset _ _ (bclear_lt _ _ (hbound _ hP12)) hto
              (testBit_bclear_of_false hto hPclear),
            bclear_noop _ _ (hbound _ hP12) hPclear]
        · have e1 : (lclr ps (mt - 1) fr).getD j 0 = ps.getD j 0 :=
            getD_lclr_ne _ _ _ _ (Ne.symm hjM)
          have e2 : (lset (lclr ps (mt - 1) fr) (mt - 1) toS).getD j 0 = ps.getD j 0 := by
            rw [getD_lset_ne _ _ _ _ (Ne.symm hjM), e1]
          have e3 : ((lset (lclr ps (mt - 1) fr) (mt - 1) toS).map
              (fun x => bclear x toS)).getD j 0 = ps.getD j 0 := by
            rw [getD_map_bclear, e2]
            exact bclear_noop _ _ (hbound _ hj) (hToClear _ hj (Or.inl rfl))
          have e4 : (lset ((lset (lclr ps (mt - 1) fr) (mt - 1) toS).map
              (fun x => bclear x toS)) P toS).getD j 0 = ps.getD j 0 := by
            rw [getD_lset_ne _ _ _ _ (fun he => hjP he.symm), e3]
          have e5 : (lclr (lset ((lset (lclr ps (mt - 1) fr) (mt - 1) toS).map
              (fun x => bclear x toS)) P toS) P toS).getD j 0 = ps.getD j 0 := by
            rw [getD_lclr_ne _ _ _ _ (fun he => hjP he.symm), e4]
          rw [getD_lset_ne _ _ _ _ (Ne.symm hjM), e5]
    · -- promotion with capture
      have hcne0 : c ≠ 0 := by omega
      have hK12 : c - 1 < 12 := by omega
      have hKM : c - 1 ≠ mt - 1 := hcne
      have hPKne : P ≠ c - 1 := hPK hcne0
      simp only [if_pos hcne0, ite_true]
      apply list12_ext (by simp [lclr, lset, h12]) h12
      intro j hj
      by_cases hjM : j = mt - 1
      · rw [hjM]
        have e1 : (lclr ps (mt - 1) fr).getD (mt - 1) 0 = bclear (ps.getD (mt - 1) 0) fr :=
          getD_lclr_self _ _ _ (by rw [h12]; omega)
        have e2 : (lclr (lclr ps (mt - 1) fr) (c - 1) toS).getD (mt - 1) 0 =
            bclear (ps.getD (mt - 1) 0) fr := by
          rw [getD_lclr_ne _ _ _ _ hKM, e1]
        have e3 : (lset (lclr (lclr ps (mt - 1) fr) (c - 1) toS) (mt - 1) toS).getD (mt - 1) 0 =
            bset (bclear (ps.getD (mt - 1) 0) fr) toS := by
          rw [getD_lset_self _ _ _ (by simp [lclr, h12]; omega), e2]
        have e4 : ((lset (lclr (lclr ps (mt - 1) fr) (c - 1) toS) (mt - 1) toS).map
            (fun x => bclear x toS)).getD (mt - 1) 0 =
            bclear (bset (bclear (ps.getD (mt - 1) 0) fr) toS) toS := by
          rw [getD_map_bclear, e3]
        have e5 : (lset ((lset (lclr (lclr ps (mt - 1) fr) (c - 1) toS) (mt - 1) toS).map
            (fun x => bclear x toS)) P toS).getD (mt - 1) 0 =
            bclear (bset (bclear (ps.getD (mt - 1) 0) fr) toS) toS := by
          rw [getD_lset_ne _ _ _ _ hPM, e4]
        have e6 : (lclr (lset ((lset (lclr (lclr ps (mt - 1) fr) (c - 1) toS) (mt - 1) toS).map
            (fun x => bclear x toS)) P toS) P toS).getD (mt - 1) 0 =
            bclear (bset (bclear (ps.getD (mt - 1) 0) fr) toS) toS := by
          rw [getD_lclr_ne _ _ _ _ hPM, e5]
        have e7 : (lset (lclr (lset ((lset (lclr (lclr ps (mt - 1) fr) (c - 1) toS)
            (mt - 1) toS).map (fun x => bclear x toS)) P toS) P toS) (c - 1) toS).getD
            (mt - 1) 0 =
            bclear (bset (bclear (ps.getD (mt - 1) 0) fr) toS) toS := by
          rw [getD_lset_ne _ _ _ _ hKM, e6]
        rw [getD_lset_self _ _ _ (by simp [lclr, lset, h12]; omega), e7,
          bclear_bset _ _ (bclear_lt _ _ (hbound _ hM12)) hto
            (testBit_bclear_of_false hto (hToClear _ hM12 (Or.inr (Ne.symm hKM)))),
          bset_bclear _ _ (hbound _ hM12) hfr hbitM]
      · by_cases hjP : j = P
        · rw [hjP]
          have e1 : (lclr ps (mt - 1) fr).getD P 0 = ps.getD P 0 :=
            getD_lclr_ne _ _ _ _ (Ne.symm hPM)
          have e2 : (lclr (lclr ps (mt - 1) fr) (c - 1) toS).getD P 0 = ps.getD P 0 := by
            rw [getD_lclr_ne _ _ _ _ (Ne.symm hPKne), e1]
          have e3 : (lset (lclr (lclr ps (mt - 1) fr) (c - 1) toS) (mt - 1) toS).getD P 0 =
              ps.getD P 0 := by
            rw [getD_lset_ne _ _ _ _ (Ne.symm hPM), e2]
          have e4 : ((lset (lclr (lclr ps (mt - 1) fr) (c - 1) toS) (mt - 1) toS).map
              (fun x => bclear x toS)).getD P 0 = bclear (ps.getD P 0) toS := by
            rw [getD_map_bclear, e3]
          have e5 : (lset ((lset (lclr (lclr ps (mt - 1) fr) (c - 1) toS) (mt - 1) toS).map
              (fun x => bclear x toS)) P toS).getD P 0 =
              bset (bclear (ps.getD P 0) toS) toS := by
            rw [getD_lset_self _ _ _ (by simp [lclr, lset, h12]; omega), e4]
          have e6 : (lclr (lset ((lset (lclr (lclr ps (mt - 1) fr) (c - 1) toS)
              (mt - 1) toS).map (fun x => bclear x toS)) P toS) P toS).getD P 0 =
              bclear (bset (bclear (ps.getD P 0) toS) toS) toS := by
            rw [getD_lclr_self _ _ _ (by simp [lclr, lset, h12]; omega), e5]
          have e7 : (lset (lclr (lset ((lset (lclr (lclr ps (mt - 1) fr) (c - 1) toS)
              (mt - 1) toS).map (fun x => bclear x toS)) P toS) P toS) (c - 1) toS).getD
              P 0 = bclear (bset (bclear (ps.getD P 0) toS) toS) toS := by
            rw [getD_lset_ne _ _ _ _ (Ne.symm hPKne), e6]
          rw [getD_lset_ne _ _ _ _ (Ne.symm hPM), e7,
            bclear_bset _ _ (bclear_lt _ _ (hbound _ hP12)) hto
              (testBit_bclear_of_false hto hPclear),
            bclear_noop _ _ (hbound _ hP12) hPclear]
        · by_cases hjK : j = c - 1
          · rw [hjK]
            have hMK : mt - 1 ≠ c - 1 := Ne.symm hKM
            have e1 : (lclr ps (mt - 1) fr).getD (c - 1) 0 = ps.getD (c - 1) 0 :=
              getD_lclr_ne _ _ _ _ hMK
            have e2 : (lclr (lclr ps (mt - 1) fr) (c - 1) toS).getD (c - 1) 0 =
                bclear (ps.getD (c - 1) 0) toS := by
              rw [getD_lclr_self _ _ _ (by simp [lclr, h12]; omega), e1]
            have e3 : (lset (lclr (lclr ps (mt - 1) fr) (c - 1) toS) (mt - 1) toS).getD
                (c - 1) 0 = bclear (ps.getD (c - 1) 0) toS := by
              rw [getD_lset_ne _ _ _ _ hMK, e2]
            have e4 : ((lset (lclr (lclr ps (mt - 1) fr) (c - 1) toS) (mt - 1) toS).map
                (fun x => bclear x toS)).getD (c - 1) 0 =
                bclear (ps.getD (c - 1) 0) toS := by
              rw [getD_map_bclear, e3]
              exact bclear_idem _ _ (hbound _ hK12) hto
            have e5 : (lset ((lset (lclr (lclr ps (mt - 1) fr) (c - 1) toS) (mt - 1) toS).map
                (fun x => bclear x toS)) P toS).getD (c - 1) 0 =
                bclear (ps.getD (c - 1) 0) toS := by
              rw [getD_lset_ne _ _ _ _ hPKne, e4]
            have e6 : (lclr (lset ((lset (lclr (lclr ps (mt - 1) fr) (c - 1) toS)
                (mt - 1) toS).map (fun x => bclear x toS)) P toS) P toS).getD (c - 1) 0 =
                bclear (ps.getD (c - 1) 0) toS := by
              rw [getD_lclr_ne _ _ _ _ hPKne, e5]
            have e7 : (lset (lclr (lset ((lset (lclr (lclr ps (mt - 1) fr) (c - 1) toS)
                (mt - 1) toS).map (fun x => bclear x toS)) P toS) P toS) (c - 1) toS).getD
                (c - 1) 0 = bset (bclear (ps.getD (c - 1) 0) toS) toS := by
              rw [getD_lset_self _ _ _ (by simp [lclr, lset, h12]; omega), e6]
            rw [getD_lset_ne _ _ _ _ hMK, e7,
              bset_bclear _ _ (hbound _ hK12) hto hcbit]
          · have e1 : (lclr ps (mt - 1) fr).getD j 0 = ps.getD j 0 :=
              getD_lclr_ne _ _ _ _ (Ne.symm hjM)
            have e2 : (lclr (lclr ps (mt - 1) fr) (c - 1) toS).getD j 0 = ps.getD j 0 := by
              rw [getD_lclr_ne _ _ _ _ (Ne.symm hjK), e1]
            have e3 : (lset (lclr (lclr ps (mt - 1) fr) (c - 1) toS) (mt - 1) toS).getD j 0 =
                ps.getD j 0 := by
              rw [getD_lset_ne _ _ _ _ (Ne.symm hjM), e2]
            have e4 : ((lset (lclr (lclr ps (mt - 1) fr) (c - 1) toS) (mt - 1) toS).map
                (fun x => bclear x toS)).getD j 0 = ps.getD j 0 := by
              rw [getD_map_bclear, e3]
              exact bclear_noop _ _ (hbound _ hj) (hToClear _ hj (Or.inr hjK))
            have e5 : (lset ((lset (lclr (lclr ps (mt - 1) fr) (c - 1) toS) (mt - 1) toS).map
                (fun x => bclear x toS)) P toS).getD j 0 = ps.getD j 0 := by
              rw [getD_lset_ne _ _ _ _ (fun he => hjP he.symm), e4]
            have e6 : (lclr (lset ((lset (lclr (lclr ps (mt - 1) fr) (c - 1) toS)
                (mt - 1) toS).map (fun x => bclear x toS)) P toS) P toS).getD j 0 =
                ps.getD j 0 := by
              rw [getD_lclr_ne _ _ _ _ (fun he => hjP he.symm), e5]
            have e7 : (lset (lclr (lset ((lset (lclr (lclr ps (mt - 1) fr) (c - 1) toS)
                (mt - 1) toS).map (fun x => bclear x toS)) P toS) P toS) (c - 1) toS).getD
                j 0 = ps.getD j 0 := by
              rw [getD_lset_ne _ _ _ _ (Ne.symm hjK), e6]
            rw [getD_lset_ne _ _ _ _ (Ne.symm hjM), e7]

theorem inv_ep
    (ps : List Nat) (wtm : Bool) (fr toS mt ec : Nat)
    (cst : Nat) (ep0 : Int) (hm0 fm0 : Nat)
    (h12 : ps.length = 12)
    (hbound : ∀ j, j < 12 → ps.getD j 0 < 2 ^ 64)
    (hfr : fr < 64) (hto : toS < 64) (hec : ec < 64)
    (hmt1 : 1 ≤ mt) (hmt12 : mt ≤ 12)
    (hbitM : (ps.getD (mt - 1) 0).testBit fr = true)
    (hMto : (ps.getD (mt - 1) 0).testBit toS = false)
    (hEM : (if wtm then 7 else 1) - 1 ≠ mt - 1)
    (hEbit : (ps.getD ((if wtm then 7 else 1) - 1) 0).testBit ec = true)
    (hsideEq : (if wtm then 7 else 1) = (if mt ≤ 6 then 7 else 1)) :
    undoPieces (makePieces ps wtm fr toS 0 mt 0 ((ec : Int)) (-1))
      ⟨fr, toS, mt, 0, cst, 0, ep0, (ec : Int), -1, hm0, fm0⟩ = ps := by
  have hE12 : (if wtm then 7 else 1) - 1 < 12 := by
    cases wtm <;> simp
  have hecne : ((ec : Int)) ≠ -1 := by omega
  have hneg1 : ¬((-1 : Int) ≠ -1) := fun h => h rfl
  unfold makePieces undoPieces
  dsimp only
  simp only [if_neg hneg1, if_pos hecne, Int.toNat_natCast,
    if_neg (show ¬((0 : Nat) ≠ 0) from fun h => h rfl), if_pos rfl, ite_true, ← hsideEq]
  apply list12_ext (by simp [lclr, lset, h12]) h12
  intro j hj
  by_cases hjM : j = mt - 1
  · rw [hjM]
    have e1 : (lclr ps (mt - 1) fr).getD (mt - 1) 0 = bclear (ps.getD (mt - 1) 0) fr :=
      getD_lclr_self _ _ _ (by rw [h12]; omega)
    have e2 : (lclr (lclr ps (mt - 1) fr) ((if wtm then 7 else 1) - 1) ec).getD (mt - 1) 0 =
        bclear (ps.getD (mt - 1) 0) fr := by
      rw [getD_lclr_ne _ _ _ _ hEM, e1]
    have e3 : (lset (lclr (lclr ps (mt - 1) fr) ((if wtm then 7 else 1) - 1) ec)
        (mt - 1) toS).getD (mt - 1) 0 =
        bset (bclear (ps.getD (mt - 1) 0) fr) toS := by
      rw [getD_lset_self _ _ _ (by simp [lclr, h12]; omega), e2]
    have e4 : (lclr (lset (lclr (lclr ps (mt - 1) fr) ((if wtm then 7 else 1) - 1) ec)
        (mt - 1) toS) (mt - 1) toS).getD (mt - 1) 0 =
        bclear (ps.getD (mt - 1) 0) fr := by
      rw [getD_lclr_self _ _ _ (by simp [lclr, lset, h12]; omega), e3,
        bclear_bset _ _ (bclear_lt _ _ (hbound _ (by omega))) hto
          (testBit_bclear_of_false hto hMto)]
    have e5 : (lset (lclr (lset (lclr (lclr ps (mt - 1) fr) ((if wtm then 7 else 1) - 1) ec)
        (mt - 1) toS) (mt - 1) toS) ((if wtm then 7 else 1) - 1) ec).getD (mt - 1) 0 =
        bclear (ps.getD (mt - 1) 0) fr := by
      rw [getD_lset_ne _ _ _ _ hEM, e4]
    rw [getD_lset_self _ _ _ (by simp [lclr, lset, h12]; omega), e5,
      bset_bclear _ _ (hbound _ (by omega)) hfr hbitM]
  · by_cases hjE : j = (if wtm then 7 else 1) - 1
    · rw [hjE]
      have hME : mt - 1 ≠ (if wtm then 7 else 1) - 1 := Ne.symm hEM
      have e1 : (lclr ps (mt - 1) fr).getD ((if wtm then 7 else 1) - 1) 0 =
          ps.getD ((if wtm then 7 else 1) - 1) 0 := getD_lclr_ne _ _ _ _ hME
      have e2 : (lclr (lclr ps (mt - 1) fr) ((if wtm then 7 else 1) - 1) ec).getD
          ((if wtm then 7 else 1) - 1) 0 =
          bclear (ps.getD ((if wtm then 7 else 1) - 1) 0) ec := by
        rw [getD_lclr_self _ _ _ (by simp [lclr, h12]; omega), e1]
      have e3 : (lset (lclr (lclr ps (mt - 1) fr) ((if wtm then 7 else 1) - 1) ec)
          (mt - 1) toS).getD ((if wtm then 7 else 1) - 1) 0 =
          bclear (ps.getD ((if wtm then 7 else 1) - 1) 0) ec := by
        rw [getD_lset_ne _ _ _ _ hME, e2]
      have e4 : (lclr (lset (lclr (lclr ps (mt - 1) fr) ((if wtm then 7 else 1) - 1) ec)
          (mt - 1) toS) (mt - 1) toS).getD ((if wtm then 7 else 1) - 1) 0 =
          bclear (ps.getD ((if wtm then 7 else 1) - 1) 0) ec := by
        rw [getD_lclr_ne _ _ _ _ hME, e3]
      have e5 : (lset (lclr (lset (lclr (lclr ps (mt - 1) fr) ((if wtm then 7 else 1) - 1) ec)
          (mt - 1) toS) (mt - 1) toS) ((if wtm then 7 else 1) - 1) ec).getD
          ((if wtm then 7 else 1) - 1) 0 =
          bset (bclear (ps.getD ((if wtm then 7 else 1) - 1) 0) ec) ec := by
        rw [getD_lset_self _ _ _ (by simp [lclr, lset, h12]; omega), e4]
      rw [getD_lset_ne _ _ _ _ hME, e5, bset_bclear _ _ (hbound _ hE12) hec hEbit]
    · rw [getD_lset_ne _ _ _ _ (Ne.symm hjM), getD_lset_ne _ _ _ _ (Ne.symm hjE),
        getD_lclr_ne _ _ _ _ (Ne.symm hjM), getD_lset_ne _ _ _ _ (Ne.symm hjM),
        getD_lclr_ne _ _ _ _ (Ne.symm hjE), getD_lclr_ne _ _ _ _ (Ne.symm hjM)]

theorem inv_castle
    (ps : List Nat) (wtm : Bool) (fr toS mt rf : Nat)
    (cst : Nat) (ep0 : Int) (hm0 fm0 : Nat)
    (h12 : ps.length = 12)
    (hbound : ∀ j, j < 12 → ps.getD j 0 < 2 ^ 64)
    (hfr : fr < 64) (hto : toS < 64) (hrf : rf < 64)
    (hmt : mt = 6 ∨ mt = 12)
    (hbitM : (ps.getD (mt - 1) 0).testBit fr = true)
    (hMto : (ps.getD (mt - 1) 0).testBit toS = false)
    (hrt : (if fr < toS then toS - 1 else toS + 1) < 64)
    (hrfrt : rf ≠ (if fr < toS then toS - 1 else toS + 1))
    (hRbit : (ps.getD ((if mt = 6 then 4 else 10) - 1) 0).testBit rf = true)
    (hRrt : (ps.getD ((if mt = 6 then 4 else 10) - 1) 0).testBit
      (if fr < toS then toS - 1 else toS + 1) = false) :
    undoPieces (makePieces ps wtm fr toS 0 mt 0 (-1) ((rf : Int)))
      ⟨fr, toS, mt, 0, cst, 0, ep0, -1, (rf : Int), hm0, fm0⟩ = ps := by
  have hneg1 : ¬((-1 : Int) ≠ -1) := fun h => h rfl
  have hrfne : ((rf : Int)) ≠ -1 := by omega
  rcases hmt with rfl | rfl
  · unfold makePieces undoPieces
    dsimp only
    simp only [if_neg hneg1, if_pos hrfne, Int.toNat_natCast,
      if_neg (show ¬((0 : Nat) ≠ 0) from fun h => h rfl), if_pos rfl, ite_true,
      if_pos (show (6 : Nat) ≤ 6 by decide),
      if_pos (show (4 : Nat) ≠ 0 by decide)]
    simp only [show (6 : Nat) - 1 = 5 from rfl, show (4 : Nat) - 1 = 3 from rfl,
      show (if (6 : Nat) = 6 then 4 else 10) - 1 = 3 from rfl] at hbitM hMto hRbit hRrt ⊢
    apply list12_ext (by simp [lclr, lset, h12]) h12
    intro j hj
    by_cases hjM : j = 5
    · rw [hjM]
      have e1 : (lclr ps 5 fr).getD 5 0 = bclear (ps.getD 5 0) fr :=
        getD_lclr_self _ _ _ (by rw [h12]; omega)
      have e2 : (lclr (lclr ps 5 fr) 3 rf).getD 5 0 = bclear (ps.getD 5 0) fr := by
        rw [getD_lclr_ne _ _ _ _ (by decide), e1]
      have e3 : (lset (lclr (lclr ps 5 fr) 3 rf) 3
          (if fr < toS then toS - 1 else toS + 1)).getD 5 0 =
          bclear (ps.getD 5 0) fr := by
        rw [getD_lset_ne _ _ _ _ (by decide), e2]
      have e4 : (lset (lset (lclr (lclr ps 5 fr) 3 rf) 3
          (if fr < toS then toS - 1 else toS + 1)) 5 toS).getD 5 0 =
          bset (bclear (ps.getD 5 0) fr) toS := by
        rw [getD_lset_self _ _ _ (by simp [lclr, lset, h12]), e3]
      have e5 : (lclr (lset (lset (lclr (lclr ps 5 fr) 3 rf) 3
          (if fr < toS then toS - 1 else toS + 1)) 5 toS) 5 toS).getD 5 0 =
          bclear (ps.getD 5 0) fr := by
        rw [getD_lclr_self _ _ _ (by simp [lclr, lset, h12]), e4,
          bclear_bset _ _ (bclear_lt _ _ (hbound 5 (by omega))) hto
            (testBit_bclear_of_false hto hMto)]
      have e6 : (lclr (lclr (lset (lset (lclr (lclr ps 5 fr) 3 rf) 3
          (if fr < toS then toS - 1 else toS + 1)) 5 toS) 5 toS) 3
          (if fr < toS then toS - 1 else toS + 1)).getD 5 0 =
          bclear (ps.getD 5 0) fr := by
        rw [getD_lclr_ne _ _ _ _ (by decide), e5]
      have e7 : (lset (lclr (lclr (lset (lset (lclr (lclr ps 5 fr) 3 rf) 3
          (if fr < toS then toS - 1 else toS + 1)) 5 toS) 5 toS) 3
          (if fr < toS then toS - 1 else toS + 1)) 3 rf).getD 5 0 =
          bclear (ps.getD 5 0) fr := by
        rw [getD_lset_ne _ _ _ _ (by decide), e6]
      rw [getD_lset_self _ _ _ (by simp [lclr, lset, h12]), e7,
        bset_bclear _ _ (hbound 5 (by omega)) hfr hbitM]
    · by_cases hjR : j = 3
      · rw [hjR]
        have e1 : (lclr ps 5 fr).getD 3 0 = ps.getD 3 0 :=
          getD_lclr_ne _ _ _ _ (by decide)
        have e2 : (lclr (lclr ps 5 fr) 3 rf).getD 3 0 = bclear (ps.getD 3 0) rf := by
          rw [getD_lclr_self _ _ _ (by simp [lclr, h12]), e1]
        have e3 : (lset (lclr (lclr ps 5 fr) 3 rf) 3
            (if fr < toS then toS - 1 else toS + 1)).getD 3 0 =
            bset (bclear (ps.getD 3 0) rf) (if fr < toS then toS - 1 else toS + 1) := by
          rw [getD_lset_self _ _ _ (by simp [lclr, h12]), e2]
        have e4 : (lset (lset (lclr (lclr ps 5 fr) 3 rf) 3
            (if fr < toS then toS - 1 else toS + 1)) 5 toS).getD 3 0 =
            bset (bclear (ps.getD 3 0) rf) (if fr < toS then toS - 1 else toS + 1) := by
          rw [getD_lset_ne _ _ _ _ (by decide), e3]
        have e5 : (lclr (lset (lset (lclr (lclr ps 5 fr) 3 rf) 3
            (if fr < toS then toS - 1 else toS + 1)) 5 toS) 5 toS).getD 3 0 =
            bset (bclear (ps.getD 3 0) rf) (if fr < toS then toS - 1 else toS + 1) := by
          rw [getD_lclr_ne _ _ _ _ (by decide), e4]
        have e6 : (lclr (lclr (lset (lset (lclr (lclr ps 5 fr) 3 rf) 3
            (if fr < toS then toS - 1 else toS + 1)) 5 toS) 5 toS) 3
            (if fr < toS then toS - 1 else toS + 1)).getD 3 0 =
            bclear (ps.getD 3 0) rf := by
          rw [getD_lclr_self _ _ _ (by simp [lclr, lset, h12]), e5,
            bclear_bset _ _ (bclear_lt _ _ (hbound 3 (by omega))) hrt
              (testBit_bclear_of_false hrt hRrt)]
        have e7 : (lset (lclr (lclr (lset (lset (lclr (lclr ps 5 fr) 3 rf) 3
            (if fr < toS then toS - 1 else toS + 1)) 5 toS) 5 toS) 3
            (if fr < toS then toS - 1 else toS + 1)) 3 rf).getD 3 0 =
            bset (bclear (ps.getD 3 0) rf) rf := by
          rw [getD_lset_self _ _ _ (by simp [lclr, lset, h12]), e6]
        rw [getD_lset_ne _ _ _ _ (by decide), e7,
          bset_bclear _ _ (hbound 3 (by omega)) hrf hRbit]
      · rw [getD_lset_ne _ _ _ _ (Ne.symm hjM), getD_lset_ne _ _ _ _ (Ne.symm hjR),
          getD_lclr_ne _ _ _ _ (Ne.symm hjR), getD_lclr_ne _ _ _ _ (Ne.symm hjM),
          getD_lset_ne _ _ _ _ (Ne.symm hjM), getD_lset_ne _ _ _ _ (Ne.symm hjR),
          getD_lclr_ne _ _ _ _ (Ne.symm hjR), getD_lclr_ne _ _ _ _ (Ne.symm hjM)]
  · unfold makePieces undoPieces
    dsimp only
    simp only [if_neg hneg1, if_pos hrfne, Int.toNat_natCast,
      if_neg (show ¬((0 : Nat) ≠ 0) from fun h => h rfl), if_pos rfl, ite_true,
      if_neg (show ¬((12 : Nat) ≤ 6) by decide),
      if_neg (show ¬((1 : Nat) = 0) by decide),
      if_neg (show ¬((12 : Nat) = 6) by decide),
      if_pos (show (12 : Nat) = 12 from rfl),
      if_pos (show (10 : Nat) ≠ 0 by decide)]
    simp only [show (12 : Nat) - 1 = 11 from rfl, show (10 : Nat) - 1 = 9 from rfl,
      show (if (12 : Nat) = 6 then 4 else 10) - 1 = 9 from rfl] at hbitM hMto hRbit hRrt ⊢
    apply list12_ext (by simp [lclr, lset, h12]) h12
    intro j hj
    by_cases hjM : j = 11
    · rw [hjM]
      have e1 : (lclr ps 11 fr).getD 11 0 = bclear (ps.getD 11 0) fr :=
        getD_lclr_self _ _ _ (by rw [h12]; omega)
      have e2 : (lclr (lclr ps 11 fr) 9 rf).getD 11 0 = bclear (ps.getD 11 0) fr := by
        rw [getD_lclr_ne _ _ _ _ (by decide), e1]
      have e3 : (lset (lclr (lclr ps 11 fr) 9 rf) 9
          (if fr < toS then toS - 1 else toS + 1)).getD 11 0 =
          bclear (ps.getD 11 0) fr := by
        rw [getD_lset_ne _ _ _ _ (by decide), e2]
      have e4 : (lset (lset (lclr (lclr ps 11 fr) 9 rf) 9
          (if fr < toS then toS - 1 else toS + 1)) 11 toS).getD 11 0 =
          bset (bclear (ps.getD 11 0) fr) toS := by
        rw [getD_lset_self _ _ _ (by simp [lclr, lset, h12]), e3]
      have e5 : (lclr (lset (lset (lclr (lclr ps 11 fr) 9 rf) 9
          (if fr < toS then toS - 1 else toS + 1)) 11 toS) 11 toS).getD 11 0 =
          bclear (ps.getD 11 0) fr := by
        rw [getD_lclr_self _ _ _ (by simp [lclr, lset, h12]), e4,
          bclear_bset _ _ (bclear_lt _ _ (hbound 11 (by omega))) hto
            (testBit_bclear_of_false hto hMto)]
      have e6 : (lclr (lclr (lset (lset (lclr (lclr ps 11 fr) 9 rf) 9
          (if fr < toS then toS - 1 else toS + 1)) 11 toS) 11 toS) 9
          (if fr < toS then toS - 1 else toS + 1)).getD 11 0 =
          bclear (ps.getD 11 0) fr := by
        rw [getD_lclr_ne _ _ _ _ (by decide), e5]
      have e7 : (lset (lclr (lclr (lset (lset (lclr (lclr ps 11 fr) 9 rf) 9
          (if fr < toS then toS - 1 else toS + 1)) 11 toS) 11 toS) 9
          (if fr < toS then toS - 1 else toS + 1)) 9 rf).getD 11 0 =
          bclear (ps.getD 11 0) fr := by
        rw [getD_lset_ne _ _ _ _ (by decide), e6]
      rw [getD_lset_self _ _ _ (by simp [lclr, lset, h12]), e7,
        bset_bclear _ _ (hbound 11 (by omega)) hfr hbitM]
    · by_cases hjR : j = 9
      · rw [hjR]
        have e1 : (lclr ps 11 fr).getD 9 0 = ps.getD 9 0 :=
          getD_lclr_ne _ _ _ _ (by decide)
        have e2 : (lclr (lclr ps 11 fr) 9 rf).getD 9 0 = bclear (ps.getD 9 0) rf := by
          rw [getD_lclr_self _ _ _ (by simp [lclr, h12]), e1]
        have e3 : (lset (lclr (lclr ps 11 fr) 9 rf) 9
            (if fr < toS then toS - 1 else toS + 1)).getD 9 0 =
            bset (bclear (ps.getD 9 0) rf) (if fr < toS then toS - 1 else toS + 1) := by
          rw [getD_lset_self _ _ _ (by simp [lclr, h12]), e2]
        have e4 : (lset (lset (lclr (lclr ps 11 fr) 9 rf) 9
            (if fr < toS then toS - 1 else toS + 1)) 11 toS).getD 9 0 =
            bset (bclear (ps.getD 9 0) rf) (if fr < toS then toS - 1 else toS + 1) := by
          rw [getD_lset_ne _ _ _ _ (by decide), e3]
        have e5 : (lclr (lset (lset (lclr (lclr ps 11 fr) 9 rf) 9
            (if fr < toS then toS - 1 else toS + 1)) 11 toS) 11 toS).getD 9 0 =
            bset (bclear (ps.getD 9 0) rf) (if fr < toS then toS - 1 else toS + 1) := by
          rw [getD_lclr_ne _ _ _ _ (by decide), e4]
        have e6 : (lclr (lclr (lset (lset (lclr (lclr ps 11 fr) 9 rf) 9
            (if fr < toS then toS - 1 else toS + 1)) 11 toS) 11 toS) 9
            (if fr < toS then toS - 1 else toS + 1)).getD 9 0 =
            bclear (ps.getD 9 0) rf := by
          rw [getD_lclr_self _ _ _ (by simp [lclr, lset, h12]), e5,
            bclear_bset _ _ (bclear_lt _ _ (hbound 9 (by omega))) hrt
              (testBit_bclear_of_false hrt hRrt)]
        have e7 : (lset (lclr (lclr (lset (lset (lclr (lclr ps 11 fr) 9 rf) 9
            (if fr < toS then toS - 1 else toS + 1)) 11 toS) 11 toS) 9
            (if fr < toS then toS - 1 else toS + 1)) 9 rf).getD 9 0 =
            bset (bclear (ps.getD 9 0) rf) rf := by
          rw [getD_lset_self _ _ _ (by simp [lclr, lset, h12]), e6]
        rw [getD_lset_ne _ _ _ _ (by decide), e7,
          bset_bclear _ _ (hbound 9 (by omega)) hrf hRbit]
      · rw [getD_lset_ne _ _ _ _ (Ne.symm hjM), getD_lset_ne _ _ _ _ (Ne.symm hjR),
          getD_lclr_ne _ _ _ _ (Ne.symm hjR), getD_lclr_ne _ _ _ _ (Ne.symm hjM),
          getD_lset_ne _ _ _ _ (Ne.symm hjM), getD_lset_ne _ _ _ _ (Ne.symm hjR),
          getD_lclr_ne _ _ _ _ (Ne.symm hjR), getD_lclr_ne _ _ _ _ (Ne.symm hjM)]

/-- pieceScan finds the mover: the board holding the from-square bit,
boards below it all clear there by disjointness. -/
theorem pieceScan_mover {b : Board} {i s : Nat}
    (h12 : b.pieces.length = 12)
    (hdisj : ∀ j, j < 12 → ∀ k, k < 12 → j ≠ k → b.pc j &&& b.pc k = 0)
    (hi : i < 12) (hbit : (b.pc i).testBit s = true) :
    pieceScan b.pieces (sq_to_bit s) = i + 1 := by
  have hbit2 : (b.pieces.getD i 0).testBit s = true := hbit
  have hlow : ∀ j, j < i → b.pieces.getD j 0 &&& sq_to_bit s = 0 := by
    intro j hj
    apply (land_sq_to_bit_eq_zero _ _).mpr
    have hd := hdisj j (by omega) i hi (by omega)
    rcases land_eq_zero_iff_testBit.mp hd s with h1 | h1
    · exact h1
    · rw [hbit] at h1
      exact absurd h1 (by simp)
  have key := pieceScanAux_found (sq_to_bit s) b.pieces 0 i (by rw [h12]; exact hi)
    (fun he => by
      have h3 := (land_sq_to_bit_eq_zero _ _).mp he
      rw [hbit2] at h3
      exact absurd h3 (by simp))
    hlow
  show pieceScanAux (sq_to_bit s) b.pieces 0 = i + 1
  omega

/-- A well-formed board makes any pseudo-legal move successfully when the
undo stack has room, through the validated entry of make_move. -/
theorem make_move_eq {b : Board} {fr toS promo i : Nat}
    (hWFo : WFocc b) (hstk : b.undo_stack.length < 1024)
    (hfr : fr < 64) (hto : toS < 64)
    (hi : i < 12) (hbit : (b.pc i).testBit fr = true) :
    make_move b fr toS promo = (true, make_move_apply b fr toS promo (i + 1)) := by
  have hmt : pieceScan b.pieces (sq_to_bit fr) = i + 1 :=
    pieceScan_mover hWFo.1 (fun j hj k hk hne => hWFo.2.2.1 j hj k hk hne) hi hbit
  unfold make_move
  rw [if_neg (by omega), if_neg (by omega)]
  dsimp only
  rw [hmt, if_neg (by omega)]

/-- Undoing an applied pseudo-legal move restores the board, up to the
invalidated legal-move cache. -/
theorem make_apply_undo {b : Board} {fr toS promo i : Nat} (hWF : WF b)
    (hG : GoodMoveAt b ⟨fr, toS, promo⟩ i) :
    undo_move (make_move_apply b fr toS promo (i + 1)) =
      { b with legal_valid := false } := by
  have hWFo : WFocc b := hWF.1
  have h12 : b.pieces.length = 12 := hWFo.1
  have hbound : ∀ j, j < 12 → b.pieces.getD j 0 < 2 ^ 64 := fun j hj => hWFo.2.1 j hj
  have hocc : b.occupancy = occOf b.pieces := hWFo.2.2.2
  have hfr64 : fr < 64 := hG.1
  have hto64 : toS < 64 := hG.2.1
  have hple : promo ≤ 4 := hG.2.2.1
  have hi12 : i < 12 := hG.2.2.2.1
  have hwi : b.white_to_move = true → i < 6 := hG.2.2.2.2.1
  have hbi : b.white_to_move = false → 6 ≤ i := hG.2.2.2.2.2.1
  have hbitM : (b.pc i).testBit fr = true := hG.2.2.2.2.2.2.1
  have hownto : (b.occ (sideIdx b.white_to_move)).testBit toS = false :=
    hG.2.2.2.2.2.2.2.1
  have hPromo : PromoOkP ⟨fr, toS, promo⟩ i := hG.2.2.2.2.2.2.2.2.1
  have hDouble : DoubleOkP b ⟨fr, toS, promo⟩ i := hG.2.2.2.2.2.2.2.2.2.1
  have hCastle : CastleOkP b ⟨fr, toS, promo⟩ i := hG.2.2.2.2.2.2.2.2.2.2
  have hSideCase : (b.white_to_move = true ∧ i < 6) ∨ (b.white_to_move = false ∧ 6 ≤ i) := by
    cases hw : b.white_to_move
    · exact Or.inr ⟨rfl, hbi hw⟩
    · exact Or.inl ⟨rfl, hwi hw⟩
  have hOwn : ∀ j, j < 12 → ((i < 6 ∧ j < 6) ∨ (6 ≤ i ∧ 6 ≤ j)) →
      (b.pc j).testBit toS = false := by
    intro j hj hcase2
    rcases hSideCase with ⟨hw, hi6⟩ | ⟨hw, hi6⟩
    · have hsi : sideIdx b.white_to_move = 0 := by rw [hw]; rfl
      rw [hsi] at hownto
      by_contra hb2
      have hj6 : j < 6 := by rcases hcase2 with ⟨_, h⟩ | ⟨h6, _⟩; exact h; omega
      have := (occ0_testBit_iff hWFo toS).mpr ⟨j, hj6, by simpa using hb2⟩
      rw [this] at hownto
      exact absurd hownto (by simp)
    · have hsi : sideIdx b.white_to_move = 1 := by rw [hw]; rfl
      rw [hsi] at hownto
      by_contra hb2
      have hj6 : 6 ≤ j := by rcases hcase2 with ⟨h6, _⟩ | ⟨_, h⟩; omega; exact h
      have := (occ1_testBit_iff hWFo toS).mpr ⟨j, hj6, hj, by simpa using hb2⟩
      rw [this] at hownto
      exact absurd hownto (by simp)
  rcases pieceScanAux_cases (sq_to_bit toS) b.pieces 0 with hcs | ⟨k, hk, hkbit, hkeq⟩
  · -- target square empty: cap_type = 0
    have hAll : ∀ j, j < 12 → (b.pc j).testBit toS = false := by
      intro j hj
      by_contra hb2
      exact pieceScanAux_ne_zero (sq_to_bit toS) b.pieces 0 j (by rw [h12]; exact hj)
        (fun he => hb2 ((land_sq_to_bit_eq_zero _ _).mp he)) hcs
    have hc0 : pieceScan b.pieces (sq_to_bit toS) = 0 := hcs
    unfold make_move_apply undo_move
    dsimp only
    rw [hc0]
    by_cases hepA : (i + 1 = 1 ∨ i + 1 = 7) ∧ b.ep_square = (toS : Int)
    · -- en passant capture
      rw [if_pos hepA, if_neg (show ¬((i + 1 = 6 ∨ i + 1 = 12) ∧
        Nat.dist fr toS = 2 ∧ fr / 8 = toS / 8) from fun hcsB => by
          rcases hepA.1 with h | h <;> rcases hcsB.1 with h2 | h2 <;> omega)]
      rcases hSideCase with ⟨hw, hi6⟩ | ⟨hw, hi6⟩
      · -- white to move: the mover is the white pawn
        have hi0 : i = 0 := by rcases hepA.1 with h | h <;> omega
        subst hi0
        rcases hWF.2.2.2 with hm1 | ⟨_, h40, h48, hbp, hocc2e⟩ | ⟨hbw, _⟩
        · rw [hm1] at hepA
          exact absurd hepA.2 (by omega)
        · have hepto : b.ep_square = (toS : Int) := hepA.2
          have htoNat : b.ep_square.toNat = toS := by rw [hepto]; exact Int.toNat_natCast _
          rw [hepto] at h40 h48
          have hto40 : 40 ≤ toS := by omega
          have hto48 : toS < 48 := by omega
          rw [htoNat] at hbp hocc2e
          have hp0 : promo = 0 := by
            rcases hPromo with h | ⟨h1, h4, ⟨hi0v, h78⟩ | ⟨hi6v, h0⟩⟩
            · exact h
            · have : toS / 8 = 7 := h78
              omega
            · exact absurd hi6v (by omega)
          subst hp0
          rw [hw]
          have hepcval : ((toS : Int) + if (true : Bool) = true then (-8 : Int) else 8) =
              (((toS - 8 : Nat)) : Int) := by
            rw [if_pos rfl]
            omega
          rw [hepcval]
          rw [inv_ep b.pieces true fr toS (0 + 1) (toS - 8) b.castling b.ep_square
            b.halfmove b.fullmove h12 hbound hfr64 hto64 (by omega) (by omega) (by omega)
            hbitM (pc_clear_of_occ2 hWFo hocc2e (by omega)) (by decide) hbp (by decide)]
          rw [← hocc]
          simp
        · rw [hw] at hbw
          exact absurd hbw (by simp)
      · -- black to move: the mover is the black pawn
        have hi6v : i = 6 := by rcases hepA.1 with h | h <;> omega
        subst hi6v
        rcases hWF.2.2.2 with hm1 | ⟨hbw, _⟩ | ⟨_, h16, h24, hbp, hocc2e⟩
        · rw [hm1] at hepA
          exact absurd hepA.2 (by omega)
        · rw [hw] at hbw
          exact absurd hbw (by simp)
        · have hepto : b.ep_square = (toS : Int) := hepA.2
          have htoNat : b.ep_square.toNat = toS := by rw [hepto]; exact Int.toNat_natCast _
          rw [hepto] at h16 h24
          have hto16 : 16 ≤ toS := by omega
          have hto24 : toS < 24 := by omega
          rw [htoNat] at hbp hocc2e
          have hp0 : promo = 0 := by
            rcases hPromo with h | ⟨h1, h4, ⟨hi0v, h78⟩ | ⟨hi6v, h0⟩⟩
            · exact h
            · exact absurd hi0v (by omega)
            · have : toS / 8 = 0 := h0
              omega
          subst hp0
          rw [hw]
          have hepcval : ((toS : Int) + if (false : Bool) = true then (-8 : Int) else 8) =
              (((toS + 8 : Nat)) : Int) := by
            rw [if_neg (by simp)]
            omega
          rw [hepcval]
          rw [inv_ep b.pieces false fr toS (6 + 1) (toS + 8) b.castling b.ep_square
            b.halfmove b.fullmove h12 hbound hfr64 hto64 (by omega) (by omega) (by omega)
            hbitM (pc_clear_of_occ2 hWFo hocc2e (by omega)) (by decide) hbp (by decide)]
          rw [← hocc]
          simp
    · rw [if_neg hepA]
      by_cases hcsA : (i + 1 = 6 ∨ i + 1 = 12) ∧ Nat.dist fr toS = 2 ∧ fr / 8 = toS / 8
      · -- castling
        rw [if_pos hcsA]
        have hi511 : i = 5 ∨ i = 11 := by rcases hcsA.1 with h | h <;> omega
        have hcc := hCastle hi511 hcsA.2.1 hcsA.2.2
        have hp0 : promo = 0 := by
          rcases hPromo with h | ⟨h1, h4, ⟨hi0v, _⟩ | ⟨hi6v, _⟩⟩
          · exact h
          · rcases hi511 with h5 | h5 <;> omega
          · rcases hi511 with h5 | h5 <;> omega
        subst hp0
        rcases hcc with ⟨hi5, hfr4, hsub⟩ | ⟨hi11, hfr60, hsub⟩
        · subst hi5
          subst hfr4
          rcases hsub with ⟨hto6, hbitc, hocm⟩ | ⟨hto2, hbitc, hocm⟩
          · subst hto6
            have hcw := hWF.2.2.1.1 hbitc
            have ho5 : (b.occ 2).testBit 5 = false := testBit_false_of_land_mask hocm (by decide)
            have ho6 : (b.occ 2).testBit 6 = false := testBit_false_of_land_mask hocm (by decide)
            have hcrf : (if (if 5 + 1 ≤ 6 then 0 else 1) = 0 then
                (if 4 < 6 then (7 : Int) else 0) else (if 4 < 6 then 63 else 56)) =
                (((7 : Nat)) : Int) := by norm_num
            rw [hcrf]
            rw [inv_castle b.pieces b.white_to_move 4 6 (5 + 1) 7 b.castling b.ep_square
              b.halfmove b.fullmove h12 hbound (by omega) (by omega) (by omega)
              (Or.inl (by omega)) hbitM (pc_clear_of_occ2 hWFo ho6 (show (5:Nat) < 12 by omega))
              (by decide) (by decide) hcw.2 (pc_clear_of_occ2 hWFo ho5 (show (3:Nat) < 12 by omega))]
            rw [← hocc]
            simp
          · subst hto2
            have hcw := hWF.2.2.1.2.1 hbitc
            have ho1 : (b.occ 2).testBit 1 = false := testBit_false_of_land_mask hocm (by decide)
            have ho2 : (b.occ 2).testBit 2 = false := testBit_false_of_land_mask hocm (by decide)
            have ho3 : (b.occ 2).testBit 3 = false := testBit_false_of_land_mask hocm (by decide)
            have hcrf : (if (if 5 + 1 ≤ 6 then 0 else 1) = 0 then
                (if 4 < 2 then (7 : Int) else 0) else (if 4 < 2 then 63 else 56)) =
                (((0 : Nat)) : Int) := by norm_num
            rw [hcrf]
            rw [inv_castle b.pieces b.white_to_move 4 2 (5 + 1) 0 b.castling b.ep_square
              b.halfmove b.fullmove h12 hbound (by omega) (by omega) (by omega)
              (Or.inl (by omega)) hbitM (pc_clear_of_occ2 hWFo ho2 (show (5:Nat) < 12 by omega))
              (by decide) (by decide) hcw.2 (pc_clear_of_occ2 hWFo ho3 (show (3:Nat) < 12 by omega))]
            rw [← hocc]
            simp
        · subst hi11
          subst hfr60
          rcases hsub with ⟨hto62, hbitc, hocm⟩ | ⟨hto58, hbitc, hocm⟩
          · subst hto62
            have hcw := hWF.2.2.1.2.2.1 hbitc
            have ho61 : (b.occ 2).testBit 61 = false := testBit_false_of_land_mask hocm (by decide)
            have ho62 : (b.occ 2).testBit 62 = false := testBit_false_of_land_mask hocm (by decide)
            have hcrf : (if (if 11 + 1 ≤ 6 then 0 else 1) = 0 then
                (if 60 < 62 then (7 : Int) else 0) else (if 60 < 62 then 63 else 56)) =
                (((63 : Nat)) : Int) := by norm_num
            rw [hcrf]
            rw [inv_castle b.pieces b.white_to_move 60 62 (11 + 1) 63 b.castling b.ep_square
              b.halfmove b.fullmove h12 hbound (by omega) (by omega) (by omega)
              (Or.inr (by omega)) hbitM (pc_clear_of_occ2 hWFo ho62 (show (11:Nat) < 12 by omega))
              (by decide) (by decide) hcw.2 (pc_clear_of_occ2 hWFo ho61 (show (9:Nat) < 12 by omega))]
            rw [← hocc]
            simp
          · subst hto58
            have hcw := hWF.2.2.1.2.2.2 hbitc
            have ho57 : (b.occ 2).testBit 57 = false := testBit_false_of_land_mask hocm (by decide)
            have ho58 : (b.occ 2).testBit 58 = false := testBit_false_of_land_mask hocm (by decide)
            have ho59 : (b.occ 2).testBit 59 = false := testBit_false_of_land_mask hocm (by decide)
            have hcrf : (if (if 11 + 1 ≤ 6 then 0 else 1) = 0 then
                (if 60 < 58 then (7 : Int) else 0) else (if 60 < 58 then 63 else 56)) =
                (((56 : Nat)) : Int) := by norm_num
            rw [hcrf]
            rw [inv_castle b.pieces b.white_to_move 60 58 (11 + 1) 56 b.castling b.ep_square
              b.halfmove b.fullmove h12 hbound (by omega) (by omega) (by omega)
              (Or.inr (by omega)) hbitM (pc_clear_of_occ2 hWFo ho58 (show (11:Nat) < 12 by omega))
              (by decide) (by decide) hcw.2 (pc_clear_of_occ2 hWFo ho59 (show (9:Nat) < 12 by omega))]
            rw [← hocc]
            simp
      · -- plain quiet move
        rw [if_neg hcsA]
        have hpromo2 : promo = 0 ∨ (1 ≤ promo ∧ promo ≤ 4 ∧ (i + 1 = 1 ∨ i + 1 = 7)) := by
          rcases hPromo with h | ⟨h1, h4, ⟨h0, _⟩ | ⟨h6, _⟩⟩
          · exact Or.inl h
          · exact Or.inr ⟨h1, h4, by omega⟩
          · exact Or.inr ⟨h1, h4, by omega⟩
        rw [inv_normal b.pieces b.white_to_move fr toS promo (i + 1) 0 b.castling
          b.ep_square b.halfmove b.fullmove h12 hbound hfr64 hto64 (by omega) (by omega)
          hbitM (fun j hj _ => hAll j hj) (Or.inl rfl) hpromo2]
        rw [← hocc]
        simp
  · -- a piece stands on the target square: cap_type = k + 1
    have hk12 : k < 12 := by rw [h12] at hk; exact hk
    have hkbitT : (b.pc k).testBit toS = true := by
      rcases Bool.eq_false_or_eq_true ((b.pc k).testBit toS) with h2 | h2
      · exact h2
      · exact absurd ((land_sq_to_bit_eq_zero _ _).mpr h2) hkbit
    have hc : pieceScan b.pieces (sq_to_bit toS) = k + 1 := by
      show pieceScanAux (sq_to_bit toS) b.pieces 0 = k + 1
      omega
    have hkside : (i < 6 → 6 ≤ k) ∧ (6 ≤ i → k < 6) := by
      constructor
      · intro hi6
        by_contra hq
        have := hOwn k hk12 (Or.inl ⟨hi6, by omega⟩)
        rw [this] at hkbitT
        exact absurd hkbitT (by simp)
      · intro hi6
        by_contra hq
        have := hOwn k hk12 (Or.inr ⟨hi6, by omega⟩)
        rw [this] at hkbitT
        exact absurd hkbitT (by simp)
    have hki : k ≠ i := by
      rcases hSideCase with ⟨_, hi6⟩ | ⟨_, hi6⟩
      · have := hkside.1 hi6; omega
      · have := hkside.2 hi6; omega
    have hToClear : ∀ j, j < 12 → (k + 1 = 0 ∨ j ≠ k + 1 - 1) →
        (b.pieces.getD j 0).testBit toS = false := by
      intro j hj hcase2
      rcases hcase2 with h | h
      · omega
      · exact pc_unique_at hWFo hk12 hj (fun he => h (by omega)) hkbitT
    unfold make_move_apply undo_move
    dsimp only
    rw [hc]
    by_cases hepA : (i + 1 = 1 ∨ i + 1 = 7) ∧ b.ep_square = (toS : Int)
    · -- an en-passant target square is empty: contradiction with the capture
      exfalso
      rcases hSideCase with ⟨hw, hi6⟩ | ⟨hw, hi6⟩
      · rcases hWF.2.2.2 with hm1 | ⟨_, h40, h48, hbp, hocc2e⟩ | ⟨hbw, _⟩
        · rw [hm1] at hepA
          exact absurd hepA.2 (by omega)
        · have htoNat : b.ep_square.toNat = toS := by rw [hepA.2]; exact Int.toNat_natCast _
          rw [htoNat] at hocc2e
          have := pc_clear_of_occ2 hWFo hocc2e hk12
          rw [this] at hkbitT
          exact absurd hkbitT (by simp)
        · rw [hw] at hbw
          exact absurd hbw (by simp)
      · rcases hWF.2.2.2 with hm1 | ⟨hbw, _⟩ | ⟨_, h16, h24, hbp, hocc2e⟩
        · rw [hm1] at hepA
          exact absurd hepA.2 (by omega)
        · rw [hw] at hbw
          exact absurd hbw (by simp)
        · have htoNat : b.ep_square.toNat = toS := by rw [hepA.2]; exact Int.toNat_natCast _
          rw [htoNat] at hocc2e
          have := pc_clear_of_occ2 hWFo hocc2e hk12
          rw [this] at hkbitT
          exact absurd hkbitT (by simp)
    · rw [if_neg hepA]
      by_cases hcsA : (i + 1 = 6 ∨ i + 1 = 12) ∧ Nat.dist fr toS = 2 ∧ fr / 8 = toS / 8
      · -- a castling destination square is empty: contradiction with the capture
        exfalso
        have hi511 : i = 5 ∨ i = 11 := by rcases hcsA.1 with h | h <;> omega
        have hcc := hCastle hi511 hcsA.2.1 hcsA.2.2
        rcases hcc with ⟨hi5, hfr4, hsub⟩ | ⟨hi11, hfr60, hsub⟩
        · rcases hsub with ⟨hto6, hbitc, hocm⟩ | ⟨hto2, hbitc, hocm⟩
          · subst hto6
            have ho6 : (b.occ 2).testBit 6 = false := testBit_false_of_land_mask hocm (by decide)
            have := pc_clear_of_occ2 hWFo ho6 hk12
            rw [this] at hkbitT
            exact absurd hkbitT (by simp)
          · subst hto2
            have ho2 : (b.occ 2).testBit 2 = false := testBit_false_of_land_mask hocm (by decide)
            have := pc_clear_of_occ2 hWFo ho2 hk12
            rw [this] at hkbitT
            exact absurd hkbitT (by simp)
        · rcases hsub with ⟨hto62, hbitc, hocm⟩ | ⟨hto58, hbitc, hocm⟩
          · subst hto62
            have ho62 : (b.occ 2).testBit 62 = false := testBit_false_of_land_mask hocm (by decide)
            have := pc_clear_of_occ2 hWFo ho62 hk12
            rw [this] at hkbitT
            exact absurd hkbitT (by simp)
          · subst hto58
            have ho58 : (b.occ 2).testBit 58 = false := testBit_false_of_land_mask hocm (by decide)
            have := pc_clear_of_occ2 hWFo ho58 hk12
            rw [this] at hkbitT
            exact absurd hkbitT (by simp)
      · -- plain capture
        rw [if_neg hcsA]
        have hpromo2 : promo = 0 ∨ (1 ≤ promo ∧ promo ≤ 4 ∧ (i + 1 = 1 ∨ i + 1 = 7)) := by
          rcases hPromo with h | ⟨h1, h4, ⟨h0, _⟩ | ⟨h6, _⟩⟩
          · exact Or.inl h
          · exact Or.inr ⟨h1, h4, by omega⟩
          · exact Or.inr ⟨h1, h4, by omega⟩
        rw [inv_normal b.pieces b.white_to_move fr toS promo (i + 1) (k + 1) b.castling
          b.ep_square b.halfmove b.fullmove h12 hbound hfr64 hto64 (by omega) (by omega)
          hbitM hToClear (Or.inr ⟨by omega, by omega, fun he => hki (by omega), hkbitT,
            fun h6 => by have := hkside.1 (by omega); omega,
            fun h7 => by have := hkside.2 (by omega); omega⟩) hpromo2]
        rw [← hocc]
        simp

/-! ## Bit-level effect of the list stores -/

theorem testBit_getD_lclr (l : List Nat) (i sq j s : Nat) (hs : s < 64)
    (hi : i < l.length) :
    ((lclr l i sq).getD j 0).testBit s =
      if j = i ∧ s = sq then false else (l.getD j 0).testBit s := by
  by_cases hj : j = i
  · subst hj
    rw [show lclr l j sq = l.set j (bclear (l.getD j 0) sq) from rfl,
      getD_set_self _ _ _ hi, testBit_bclear _ _ _ hs]
    by_cases hsq : s = sq
    · simp [hsq]
    · simp [hsq]
  · rw [getD_lclr_ne _ _ _ _ (Ne.symm hj)]
    simp [hj]

theorem testBit_getD_lset (l : List Nat) (i sq j s : Nat) (hi : i < l.length) :
    ((lset l i sq).getD j 0).testBit s =
      if j = i ∧ s = sq then true else (l.getD j 0).testBit s := by
  by_cases hj : j = i
  · subst hj
    rw [show lset l j sq = l.set j (bset (l.getD j 0) sq) from rfl,
      getD_set_self _ _ _ hi, testBit_bset]
    by_cases hsq : s = sq
    · simp [hsq]
    · simp [hsq]
  · rw [getD_lset_ne _ _ _ _ (Ne.symm hj)]
    simp [hj]

theorem testBit_getD_mapclear (l : List Nat) (sq j s : Nat) (hs : s < 64) :
    ((l.map (fun m => bclear m sq)).getD j 0).testBit s =
      if s = sq then false else (l.getD j 0).testBit s := by
  rw [getD_map_bclear, testBit_bclear _ _ _ hs]
  by_cases hsq : s = sq
  · simp [hsq]
  · simp [hsq]

theorem moveTarget_lt (promo mt : Nat) (hmt12 : mt ≤ 12) (hmt1 : 1 ≤ mt) :
    moveTarget promo mt < 12 := by
  unfold moveTarget promoPieces
  split_ifs <;> omega

theorem moveTarget_pawn_ne (promo mt : Nat) (hp : promo ≠ 0)
    (hmt : mt = 1 ∨ mt = 7) : moveTarget promo mt ≠ mt - 1 := by
  unfold moveTarget promoPieces
  rcases hmt with rfl | rfl <;> split_ifs <;> omega

/-! ## Bit-level characterization of makePieces, by move shape -/

/-- Normal shape (no en passant, no castling): the target board holds the
to-square, the mover leaves the from-square, everything else keeps its
original bit. Needs: every board other than the captured one starts clear
at the to-square. -/
theorem mkBit_normal
    (ps : List Nat) (wtm : Bool) (fr toS promo mt c : Nat)
    (h12 : ps.length = 12)
    (hmt1 : 1 ≤ mt) (hmt12 : mt ≤ 12)
    (hne : fr ≠ toS)
    (hpromo : promo = 0 ∨ (1 ≤ promo ∧ promo ≤ 4 ∧ (mt = 1 ∨ mt = 7)))
    (hc12 : c ≤ 12)
    (hToClear : ∀ j, j < 12 → (c = 0 ∨ j ≠ c - 1) →
      (ps.getD j 0).testBit toS = false)
    (j s : Nat) (hj : j < 12) (hs : s < 64) :
    ((makePieces ps wtm fr toS promo mt c (-1) (-1)).getD j 0).testBit s =
      (if s = toS then decide (j = moveTarget promo mt)
       else if s = fr ∧ j = mt - 1 then false
       else (ps.getD j 0).testBit s) := by
  have hT12 : moveTarget promo mt < 12 := moveTarget_lt _ _ hmt12 hmt1
  unfold makePieces
  simp only []
  rw [if_neg (by omega : ¬ ((-1 : Int) ≠ -1)), if_neg (by omega : ¬ ((-1 : Int) ≠ -1))]
  have hl1 : (lclr ps (mt - 1) fr).length = 12 := by rw [length_lclr, h12]
  by_cases hcc : c ≠ 0
  · rw [if_pos hcc]
    have hl2 : (lclr (lclr ps (mt - 1) fr) (c - 1) toS).length = 12 := by
      rw [length_lclr, hl1]
    by_cases hp : promo ≠ 0
    · rw [if_pos hp]
      rw [show promoPieces (if mt ≤ 6 then 0 else 1) (promo - 1) - 1
            = moveTarget promo mt from by unfold moveTarget; rw [if_neg hp]]
      rw [testBit_getD_lset _ _ _ _ _ (by
        rw [List.length_map, length_lset, hl2]
        exact hT12), testBit_getD_mapclear _ _ _ _ hs,
        testBit_getD_lset _ _ _ _ _ (by rw [hl2]; omega),
        testBit_getD_lclr _ _ _ _ _ hs (by rw [hl1]; omega),
        testBit_getD_lclr _ _ _ _ _ hs (by rw [h12]; omega)]
      rcases hpromo with h0 | ⟨hp1, hp4, hmt17⟩
      · exact absurd h0 hp
      have hTne : moveTarget promo mt ≠ mt - 1 := moveTarget_pawn_ne _ _ hp hmt17
      by_cases hsT : s = toS
      · subst hsT
        by_cases hjT : j = moveTarget promo mt
        · simp [hjT, Bool.or_comm]
        · simp [hjT, hne, Bool.or_comm]
      · by_cases hjT : j = moveTarget promo mt
        · simp [hjT, hsT, Ne.symm hne, Bool.or_comm]
        · simp [hjT, hsT, Bool.or_comm]
    · rw [if_neg hp]
      push_neg at hp
      subst hp
      rw [testBit_getD_lset _ _ _ _ _ (by rw [hl2]; omega),
        testBit_getD_lclr _ _ _ _ _ hs (by rw [hl1]; omega),
        testBit_getD_lclr _ _ _ _ _ hs (by rw [h12]; omega)]
      have hTm : moveTarget 0 mt = mt - 1 := by unfold moveTarget; simp
      rw [hTm]
      push_neg at hcc
      by_cases hsT : s = toS
      · subst hsT
        by_cases hjm : j = mt - 1
        · simp [hjm, Ne.symm hne, Bool.or_comm]
        · by_cases hjc : j = c - 1
          · simp [hjm, hjc, Bool.or_comm]
          · simpa [hjm, hjc] using hToClear j hj (Or.inr hjc)
      · by_cases hjm : j = mt - 1
        · by_cases hsf : s = fr
          · simp [hjm, hsf, hsT, Bool.or_comm]
          · by_cases hjc : j = c - 1
            · simp [hjm, hjc, hsT, hsf, Bool.or_comm]
            · simp [hjm, hjc, hsT, hsf, Bool.or_comm]
        · by_cases hjc : j = c - 1
          · simp [hjm, hjc, hsT, Bool.or_comm]
          · simp [hjm, hjc, hsT, Bool.or_comm]
  · rw [if_neg hcc]
    push_neg at hcc
    by_cases hp : promo ≠ 0
    · rw [if_pos hp]
      rw [show promoPieces (if mt ≤ 6 then 0 else 1) (promo - 1) - 1
            = moveTarget promo mt from by unfold moveTarget; rw [if_neg hp]]
      rw [testBit_getD_lset _ _ _ _ _ (by
        rw [List.length_map, length_lset, hl1]
        exact hT12), testBit_getD_mapclear _ _ _ _ hs,
        testBit_getD_lset _ _ _ _ _ (by rw [hl1]; omega),
        testBit_getD_lclr _ _ _ _ _ hs (by rw [h12]; omega)]
      rcases hpromo with h0 | ⟨hp1, hp4, hmt17⟩
      · exact absurd h0 hp
      have hTne : moveTarget promo mt ≠ mt - 1 := moveTarget_pawn_ne _ _ hp hmt17
      by_cases hsT : s = toS
      · subst hsT
        by_cases hjT : j = moveTarget promo mt
        · simp [hjT, Bool.or_comm]
        · simp [hjT, hne, Bool.or_comm]
      · by_cases hjT : j = moveTarget promo mt
        · simp [hjT, hsT, Ne.symm hne, Bool.or_comm]
        · simp [hjT, hsT, Bool.or_comm]
    · rw [if_neg hp]
      push_neg at hp
      subst hp
      rw [testBit_getD_lset _ _ _ _ _ (by rw [hl1]; omega),
        testBit_getD_lclr _ _ _ _ _ hs (by rw [h12]; omega)]
      have hTm : moveTarget 0 mt = mt - 1 := by unfold moveTarget; simp
      rw [hTm]
      by_cases hsT : s = toS
      · subst hsT
        by_cases hjm : j = mt - 1
        · simp [hjm, Ne.symm hne, Bool.or_comm]
        · simpa [hjm] using hToClear j hj (Or.inl hcc)
      · by_cases hjm : j = mt - 1
        · by_cases hsf : s = fr
          · simp [hjm, hsf, hsT, Bool.or_comm]
          · simp [hjm, hsT, hsf, Bool.or_comm]
        · simp [hjm, hsT, Bool.or_comm]

set_option maxHeartbeats 2000000 in
/-- En-passant shape (pawn capture onto the empty en-passant square): the
mover lands on the to-square, the captured pawn leaves its square, the
mover leaves the from-square. -/
theorem mkBit_ep
    (ps : List Nat) (wtm : Bool) (fr toS mt ec : Nat)
    (h12 : ps.length = 12) (hmt1 : 1 ≤ mt) (hmt12 : mt ≤ 12)
    (hEm : (if wtm = true then 7 else 1) - 1 ≠ mt - 1)
    (hAllTo : ∀ j, j < 12 → (ps.getD j 0).testBit toS = false)
    (j s : Nat) (hj : j < 12) (hs : s < 64) :
    ((makePieces ps wtm fr toS 0 mt 0 ((ec : Int)) (-1)).getD j 0).testBit s =
      (if s = toS then decide (j = mt - 1)
       else if s = ec ∧ j = (if wtm = true then 7 else 1) - 1 then false
       else if s = fr ∧ j = mt - 1 then false
       else (ps.getD j 0).testBit s) := by
  have hE12 : (if wtm = true then 7 else 1) - 1 < 12 := by split_ifs <;> omega
  unfold makePieces
  simp only []
  rw [if_neg (by omega : ¬ ((0 : Nat) ≠ 0)),
    if_pos (by omega : ((ec : Nat) : Int) ≠ -1),
    if_neg (by omega : ¬ ((-1 : Int) ≠ -1)),
    if_neg (by omega : ¬ ((0 : Nat) ≠ 0)), Int.toNat_natCast]
  have hl1 : (lclr ps (mt - 1) fr).length = 12 := by rw [length_lclr, h12]
  have hl2 : (lclr (lclr ps (mt - 1) fr) ((if wtm = true then 7 else 1) - 1) ec).length
      = 12 := by rw [length_lclr, hl1]
  rw [testBit_getD_lset _ _ _ _ _ (by rw [hl2]; omega),
    testBit_getD_lclr _ _ _ _ _ hs (by rw [hl1]; exact hE12),
    testBit_getD_lclr _ _ _ _ _ hs (by rw [h12]; omega)]
  have h0 : (ps.getD j 0).testBit toS = false := hAllTo j hj
  by_cases hsT : s = toS <;> by_cases hjm : j = mt - 1 <;>
    by_cases hjE : j = (if wtm = true then 7 else 1) - 1 <;>
      by_cases hse : s = ec <;> by_cases hsf : s = fr <;>
        simp_all

/-- Castling shape (king two files sideways onto an empty square, rook
jumping over): king and rook land on to-square and transit square, rook
leaves its corner, king leaves the from-square. -/
theorem mkBit_castle
    (ps : List Nat) (wtm : Bool) (fr toS mt rf : Nat)
    (h12 : ps.length = 12) (hmt1 : 1 ≤ mt) (hmt12 : mt ≤ 12)
    (hRm : (if mt ≤ 6 then 4 else 10) - 1 ≠ mt - 1)
    (hAllTo : ∀ j, j < 12 → (ps.getD j 0).testBit toS = false)
    (hAllRt : ∀ j, j < 12 →
      (ps.getD j 0).testBit (if fr < toS then toS - 1 else toS + 1) = false)
    (j s : Nat) (hj : j < 12) (hs : s < 64) :
    ((makePieces ps wtm fr toS 0 mt 0 (-1) ((rf : Int))).getD j 0).testBit s =
      (if s = toS then decide (j = mt - 1)
       else if s = (if fr < toS then toS - 1 else toS + 1) then
         decide (j = (if mt ≤ 6 then 4 else 10) - 1)
       else if s = rf ∧ j = (if mt ≤ 6 then 4 else 10) - 1 then false
       else if s = fr ∧ j = mt - 1 then false
       else (ps.getD j 0).testBit s) := by
  unfold makePieces
  simp only []
  rw [if_neg (by omega : ¬ ((0 : Nat) ≠ 0)),
    if_neg (by omega : ¬ ((-1 : Int) ≠ -1)),
    if_pos (by omega : ((rf : Nat) : Int) ≠ -1),
    if_neg (by omega : ¬ ((0 : Nat) ≠ 0)), Int.toNat_natCast]
  have hRc : (if (if mt ≤ 6 then (0 : Nat) else 1) = 0 then (4 : Nat) else 10)
      = (if mt ≤ 6 then 4 else 10) := by by_cases h : mt ≤ 6 <;> simp [h]
  rw [hRc]
  have hR12 : (if mt ≤ 6 then (4 : Nat) else 10) - 1 < 12 := by split_ifs <;> omega
  have hl1 : (lclr ps (mt - 1) fr).length = 12 := by rw [length_lclr, h12]
  have hl2 : (lclr (lclr ps (mt - 1) fr) ((if mt ≤ 6 then 4 else 10) - 1) rf).length
      = 12 := by rw [length_lclr, hl1]
  have hl3 : (lset (lclr (lclr ps (mt - 1) fr) ((if mt ≤ 6 then 4 else 10) - 1) rf)
      ((if mt ≤ 6 then 4 else 10) - 1) (if fr < toS then toS - 1 else toS + 1)).length
      = 12 := by rw [length_lset, hl2]
  rw [testBit_getD_lset _ _ _ _ _ (by rw [hl3]; omega),
    testBit_getD_lset _ _ _ _ _ (by rw [hl2]; exact hR12),
    testBit_getD_lclr _ _ _ _ _ hs (by rw [hl1]; exact hR12),
    testBit_getD_lclr _ _ _ _ _ hs (by rw [h12]; omega)]
  have h0 : (ps.getD j 0).testBit toS = false := hAllTo j hj
  have h1 : (ps.getD j 0).testBit (if fr < toS then toS - 1 else toS + 1) = false :=
    hAllRt j hj
  have hrtT : (if fr < toS then toS - 1 else toS + 1) ≠ toS := by split_ifs <;> omega
  by_cases hsT : s = toS
  · subst hsT
    rw [if_pos rfl]
    by_cases hjm : j = mt - 1
    · rw [if_pos ⟨hjm, rfl⟩]
      simp [hjm]
    · rw [if_neg (by rintro ⟨h, _⟩; exact hjm h),
        if_neg (by rintro ⟨_, h⟩; exact hrtT h.symm)]
      by_cases hjr3 : j = (if mt ≤ 6 then 4 else 10) - 1 ∧ s = rf
      · rw [if_pos hjr3]
        simp [hjm]
      · rw [if_neg hjr3, if_neg (by rintro ⟨h, _⟩; exact hjm h), decide_eq_false hjm]
        exact h0
  · rw [if_neg hsT]
    by_cases hsrt : s = (if fr < toS then toS - 1 else toS + 1)
    · rw [if_pos hsrt, if_neg (by rintro ⟨_, h⟩; exact hsT h)]
      by_cases hjR : j = (if mt ≤ 6 then 4 else 10) - 1
      · rw [if_pos ⟨hjR, hsrt⟩]
        simp [hjR]
      · rw [if_neg (by rintro ⟨h, _⟩; exact hjR h),
          if_neg (by rintro ⟨h, _⟩; exact hjR h)]
        by_cases hjfr : j = mt - 1 ∧ s = fr
        · rw [if_pos hjfr]
          simp [hjR]
        · rw [if_neg hjfr, hsrt, decide_eq_false hjR]
          exact h1
    · rw [if_neg hsrt]
      by_cases hjrf : s = rf ∧ j = (if mt ≤ 6 then 4 else 10) - 1
      · rw [if_pos hjrf, if_neg (by rintro ⟨_, h⟩; exact hsT h),
          if_neg (by rintro ⟨_, h⟩; exact hsrt h), if_pos ⟨hjrf.2, hjrf.1⟩]
      · rw [if_neg hjrf]
        by_cases hjfr : s = fr ∧ j = mt - 1
        · rw [if_pos hjfr, if_neg (by rintro ⟨_, h⟩; exact hsT h),
            if_neg (by rintro ⟨_, h⟩; exact hsrt h),
            if_neg (by rintro ⟨hR2, hr2⟩; exact hjrf ⟨hr2, hR2⟩), if_pos ⟨hjfr.2, hjfr.1⟩]
        · rw [if_neg hjfr, if_neg (by rintro ⟨_, h⟩; exact hsT h),
            if_neg (by rintro ⟨_, h⟩; exact hsrt h),
            if_neg (by rintro ⟨hR2, hr2⟩; exact hjrf ⟨hr2, hR2⟩),
            if_neg (by rintro ⟨hm2, hf2⟩; exact hjfr ⟨hf2, hm2⟩)]

/-! ## Length and bound preservation of makePieces -/

theorem bound_lclr (l : List Nat) (i sq : Nat) (h12 : l.length = 12)
    (h : ∀ j, j < 12 → l.getD j 0 < 2 ^ 64) :
    ∀ j, j < 12 → (lclr l i sq).getD j 0 < 2 ^ 64 := by
  intro j hj
  by_cases hji : j = i
  · subst hji
    rw [getD_lclr_self _ _ _ (by omega)]
    exact bclear_lt _ _ (h j hj)
  · rw [getD_lclr_ne _ _ _ _ (Ne.symm hji)]
    exact h j hj

theorem bound_lset (l : List Nat) (i sq : Nat) (h12 : l.length = 12)
    (hsq : sq < 64) (h : ∀ j, j < 12 → l.getD j 0 < 2 ^ 64) :
    ∀ j, j < 12 → (lset l i sq).getD j 0 < 2 ^ 64 := by
  intro j hj
  by_cases hji : j = i
  · subst hji
    rw [getD_lset_self _ _ _ (by omega)]
    exact bset_lt _ _ (h j hj) hsq
  · rw [getD_lset_ne _ _ _ _ (Ne.symm hji)]
    exact h j hj

theorem bound_mapclear (l : List Nat) (sq : Nat)
    (h : ∀ j, j < 12 → l.getD j 0 < 2 ^ 64) :
    ∀ j, j < 12 → ((l.map (fun m => bclear m sq)).getD j 0) < 2 ^ 64 := by
  intro j hj
  rw [getD_map_bclear]
  exact bclear_lt _ _ (h j hj)

theorem length_makePieces (ps : List Nat) (wtm : Bool)
    (fr toS promo mt c : Nat) (epc rfr : Int) :
    (makePieces ps wtm fr toS promo mt c epc rfr).length = ps.length := by
  unfold makePieces
  simp only []
  split_ifs <;> simp [length_lclr, length_lset]

theorem length_ite (P : Prop) [inst : Decidable P] (a b : List Nat)
    (ha : a.length = 12) (hb : b.length = 12) : (if P then a else b).length = 12 := by
  split_ifs <;> assumption

theorem bound_ite (P : Prop) [inst : Decidable P] (a b : List Nat)
    (ha : P → ∀ j, j < 12 → a.getD j 0 < 2 ^ 64)
    (hbb : ¬ P → ∀ j, j < 12 → b.getD j 0 < 2 ^ 64) :
    ∀ j, j < 12 → (if P then a else b).getD j 0 < 2 ^ 64 := by
  split_ifs with h
  · exact ha h
  · exact hbb h

theorem bound_makePieces (ps : List Nat) (wtm : Bool)
    (fr toS promo mt c : Nat) (epc rfr : Int)
    (h12 : ps.length = 12) (hto : toS < 64)
    (hrt : rfr ≠ -1 → (if fr < toS then toS - 1 else toS + 1) < 64)
    (hb : ∀ j, j < 12 → ps.getD j 0 < 2 ^ 64) :
    ∀ j, j < 12 → (makePieces ps wtm fr toS promo mt c epc rfr).getD j 0 < 2 ^ 64 := by
  unfold makePieces
  simp only []
  have L1 : (lclr ps (mt - 1) fr).length = 12 := by rw [length_lclr, h12]
  have B1 : ∀ j, j < 12 → (lclr ps (mt - 1) fr).getD j 0 < 2 ^ 64 :=
    bound_lclr ps (mt - 1) fr h12 hb
  have L2 : ((if c ≠ 0 then lclr (lclr ps (mt - 1) fr) (c - 1) toS else lclr ps (mt - 1) fr) : List Nat).length = 12 :=
    length_ite _ _ _ (by rw [length_lclr]; exact L1) L1
  have B2 : ∀ j, j < 12 → ((if c ≠ 0 then lclr (lclr ps (mt - 1) fr) (c - 1) toS else lclr ps (mt - 1) fr) : List Nat).getD j 0 < 2 ^ 64 :=
    bound_ite _ _ _ (fun _ => bound_lclr _ (c - 1) toS L1 B1) (fun _ => B1)
  have L3 : ((if epc ≠ -1 then lclr (if c ≠ 0 then lclr (lclr ps (mt - 1) fr) (c - 1) toS else lclr ps (mt - 1) fr) ((if wtm = true then 7 else 1) - 1) epc.toNat else (if c ≠ 0 then lclr (lclr ps (mt - 1) fr) (c - 1) toS else lclr ps (mt - 1) fr)) : List Nat).length = 12 :=
    length_ite _ _ _ (by rw [length_lclr]; exact L2) L2
  have B3 : ∀ j, j < 12 → ((if epc ≠ -1 then lclr (if c ≠ 0 then lclr (lclr ps (mt - 1) fr) (c - 1) toS else lclr ps (mt - 1) fr) ((if wtm = true then 7 else 1) - 1) epc.toNat else (if c ≠ 0 then lclr (lclr ps (mt - 1) fr) (c - 1) toS else lclr ps (mt - 1) fr)) : List Nat).getD j 0 < 2 ^ 64 :=
    bound_ite _ _ _ (fun _ => bound_lclr _ ((if wtm = true then 7 else 1) - 1) epc.toNat L2 B2) (fun _ => B2)
  have L4 : ((if rfr ≠ -1 then lset (lclr (if epc ≠ -1 then lclr (if c ≠ 0 then lclr (lclr ps (mt - 1) fr) (c - 1) toS else lclr ps (mt - 1) fr) ((if wtm = true then 7 else 1) - 1) epc.toNat else (if c ≠ 0 then lclr (lclr ps (mt - 1) fr) (c - 1) toS else lclr ps (mt - 1) fr)) ((if (if mt ≤ 6 then (0 : Nat) else 1) = 0 then (4 : Nat) else 10) - 1) rfr.toNat) ((if (if mt ≤ 6 then (0 : Nat) else 1) = 0 then (4 : Nat) else 10) - 1) (if fr < toS then toS - 1 else toS + 1) else (if epc ≠ -1 then lclr (if c ≠ 0 then lclr (lclr ps (mt - 1) fr) (c - 1) toS else lclr ps (mt - 1) fr) ((if wtm = true then 7 else 1) - 1) epc.toNat else (if c ≠ 0 then lclr (lclr ps (mt - 1) fr) (c - 1) toS else lclr ps (mt - 1) fr))) : List Nat).length = 12 :=
    length_ite _ _ _ (by rw [length_lset, length_lclr]; exact L3) L3
  have B4 : ∀ j, j < 12 → ((if rfr ≠ -1 then lset (lclr (if epc ≠ -1 then lclr (if c ≠ 0 then lclr (lclr ps (mt - 1) fr) (c - 1) toS else lclr ps (mt - 1) fr) ((if wtm = true then 7 else 1) - 1) epc.toNat else (if c ≠ 0 then lclr (lclr ps (mt - 1) fr) (c - 1) toS else lclr ps (mt - 1) fr)) ((if (if mt ≤ 6 then (0 : Nat) else 1) = 0 then (4 : Nat) else 10) - 1) rfr.toNat) ((if (if mt ≤ 6 then (0 : Nat) else 1) = 0 then (4 : Nat) else 10) - 1) (if fr < toS then toS - 1 else toS + 1) else (if epc ≠ -1 then lclr (if c ≠ 0 then lclr (lclr ps (mt - 1) fr) (c - 1) toS else lclr ps (mt - 1) fr) ((if wtm = true then 7 else 1) - 1) epc.toNat else (if c ≠ 0 then lclr (lclr ps (mt - 1) fr) (c - 1) toS else lclr ps (mt - 1) fr))) : List Nat).getD j 0 < 2 ^ 64 :=
    bound_ite _ _ _
      (fun hP => bound_lset _ ((if (if mt ≤ 6 then (0 : Nat) else 1) = 0 then (4 : Nat) else 10) - 1) (if fr < toS then toS - 1 else toS + 1)
        (by rw [length_lclr]; exact L3) (hrt hP) (bound_lclr _ ((if (if mt ≤ 6 then (0 : Nat) else 1) = 0 then (4 : Nat) else 10) - 1) rfr.toNat L3 B3))
      (fun _ => B3)
  have L5 : ((lset (if rfr ≠ -1 then lset (lclr (if epc ≠ -1 then lclr (if c ≠ 0 then lclr (lclr ps (mt - 1) fr) (c - 1) toS else lclr ps (mt - 1) fr) ((if wtm = true then 7 else 1) - 1) epc.toNat else (if c ≠ 0 then lclr (lclr ps (mt - 1) fr) (c - 1) toS else lclr ps (mt - 1) fr)) ((if (if mt ≤ 6 then (0 : Nat) else 1) = 0 then (4 : Nat) else 10) - 1) rfr.toNat) ((if (if mt ≤ 6 then (0 : Nat) else 1) = 0 then (4 : Nat) else 10) - 1) (if fr < toS then toS - 1 else toS + 1) else (if epc ≠ -1 then lclr (if c ≠ 0 then lclr (lclr ps (mt - 1) fr) (c - 1) toS else lclr ps (mt - 1) fr) ((if wtm = true then 7 else 1) - 1) epc.toNat else (if c ≠ 0 then lclr (lclr ps (mt - 1) fr) (c - 1) toS else lclr ps (mt - 1) fr))) (mt - 1) toS) : List Nat).length = 12 := by rw [length_lset]; exact L4
  have B5 : ∀ j, j < 12 → ((lset (if rfr ≠ -1 then lset (lclr (if epc ≠ -1 then lclr (if c ≠ 0 then lclr (lclr ps (mt - 1) fr) (c - 1) toS else lclr ps (mt - 1) fr) ((if wtm = true then 7 else 1) - 1) epc.toNat else (if c ≠ 0 then lclr (lclr ps (mt - 1) fr) (c - 1) toS else lclr ps (mt - 1) fr)) ((if (if mt ≤ 6 then (0 : Nat) else 1) = 0 then (4 : Nat) else 10) - 1) rfr.toNat) ((if (if mt ≤ 6 then (0 : Nat) else 1) = 0 then (4 : Nat) else 10) - 1) (if fr < toS then toS - 1 else toS + 1) else (if epc ≠ -1 then lclr (if c ≠ 0 then lclr (lclr ps (mt - 1) fr) (c - 1) toS else lclr ps (mt - 1) fr) ((if wtm = true then 7 else 1) - 1) epc.toNat else (if c ≠ 0 then lclr (lclr ps (mt - 1) fr) (c - 1) toS else lclr ps (mt - 1) fr))) (mt - 1) toS) : List Nat).getD j 0 < 2 ^ 64 :=
    bound_lset _ (mt - 1) toS L4 hto B4
  exact bound_ite _ _ _
    (fun _ => bound_lset _ (promoPieces (if mt ≤ 6 then (0 : Nat) else 1) (promo - 1) - 1) toS (by rw [List.length_map]; exact L5) hto
      (bound_mapclear _ toS B5))
    (fun _ => B5)

theorem disj_of_unique (ps : List Nat)
    (hbound : ∀ j, j < 12 → ps.getD j 0 < 2 ^ 64)
    (huniq : ∀ s, s < 64 → ∀ j, j < 12 → ∀ k, k < 12 → j ≠ k →
      (ps.getD j 0).testBit s = true → (ps.getD k 0).testBit s = false) :
    ∀ j, j < 12 → ∀ k, k < 12 → j ≠ k → ps.getD j 0 &&& ps.getD k 0 = 0 := by
  intro j hj k hk hjk
  rw [land_eq_zero_iff_testBit]
  intro s
  rcases lt_or_ge s 64 with hs | hs
  · rcases Bool.eq_false_or_eq_true ((ps.getD j 0).testBit s) with hb | hb
    · exact Or.inr (huniq s hs j hj k hk hjk hb)
    · exact Or.inl hb
  · exact Or.inl (testBit_ge_64 (hbound j hj) hs)

theorem uniq_normal (ps : List Nat) (wtm : Bool) (fr toS promo mt c : Nat)
    (h12 : ps.length = 12) (hmt1 : 1 ≤ mt) (hmt12 : mt ≤ 12) (hne : fr ≠ toS)
    (hpromo : promo = 0 ∨ (1 ≤ promo ∧ promo ≤ 4 ∧ (mt = 1 ∨ mt = 7)))
    (hc12 : c ≤ 12)
    (hToClear : ∀ j, j < 12 → (c = 0 ∨ j ≠ c - 1) →
      (ps.getD j 0).testBit toS = false)
    (horig : ∀ s, s < 64 → ∀ j, j < 12 → ∀ k, k < 12 → j ≠ k →
      (ps.getD j 0).testBit s = true → (ps.getD k 0).testBit s = false) :
    ∀ s, s < 64 → ∀ j, j < 12 → ∀ k, k < 12 → j ≠ k →
      ((makePieces ps wtm fr toS promo mt c (-1) (-1)).getD j 0).testBit s = true →
      ((makePieces ps wtm fr toS promo mt c (-1) (-1)).getD k 0).testBit s = false := by
  intro s hs j hj k hk hjk hbit
  rw [mkBit_normal ps wtm fr toS promo mt c h12 hmt1 hmt12 hne hpromo hc12 hToClear
    j s hj hs] at hbit
  rw [mkBit_normal ps wtm fr toS promo mt c h12 hmt1 hmt12 hne hpromo hc12 hToClear
    k s hk hs]
  by_cases hsT : s = toS
  · rw [if_pos hsT] at hbit ⊢
    have hjT : j = moveTarget promo mt := by simpa using hbit
    have hkT : k ≠ moveTarget promo mt := by rw [← hjT]; exact Ne.symm hjk
    simpa using hkT
  · rw [if_neg hsT] at hbit ⊢
    by_cases hjf : s = fr ∧ j = mt - 1
    · rw [if_pos hjf] at hbit
      exact absurd hbit (by simp)
    · rw [if_neg hjf] at hbit
      by_cases hkf : s = fr ∧ k = mt - 1
      · rw [if_pos hkf]
      · rw [if_neg hkf]
        exact horig s hs j hj k hk hjk hbit

theorem uniq_ep (ps : List Nat) (wtm : Bool) (fr toS mt ec : Nat)
    (h12 : ps.length = 12) (hmt1 : 1 ≤ mt) (hmt12 : mt ≤ 12)
    (hEm : (if wtm = true then 7 else 1) - 1 ≠ mt - 1)
    (hAllTo : ∀ j, j < 12 → (ps.getD j 0).testBit toS = false)
    (horig : ∀ s, s < 64 → ∀ j, j < 12 → ∀ k, k < 12 → j ≠ k →
      (ps.getD j 0).testBit s = true → (ps.getD k 0).testBit s = false) :
    ∀ s, s < 64 → ∀ j, j < 12 → ∀ k, k < 12 → j ≠ k →
      ((makePieces ps wtm fr toS 0 mt 0 ((ec : Int)) (-1)).getD j 0).testBit s = true →
      ((makePieces ps wtm fr toS 0 mt 0 ((ec : Int)) (-1)).getD k 0).testBit s = false := by
  intro s hs j hj k hk hjk hbit
  rw [mkBit_ep ps wtm fr toS mt ec h12 hmt1 hmt12 hEm hAllTo j s hj hs] at hbit
  rw [mkBit_ep ps wtm fr toS mt ec h12 hmt1 hmt12 hEm hAllTo k s hk hs]
  by_cases hsT : s = toS
  · rw [if_pos hsT] at hbit ⊢
    have hjT : j = mt - 1 := by simpa using hbit
    have hkT : k ≠ mt - 1 := by rw [← hjT]; exact Ne.symm hjk
    simpa using hkT
  · rw [if_neg hsT] at hbit ⊢
    by_cases hje : s = ec ∧ j = (if wtm = true then 7 else 1) - 1
    · rw [if_pos hje] at hbit
      exact absurd hbit (by simp)
    · rw [if_neg hje] at hbit
      by_cases hke : s = ec ∧ k = (if wtm = true then 7 else 1) - 1
      · rw [if_pos hke]
      · rw [if_neg hke]
        by_cases hjf : s = fr ∧ j = mt - 1
        · rw [if_pos hjf] at hbit
          exact absurd hbit (by simp)
        · rw [if_neg hjf] at hbit
          by_cases hkf : s = fr ∧ k = mt - 1
          · rw [if_pos hkf]
          · rw [if_neg hkf]
            exact horig s hs j hj k hk hjk hbit

theorem uniq_castle (ps : List Nat) (wtm : Bool) (fr toS mt rf : Nat)
    (h12 : ps.length = 12) (hmt1 : 1 ≤ mt) (hmt12 : mt ≤ 12)
    (hRm : (if mt ≤ 6 then 4 else 10) - 1 ≠ mt - 1)
    (hAllTo : ∀ j, j < 12 → (ps.getD j 0).testBit toS = false)
    (hAllRt : ∀ j, j < 12 →
      (ps.getD j 0).testBit (if fr < toS then toS - 1 else toS + 1) = false)
    (horig : ∀ s, s < 64 → ∀ j, j < 12 → ∀ k, k < 12 → j ≠ k →
      (ps.getD j 0).testBit s = true → (ps.getD k 0).testBit s = false) :
    ∀ s, s < 64 → ∀ j, j < 12 → ∀ k, k < 12 → j ≠ k →
      ((makePieces ps wtm fr toS 0 mt 0 (-1) ((rf : Int))).getD j 0).testBit s = true →
      ((makePieces ps wtm fr toS 0 mt 0 (-1) ((rf : Int))).getD k 0).testBit s = false := by
  intro s hs j hj k hk hjk hbit
  rw [mkBit_castle ps wtm fr toS mt rf h12 hmt1 hmt12 hRm hAllTo hAllRt j s hj hs] at hbit
  rw [mkBit_castle ps wtm fr toS mt rf h12 hmt1 hmt12 hRm hAllTo hAllRt k s hk hs]
  by_cases hsT : s = toS
  · rw [if_pos hsT] at hbit ⊢
    have hjT : j = mt - 1 := by simpa using hbit
    have hkT : k ≠ mt - 1 := by rw [← hjT]; exact Ne.symm hjk
    simpa using hkT
  · rw [if_neg hsT] at hbit ⊢
    by_cases hsrt : s = (if fr < toS then toS - 1 else toS + 1)
    · rw [if_pos hsrt] at hbit ⊢
      have hjR : j = (if mt ≤ 6 then 4 else 10) - 1 := by simpa using hbit
      have hkR : k ≠ (if mt ≤ 6 then 4 else 10) - 1 := by rw [← hjR]; exact Ne.symm hjk
      simpa using hkR
    · rw [if_neg hsrt] at hbit ⊢
      by_cases hjr : s = rf ∧ j = (if mt ≤ 6 then 4 else 10) - 1
      · rw [if_pos hjr] at hbit
        exact absurd hbit (by simp)
      · rw [if_neg hjr] at hbit
        by_cases hkr : s = rf ∧ k = (if mt ≤ 6 then 4 else 10) - 1
        · rw [if_pos hkr]
        · rw [if_neg hkr]
          by_cases hjf : s = fr ∧ j = mt - 1
          · rw [if_pos hjf] at hbit
            exact absurd hbit (by simp)
          · rw [if_neg hjf] at hbit
            by_cases hkf : s = fr ∧ k = mt - 1
            · rw [if_pos hkf]
            · rw [if_neg hkf]
              exact horig s hs j hj k hk hjk hbit

/-- Assemble WFocc from its four parts, stated on the raw field accesses. -/
theorem WFocc_of_parts {b : Board} (h1 : b.pieces.length = 12)
    (h2 : ∀ j, j < 12 → b.pieces.getD j 0 < 2 ^ 64)
    (h3 : ∀ j, j < 12 → ∀ k, k < 12 → j ≠ k →
      b.pieces.getD j 0 &&& b.pieces.getD k 0 = 0)
    (h4 : b.occupancy = occOf b.pieces) : WFocc b := ⟨h1, h2, h3, h4⟩

set_option maxHeartbeats 1000000 in
/-- make_move_apply preserves the occupancy well-formedness on any
pseudo-legal move. -/
theorem WFocc_make {b : Board} {fr toS promo i : Nat} (hWF : WF b)
    (hG : GoodMoveAt b ⟨fr, toS, promo⟩ i) :
    WFocc (make_move_apply b fr toS promo (i + 1)) := by
  have hWFo : WFocc b := hWF.1
  have h12 : b.pieces.length = 12 := hWFo.1
  have hbound : ∀ j, j < 12 → b.pieces.getD j 0 < 2 ^ 64 := fun j hj => hWFo.2.1 j hj
  have hfr64 : fr < 64 := hG.1
  have hto64 : toS < 64 := hG.2.1
  have hi12 : i < 12 := hG.2.2.2.1
  have hwi : b.white_to_move = true → i < 6 := hG.2.2.2.2.1
  have hbi : b.white_to_move = false → 6 ≤ i := hG.2.2.2.2.2.1
  have hbitM : (b.pc i).testBit fr = true := hG.2.2.2.2.2.2.1
  have hownto : (b.occ (sideIdx b.white_to_move)).testBit toS = false :=
    hG.2.2.2.2.2.2.2.1
  have hPromo : PromoOkP ⟨fr, toS, promo⟩ i := hG.2.2.2.2.2.2.2.2.1
  have hCastle : CastleOkP b ⟨fr, toS, promo⟩ i := hG.2.2.2.2.2.2.2.2.2.2
  have hSideCase : (b.white_to_move = true ∧ i < 6) ∨ (b.white_to_move = false ∧ 6 ≤ i) := by
    cases hw : b.white_to_move
    · exact Or.inr ⟨rfl, hbi hw⟩
    · exact Or.inl ⟨rfl, hwi hw⟩
  have hOwn : ∀ j, j < 12 → ((i < 6 ∧ j < 6) ∨ (6 ≤ i ∧ 6 ≤ j)) →
      (b.pc j).testBit toS = false := by
    intro j hj hcase2
    rcases hSideCase with ⟨hw, hi6⟩ | ⟨hw, hi6⟩
    · have hsi : sideIdx b.white_to_move = 0 := by rw [hw]; rfl
      rw [hsi] at hownto
      by_contra hb2
      have hj6 : j < 6 := by rcases hcase2 with ⟨_, h⟩ | ⟨h6, _⟩; exact h; omega
      have := (occ0_testBit_iff hWFo toS).mpr ⟨j, hj6, by simpa using hb2⟩
      rw [this] at hownto
      exact absurd hownto (by simp)
    · have hsi : sideIdx b.white_to_move = 1 := by rw [hw]; rfl
      rw [hsi] at hownto
      by_contra hb2
      have hj6 : 6 ≤ j := by rcases hcase2 with ⟨h6, _⟩ | ⟨_, h⟩; omega; exact h
      have := (occ1_testBit_iff hWFo toS).mpr ⟨j, hj6, hj, by simpa using hb2⟩
      rw [this] at hownto
      exact absurd hownto (by simp)
  have hne : fr ≠ toS := by
    intro he
    have hMown : (b.pc i).testBit toS = true := by rw [← he]; exact hbitM
    rcases hSideCase with ⟨hw, hi6⟩ | ⟨hw, hi6⟩
    · exact absurd hMown (by simp [hOwn i hi12 (Or.inl ⟨hi6, hi6⟩)])
    · exact absurd hMown (by simp [hOwn i hi12 (Or.inr ⟨hi6, hi6⟩)])
  have hpromoM : promo = 0 ∨ (1 ≤ promo ∧ promo ≤ 4 ∧ (i + 1 = 1 ∨ i + 1 = 7)) := by
    rcases hPromo with h | ⟨h1, h4, ⟨h0, _⟩ | ⟨h6, _⟩⟩
    · exact Or.inl h
    · exact Or.inr ⟨h1, h4, by omega⟩
    · exact Or.inr ⟨h1, h4, by omega⟩
  have horig : ∀ s, s < 64 → ∀ j, j < 12 → ∀ k, k < 12 → j ≠ k →
      (b.pieces.getD j 0).testBit s = true → (b.pieces.getD k 0).testBit s = false :=
    fun _s _hs j hj k hk hjk hb => pc_unique_at hWFo hj hk hjk hb
  rcases pieceScanAux_cases (sq_to_bit toS) b.pieces 0 with hcs | ⟨k, hk, hkbit, hkeq⟩
  · -- target square empty: cap_type = 0
    have hAll : ∀ j, j < 12 → (b.pc j).testBit toS = false := by
      intro j hj
      by_contra hb2
      exact pieceScanAux_ne_zero (sq_to_bit toS) b.pieces 0 j (by rw [h12]; exact hj)
        (fun he => hb2 ((land_sq_to_bit_eq_zero _ _).mp he)) hcs
    have hc0 : pieceScan b.pieces (sq_to_bit toS) = 0 := hcs
    unfold make_move_apply
    dsimp only
    rw [hc0]
    by_cases hepA : (i + 1 = 1 ∨ i + 1 = 7) ∧ b.ep_square = (toS : Int)
    · -- en passant capture
      rw [if_pos hepA, if_neg (show ¬((i + 1 = 6 ∨ i + 1 = 12) ∧
        Nat.dist fr toS = 2 ∧ fr / 8 = toS / 8) from fun hcsB => by
          rcases hepA.1 with h | h <;> rcases hcsB.1 with h2 | h2 <;> omega)]
      rcases hSideCase with ⟨hw, hi6⟩ | ⟨hw, hi6⟩
      · have hi0 : i = 0 := by rcases hepA.1 with h | h <;> omega
        subst hi0
        rcases hWF.2.2.2 with hm1 | ⟨_, h40, h48, hbp, hocc2e⟩ | ⟨hbw, _⟩
        · rw [hm1] at hepA
          exact absurd hepA.2 (by omega)
        · have hepto : b.ep_square = (toS : Int) := hepA.2
          have htoNat : b.ep_square.toNat = toS := by rw [hepto]; exact Int.toNat_natCast _
          rw [htoNat] at hocc2e
          rw [hepto] at h40 h48
          have hp0 : promo = 0 := by
            rcases hPromo with h | ⟨h1, h4, ⟨_, h78⟩ | ⟨hi6v, _⟩⟩
            · exact h
            · have hh : toS / 8 = 7 := h78
              omega
            · exact absurd hi6v (by omega)
          subst hp0
          rw [hw]
          have hepcval : ((toS : Int) + if (true : Bool) = true then (-8 : Int) else 8) =
              (((toS - 8 : Nat)) : Int) := by
            rw [if_pos rfl]
            omega
          rw [hepcval]
          have hAllTo : ∀ j, j < 12 → (b.pieces.getD j 0).testBit toS = false :=
            fun j hj => pc_clear_of_occ2 hWFo hocc2e hj
          exact WFocc_of_parts (((length_makePieces b.pieces true fr toS 0 (0 + 1) 0 (((toS - 8 : Nat)) : Int) (-1)).trans h12))
            (bound_makePieces b.pieces true fr toS 0 (0 + 1) 0 (((toS - 8 : Nat)) : Int) (-1) h12 hto64 (fun h => absurd rfl h) hbound)
            (disj_of_unique (makePieces b.pieces true fr toS 0 (0 + 1) 0 (((toS - 8 : Nat)) : Int) (-1))
            (bound_makePieces b.pieces true fr toS 0 (0 + 1) 0 (((toS - 8 : Nat)) : Int) (-1) h12 hto64 (fun h => absurd rfl h) hbound)
            (uniq_ep b.pieces true fr toS (0 + 1) (toS - 8) h12 (by omega) (by omega)
            (by decide) hAllTo horig))
            rfl
        · rw [hw] at hbw
          exact absurd hbw (by simp)
      · have hi6v : i = 6 := by rcases hepA.1 with h | h <;> omega
        subst hi6v
        rcases hWF.2.2.2 with hm1 | ⟨hbw, _⟩ | ⟨_, h16, h24, hbp, hocc2e⟩
        · rw [hm1] at hepA
          exact absurd hepA.2 (by omega)
        · rw [hw] at hbw
          exact absurd hbw (by simp)
        · have hepto : b.ep_square = (toS : Int) := hepA.2
          have htoNat : b.ep_square.toNat = toS := by rw [hepto]; exact Int.toNat_natCast _
          rw [htoNat] at hocc2e
          rw [hepto] at h16 h24
          have hp0 : promo = 0 := by
            rcases hPromo with h | ⟨h1, h4, ⟨hi0v, _⟩ | ⟨_, h0⟩⟩
            · exact h
            · exact absurd hi0v (by omega)
            · have hh : toS / 8 = 0 := h0
              omega
          subst hp0
          rw [hw]
          have hepcval : ((toS : Int) + if (false : Bool) = true then (-8 : Int) else 8) =
              (((toS + 8 : Nat)) : Int) := by
            rw [if_neg (by simp)]
            omega
          rw [hepcval]
          have hAllTo : ∀ j, j < 12 → (b.pieces.getD j 0).testBit toS = false :=
            fun j hj => pc_clear_of_occ2 hWFo hocc2e hj
          exact WFocc_of_parts (((length_makePieces b.pieces false fr toS 0 (6 + 1) 0 (((toS + 8 : Nat)) : Int) (-1)).trans h12))
            (bound_makePieces b.pieces false fr toS 0 (6 + 1) 0 (((toS + 8 : Nat)) : Int) (-1) h12 hto64 (fun h => absurd rfl h) hbound)
            (disj_of_unique (makePieces b.pieces false fr toS 0 (6 + 1) 0 (((toS + 8 : Nat)) : Int) (-1))
            (bound_makePieces b.pieces false fr toS 0 (6 + 1) 0 (((toS + 8 : Nat)) : Int) (-1) h12 hto64 (fun h => absurd rfl h) hbound)
            (uniq_ep b.pieces false fr toS (6 + 1) (toS + 8) h12 (by omega) (by omega)
            (by decide) hAllTo horig))
            rfl
    · rw [if_neg hepA]
      by_cases hcsA : (i + 1 = 6 ∨ i + 1 = 12) ∧ Nat.dist fr toS = 2 ∧ fr / 8 = toS / 8
      · -- castling
        rw [if_pos hcsA]
        have hi511 : i = 5 ∨ i = 11 := by rcases hcsA.1 with h | h <;> omega
        have hcc := hCastle hi511 hcsA.2.1 hcsA.2.2
        have hp0 : promo = 0 := by
          rcases hPromo with h | ⟨h1, h4, ⟨hi0v, _⟩ | ⟨hi6v, _⟩⟩
          · exact h
          · rcases hi511 with h5 | h5 <;> omega
          · rcases hi511 with h5 | h5 <;> omega
        subst hp0
        rcases hcc with ⟨hi5, hfr4, hsub⟩ | ⟨hi11, hfr60, hsub⟩
        · subst hi5
          subst hfr4
          rcases hsub with ⟨hto6, hbitc, hocm⟩ | ⟨hto2, hbitc, hocm⟩
          · subst hto6
            have ho5 : (b.occ 2).testBit 5 = false := testBit_false_of_land_mask hocm (by decide)
            have ho6 : (b.occ 2).testBit 6 = false := testBit_false_of_land_mask hocm (by decide)
            have hcrf : (if (if 5 + 1 ≤ 6 then 0 else 1) = 0 then
                (if 4 < 6 then (7 : Int) else 0) else (if 4 < 6 then 63 else 56)) =
                (((7 : Nat)) : Int) := by norm_num
            rw [hcrf]
            have hAllTo : ∀ j, j < 12 → (b.pieces.getD j 0).testBit 6 = false :=
              fun j hj => pc_clear_of_occ2 hWFo ho6 hj
            have hAllRt : ∀ j, j < 12 →
                (b.pieces.getD j 0).testBit (if 4 < 6 then 6 - 1 else 6 + 1) = false := by
              intro j hj
              rw [if_pos (by omega)]
              exact pc_clear_of_occ2 hWFo ho5 hj
            exact WFocc_of_parts (((length_makePieces b.pieces b.white_to_move 4 6 0 (5 + 1) 0 (-1) (((7 : Nat)) : Int)).trans h12))
              (bound_makePieces b.pieces b.white_to_move 4 6 0 (5 + 1) 0 (-1) (((7 : Nat)) : Int) h12 hto64
              (fun _ => by norm_num) hbound)
              (disj_of_unique (makePieces b.pieces b.white_to_move 4 6 0 (5 + 1) 0 (-1) (((7 : Nat)) : Int))
              (bound_makePieces b.pieces b.white_to_move 4 6 0 (5 + 1) 0 (-1) (((7 : Nat)) : Int) h12 hto64
              (fun _ => by norm_num) hbound)
              (uniq_castle b.pieces b.white_to_move 4 6 (5 + 1) 7 h12 (by omega)
              (by omega) (by decide) hAllTo hAllRt horig))
              rfl
          · subst hto2
            have ho1 : (b.occ 2).testBit 1 = false := testBit_false_of_land_mask hocm (by decide)
            have ho2 : (b.occ 2).testBit 2 = false := testBit_false_of_land_mask hocm (by decide)
            have ho3 : (b.occ 2).testBit 3 = false := testBit_false_of_land_mask hocm (by decide)
            have hcrf : (if (if 5 + 1 ≤ 6 then 0 else 1) = 0 then
                (if 4 < 2 then (7 : Int) else 0) else (if 4 < 2 then 63 else 56)) =
                (((0 : Nat)) : Int) := by norm_num
            rw [hcrf]
            have hAllTo : ∀ j, j < 12 → (b.pieces.getD j 0).testBit 2 = false :=
              fun j hj => pc_clear_of_occ2 hWFo ho2 hj
            have hAllRt : ∀ j, j < 12 →
                (b.pieces.getD j 0).testBit (if 4 < 2 then 2 - 1 else 2 + 1) = false := by
              intro j hj
              rw [if_neg (by omega)]
              exact pc_clear_of_occ2 hWFo ho3 hj
            exact WFocc_of_parts (((length_makePieces b.pieces b.white_to_move 4 2 0 (5 + 1) 0 (-1) (((0 : Nat)) : Int)).trans h12))
              (bound_makePieces b.pieces b.white_to_move 4 2 0 (5 + 1) 0 (-1) (((0 : Nat)) : Int) h12 hto64
              (fun _ => by norm_num) hbound)
              (disj_of_unique (makePieces b.pieces b.white_to_move 4 2 0 (5 + 1) 0 (-1) (((0 : Nat)) : Int))
              (bound_makePieces b.pieces b.white_to_move 4 2 0 (5 + 1) 0 (-1) (((0 : Nat)) : Int) h12 hto64
              (fun _ => by norm_num) hbound)
              (uniq_castle b.pieces b.white_to_move 4 2 (5 + 1) 0 h12 (by omega)
              (by omega) (by decide) hAllTo hAllRt horig))
              rfl
        · subst hi11
          subst hfr60
          rcases hsub with ⟨hto62, hbitc, hocm⟩ | ⟨hto58, hbitc, hocm⟩
          · subst hto62
            have ho61 : (b.occ 2).testBit 61 = false := testBit_false_of_land_mask hocm (by decide)
            have ho62 : (b.occ 2).testBit 62 = false := testBit_false_of_land_mask hocm (by decide)
            have hcrf : (if (if 11 + 1 ≤ 6 then 0 else 1) = 0 then
                (if 60 < 62 then (7 : Int) else 0) else (if 60 < 62 then 63 else 56)) =
                (((63 : Nat)) : Int) := by norm_num
            rw [hcrf]
            have hAllTo : ∀ j, j < 12 → (b.pieces.getD j 0).testBit 62 = false :=
              fun j hj => pc_clear_of_occ2 hWFo ho62 hj
            have hAllRt : ∀ j, j < 12 →
                (b.pieces.getD j 0).testBit (if 60 < 62 then 62 - 1 else 62 + 1) = false := by
              intro j hj
              rw [if_pos (by omega)]
              exact pc_clear_of_occ2 hWFo ho61 hj
            exact WFocc_of_parts (((length_makePieces b.pieces b.white_to_move 60 62 0 (11 + 1) 0 (-1) (((63 : Nat)) : Int)).trans h12))
              (bound_makePieces b.pieces b.white_to_move 60 62 0 (11 + 1) 0 (-1) (((63 : Nat)) : Int) h12 hto64
              (fun _ => by norm_num) hbound)
              (disj_of_unique (makePieces b.pieces b.white_to_move 60 62 0 (11 + 1) 0 (-1) (((63 : Nat)) : Int))
              (bound_makePieces b.pieces b.white_to_move 60 62 0 (11 + 1) 0 (-1) (((63 : Nat)) : Int) h12 hto64
              (fun _ => by norm_num) hbound)
              (uniq_castle b.pieces b.white_to_move 60 62 (11 + 1) 63 h12 (by omega)
              (by omega) (by decide) hAllTo hAllRt horig))
              rfl
          · subst hto58
            have ho57 : (b.occ 2).testBit 57 = false := testBit_false_of_land_mask hocm (by decide)
            have ho58 : (b.occ 2).testBit 58 = false := testBit_false_of_land_mask hocm (by decide)
            have ho59 : (b.occ 2).testBit 59 = false := testBit_false_of_land_mask hocm (by decide)
            have hcrf : (if (if 11 + 1 ≤ 6 then 0 else 1) = 0 then
                (if 60 < 58 then (7 : Int) else 0) else (if 60 < 58 then 63 else 56)) =
                (((56 : Nat)) : Int) := by norm_num
            rw [hcrf]
            have hAllTo : ∀ j, j < 12 → (b.pieces.getD j 0).testBit 58 = false :=
              fun j hj => pc_clear_of_occ2 hWFo ho58 hj
            have hAllRt : ∀ j, j < 12 →
                (b.pieces.getD j 0).testBit (if 60 < 58 then 58 - 1 else 58 + 1) = false := by
              intro j hj
              rw [if_neg (by omega)]
              exact pc_clear_of_occ2 hWFo ho59 hj
            exact WFocc_of_parts (((length_makePieces b.pieces b.white_to_move 60 58 0 (11 + 1) 0 (-1) (((56 : Nat)) : Int)).trans h12))
              (bound_makePieces b.pieces b.white_to_move 60 58 0 (11 + 1) 0 (-1) (((56 : Nat)) : Int) h12 hto64
              (fun _ => by norm_num) hbound)
              (disj_of_unique (makePieces b.pieces b.white_to_move 60 58 0 (11 + 1) 0 (-1) (((56 : Nat)) : Int))
              (bound_makePieces b.pieces b.white_to_move 60 58 0 (11 + 1) 0 (-1) (((56 : Nat)) : Int) h12 hto64
              (fun _ => by norm_num) hbound)
              (uniq_castle b.pieces b.white_to_move 60 58 (11 + 1) 56 h12 (by omega)
              (by omega) (by decide) hAllTo hAllRt horig))
              rfl
      · -- plain quiet move
        rw [if_neg hcsA]
        exact WFocc_of_parts (((length_makePieces b.pieces b.white_to_move fr toS promo (i + 1) 0 (-1) (-1)).trans h12))
          (bound_makePieces b.pieces b.white_to_move fr toS promo (i + 1) 0 (-1) (-1) h12 hto64 (fun h => absurd rfl h) hbound)
          (disj_of_unique (makePieces b.pieces b.white_to_move fr toS promo (i + 1) 0 (-1) (-1))
          (bound_makePieces b.pieces b.white_to_move fr toS promo (i + 1) 0 (-1) (-1) h12 hto64 (fun h => absurd rfl h) hbound)
          (uniq_normal b.pieces b.white_to_move fr toS promo (i + 1) 0 h12 (by omega)
          (by omega) hne hpromoM (by omega)
          (fun j hj _ => hAll j hj) horig))
          rfl
  · -- a piece stands on the target square: cap_type = k + 1
    have hk12 : k < 12 := by rw [h12] at hk; exact hk
    have hkbitT : (b.pc k).testBit toS = true := by
      rcases Bool.eq_false_or_eq_true ((b.pc k).testBit toS) with h2 | h2
      · exact h2
      · exact absurd ((land_sq_to_bit_eq_zero _ _).mpr h2) hkbit
    have hc : pieceScan b.pieces (sq_to_bit toS) = k + 1 := by
      show pieceScanAux (sq_to_bit toS) b.pieces 0 = k + 1
      omega
    have hToClearK : ∀ j, j < 12 → (k + 1 = 0 ∨ j ≠ k + 1 - 1) →
        (b.pieces.getD j 0).testBit toS = false := by
      intro j hj hcase2
      rcases hcase2 with h0 | hne2
      · omega
      · exact pc_unique_at hWFo hk12 hj (fun he => hne2 (by omega)) hkbitT
    unfold make_move_apply
    dsimp only
    rw [hc]
    by_cases hepA : (i + 1 = 1 ∨ i + 1 = 7) ∧ b.ep_square = (toS : Int)
    · exfalso
      rcases hWF.2.2.2 with hm1 | ⟨_, h40, _, _, hocc2e⟩ | ⟨_, h16, _, _, hocc2e⟩
      · rw [hm1] at hepA
        exact absurd hepA.2 (by omega)
      · have htoNat : b.ep_square.toNat = toS := by rw [hepA.2]; exact Int.toNat_natCast _
        rw [htoNat] at hocc2e
        exact absurd hkbitT (by simp [pc_clear_of_occ2 hWFo hocc2e hk12])
      · have htoNat : b.ep_square.toNat = toS := by rw [hepA.2]; exact Int.toNat_natCast _
        rw [htoNat] at hocc2e
        exact absurd hkbitT (by simp [pc_clear_of_occ2 hWFo hocc2e hk12])
    · rw [if_neg hepA]
      by_cases hcsA : (i + 1 = 6 ∨ i + 1 = 12) ∧ Nat.dist fr toS = 2 ∧ fr / 8 = toS / 8
      · exfalso
        have hi511 : i = 5 ∨ i = 11 := by rcases hcsA.1 with h | h <;> omega
        have hcc := hCastle hi511 hcsA.2.1 hcsA.2.2
        rcases hcc with ⟨_, _, hsub⟩ | ⟨_, _, hsub⟩
        · rcases hsub with ⟨htoX, _, hocm⟩ | ⟨htoX, _, hocm⟩
          · subst htoX
            exact absurd hkbitT (by
              simp [pc_clear_of_occ2 hWFo (testBit_false_of_land_mask hocm
                (show (sq_to_bit 5 ||| sq_to_bit 6).testBit 6 = true by decide)) hk12])
          · subst htoX
            exact absurd hkbitT (by
              simp [pc_clear_of_occ2 hWFo (testBit_false_of_land_mask hocm
                (show (sq_to_bit 1 ||| sq_to_bit 2 ||| sq_to_bit 3).testBit 2 = true
                  by decide)) hk12])
        · rcases hsub with ⟨htoX, _, hocm⟩ | ⟨htoX, _, hocm⟩
          · subst htoX
            exact absurd hkbitT (by
              simp [pc_clear_of_occ2 hWFo (testBit_false_of_land_mask hocm
                (show (sq_to_bit 61 ||| sq_to_bit 62).testBit 62 = true by decide)) hk12])
          · subst htoX
            exact absurd hkbitT (by
              simp [pc_clear_of_occ2 hWFo (testBit_false_of_land_mask hocm
                (show (sq_to_bit 57 ||| sq_to_bit 58 ||| sq_to_bit 59).testBit 58 = true
                  by decide)) hk12])
      · rw [if_neg hcsA]
        exact WFocc_of_parts (((length_makePieces b.pieces b.white_to_move fr toS promo (i + 1) (k + 1) (-1) (-1)).trans h12))
          (bound_makePieces b.pieces b.white_to_move fr toS promo (i + 1) (k + 1) (-1) (-1) h12 hto64 (fun h => absurd rfl h) hbound)
          (disj_of_unique (makePieces b.pieces b.white_to_move fr toS promo (i + 1) (k + 1) (-1) (-1))
          (bound_makePieces b.pieces b.white_to_move fr toS promo (i + 1) (k + 1) (-1) (-1) h12 hto64 (fun h => absurd rfl h) hbound)
          (uniq_normal b.pieces b.white_to_move fr toS promo (i + 1) (k + 1) h12
          (by omega) (by omega) hne hpromoM (by omega) hToClearK horig))
          rfl

/-! ## Castling rights recompute facts -/

theorem testBit_true_of_land_sq_ne {p s : Nat} (h : p &&& sq_to_bit s ≠ 0) :
    p.testBit s = true := by
  rcases Bool.eq_false_or_eq_true (p.testBit s) with ht | ht
  · exact ht
  · exact absurd ((land_sq_to_bit_eq_zero _ _).mpr ht) h

theorem cr4_facts (ps : List Nat) :
    (let cr1 : Nat := if ps.getD 5 0 &&& sq_to_bit 4 ≠ 0 ∧ ps.getD 3 0 &&& sq_to_bit 7 ≠ 0
       then 1 else 0
     let cr2 := if ps.getD 5 0 &&& sq_to_bit 4 ≠ 0 ∧ ps.getD 3 0 &&& sq_to_bit 0 ≠ 0
       then cr1 ||| 2 else cr1
     let cr3 := if ps.getD 11 0 &&& sq_to_bit 60 ≠ 0 ∧ ps.getD 9 0 &&& sq_to_bit 63 ≠ 0
       then cr2 ||| 4 else cr2
     let cr4 := if ps.getD 11 0 &&& sq_to_bit 60 ≠ 0 ∧ ps.getD 9 0 &&& sq_to_bit 56 ≠ 0
       then cr3 ||| 8 else cr3
     cr4 < 16 ∧
     (cr4 &&& 1 ≠ 0 → (ps.getD 5 0).testBit 4 = true ∧ (ps.getD 3 0).testBit 7 = true) ∧
     (cr4 &&& 2 ≠ 0 → (ps.getD 5 0).testBit 4 = true ∧ (ps.getD 3 0).testBit 0 = true) ∧
     (cr4 &&& 4 ≠ 0 → (ps.getD 11 0).testBit 60 = true ∧ (ps.getD 9 0).testBit 63 = true) ∧
     (cr4 &&& 8 ≠ 0 → (ps.getD 11 0).testBit 60 = true ∧ (ps.getD 9 0).testBit 56 = true)) := by
  dsimp only
  by_cases h1 : ps.getD 5 0 &&& sq_to_bit 4 ≠ 0 ∧ ps.getD 3 0 &&& sq_to_bit 7 ≠ 0 <;>
    by_cases h2 : ps.getD 5 0 &&& sq_to_bit 4 ≠ 0 ∧ ps.getD 3 0 &&& sq_to_bit 0 ≠ 0 <;>
      by_cases h3 : ps.getD 11 0 &&& sq_to_bit 60 ≠ 0 ∧ ps.getD 9 0 &&& sq_to_bit 63 ≠ 0 <;>
        by_cases h4 : ps.getD 11 0 &&& sq_to_bit 60 ≠ 0 ∧ ps.getD 9 0 &&& sq_to_bit 56 ≠ 0 <;>
          (first | rw [if_pos h4] | rw [if_neg h4]) <;>
          (first | rw [if_pos h3] | rw [if_neg h3]) <;>
          (first | rw [if_pos h2] | rw [if_neg h2]) <;>
          (first | rw [if_pos h1] | rw [if_neg h1]) <;>
            refine ⟨by decide, ?_, ?_, ?_, ?_⟩ <;> intro hx <;>
              first
              | exact absurd hx (by decide)
              | exact ⟨testBit_true_of_land_sq_ne h1.1, testBit_true_of_land_sq_ne h1.2⟩
              | exact ⟨testBit_true_of_land_sq_ne h2.1, testBit_true_of_land_sq_ne h2.2⟩
              | exact ⟨testBit_true_of_land_sq_ne h3.1, testBit_true_of_land_sq_ne h3.2⟩
              | exact ⟨testBit_true_of_land_sq_ne h4.1, testBit_true_of_land_sq_ne h4.2⟩

/-- make_move_apply recomputes the castling rights from placement, so the
resulting word is in range and placement-consistent unconditionally. -/
theorem make_cr (b : Board) (fr toS promo mt : Nat) :
    (make_move_apply b fr toS promo mt).castling < 16 ∧
      CastleWF (make_move_apply b fr toS promo mt) :=
  ⟨(cr4_facts _).1, (cr4_facts _).2.1, (cr4_facts _).2.2.1,
    (cr4_facts _).2.2.2.1, (cr4_facts _).2.2.2.2⟩

/-! ## En-passant invariant preservation -/

theorem EpOk_make {b : Board} {fr toS promo i : Nat} (hWF : WF b)
    (hG : GoodMoveAt b ⟨fr, toS, promo⟩ i) :
    EpOk (make_move_apply b fr toS promo (i + 1)) := by
  have hWFo : WFocc b := hWF.1
  have h12 : b.pieces.length = 12 := hWFo.1
  have hfr64 : fr < 64 := hG.1
  have hto64 : toS < 64 := hG.2.1
  have hi12 : i < 12 := hG.2.2.2.1
  have hwi : b.white_to_move = true → i < 6 := hG.2.2.2.2.1
  have hbi : b.white_to_move = false → 6 ≤ i := hG.2.2.2.2.2.1
  have hbitM : (b.pc i).testBit fr = true := hG.2.2.2.2.2.2.1
  have hownto : (b.occ (sideIdx b.white_to_move)).testBit toS = false :=
    hG.2.2.2.2.2.2.2.1
  have hPromo : PromoOkP ⟨fr, toS, promo⟩ i := hG.2.2.2.2.2.2.2.2.1
  have hDouble : DoubleOkP b ⟨fr, toS, promo⟩ i := hG.2.2.2.2.2.2.2.2.2.1
  have hSideCase : (b.white_to_move = true ∧ i < 6) ∨ (b.white_to_move = false ∧ 6 ≤ i) := by
    cases hw : b.white_to_move
    · exact Or.inr ⟨rfl, hbi hw⟩
    · exact Or.inl ⟨rfl, hwi hw⟩
  have hb' : WFocc (make_move_apply b fr toS promo (i + 1)) := WFocc_make hWF hG
  by_cases hd : (i + 1 = 1 ∨ i + 1 = 7) ∧ Nat.dist toS fr = 16
  · -- a pawn double push: the new en-passant square records it
    have hcap12 : pieceScan b.pieces (sq_to_bit toS) ≤ 12 := by
      rcases pieceScanAux_cases (sq_to_bit toS) b.pieces 0 with hcs | ⟨k, hk, _, hkeq⟩
      · show pieceScanAux (sq_to_bit toS) b.pieces 0 ≤ 12
        omega
      · show pieceScanAux (sq_to_bit toS) b.pieces 0 ≤ 12
        rw [h12] at hk
        omega
    have hToClearG : ∀ j, j < 12 → (pieceScan b.pieces (sq_to_bit toS) = 0 ∨
        j ≠ pieceScan b.pieces (sq_to_bit toS) - 1) →
        (b.pieces.getD j 0).testBit toS = false := by
      intro j hj hcase2
      rcases pieceScanAux_cases (sq_to_bit toS) b.pieces 0 with hcs | ⟨k, hk, hkbit, hkeq⟩
      · by_contra hb2
        exact pieceScanAux_ne_zero (sq_to_bit toS) b.pieces 0 j (by rw [h12]; exact hj)
          (fun he => hb2 ((land_sq_to_bit_eq_zero _ _).mp he)) hcs
      · have hk12 : k < 12 := by rw [h12] at hk; exact hk
        have hkbitT : (b.pc k).testBit toS = true := by
          rcases Bool.eq_false_or_eq_true ((b.pc k).testBit toS) with h2 | h2
          · exact h2
          · exact absurd ((land_sq_to_bit_eq_zero _ _).mpr h2) hkbit
        have hcv : pieceScan b.pieces (sq_to_bit toS) = k + 1 := by
          show pieceScanAux (sq_to_bit toS) b.pieces 0 = k + 1
          omega
        rcases hcase2 with h0 | hne2
        · rw [hcv] at h0
          omega
        · rw [hcv] at hne2
          exact pc_unique_at hWFo hk12 hj (fun he => hne2 (by omega)) hkbitT
    rcases hSideCase with ⟨hw, hi6⟩ | ⟨hw, hi6⟩
    · -- white double push
      have hi0 : i = 0 := by rcases hd.1 with h | h <;> omega
      subst hi0
      have hDD := hDouble.1 rfl hd.2
      have hfr1 : fr / 8 = 1 := hDD.1
      have hto16 : toS = fr + 16 := hDD.2.1
      have hmid : (b.occ 2).testBit (fr + 8) = false := hDD.2.2
      have hp0 : promo = 0 := by
        rcases hPromo with h | ⟨h1, h4, ⟨_, h78⟩ | ⟨hi6v, _⟩⟩
        · exact h
        · have hh : toS / 8 = 7 := h78
          omega
        · omega
      subst hp0
      have hepA : ¬((0 + 1 = 1 ∨ 0 + 1 = 7) ∧ b.ep_square = (toS : Int)) := by
        rintro ⟨_, hep⟩
        rcases hWF.2.2.2 with hm1 | ⟨_, h40, h48, _, _⟩ | ⟨hbw, _⟩
        · rw [hm1] at hep
          omega
        · rw [hep] at h40 h48
          omega
        · rw [hw] at hbw
          exact absurd hbw (by simp)
      have hcsA : ¬((0 + 1 = 6 ∨ 0 + 1 = 12) ∧ Nat.dist fr toS = 2 ∧ fr / 8 = toS / 8) := by
        rintro ⟨h, _⟩
        rcases h with h | h <;> omega
      have hps : (make_move_apply b fr toS 0 (0 + 1)).pieces
          = makePieces b.pieces b.white_to_move fr toS 0 (0 + 1)
              (pieceScan b.pieces (sq_to_bit toS)) (-1) (-1) := by
        unfold make_move_apply
        dsimp only
        rw [if_neg hepA, if_neg hcsA]
      have hep' : (make_move_apply b fr toS 0 (0 + 1)).ep_square
          = ((fr + 8 : Nat) : Int) := by
        unfold make_move_apply
        dsimp only
        rw [if_pos hd]
        show (fr : Int) + pawnPush (if 0 + 1 ≤ 6 then 0 else 1) = ((fr + 8 : Nat) : Int)
        norm_num [pawnPush]
      have hwtm' : (make_move_apply b fr toS 0 (0 + 1)).white_to_move = false := by
        show (!b.white_to_move) = false
        rw [hw]
        rfl
      have hbitNew : ∀ j, j < 12 → ∀ s, s < 64 →
          ((make_move_apply b fr toS 0 (0 + 1)).pc j).testBit s =
          (if s = toS then decide (j = moveTarget 0 (0 + 1))
           else if s = fr ∧ j = 0 + 1 - 1 then false
           else (b.pieces.getD j 0).testBit s) := by
        intro j hj s hs
        show ((make_move_apply b fr toS 0 (0 + 1)).pieces.getD j 0).testBit s = _
        rw [hps]
        exact mkBit_normal b.pieces b.white_to_move fr toS 0 (0 + 1)
          (pieceScan b.pieces (sq_to_bit toS)) h12 (by omega) (by omega)
          (by omega) (Or.inl rfl) hcap12 hToClearG j s hj hs
      right
      right
      refine ⟨hwtm', by rw [hep']; omega, by rw [hep']; omega, ?_, ?_⟩
      · have htn : ((make_move_apply b fr toS 0 (0 + 1)).ep_square).toNat = fr + 8 := by
          rw [hep']
          exact Int.toNat_natCast _
        rw [htn]
        have : fr + 8 + 8 = toS := by omega
        rw [this]
        rw [hbitNew 0 (by omega) toS hto64]
        simp [moveTarget]
      · have htn : ((make_move_apply b fr toS 0 (0 + 1)).ep_square).toNat = fr + 8 := by
          rw [hep']
          exact Int.toNat_natCast _
        rw [htn]
        rcases Bool.eq_false_or_eq_true
          (((make_move_apply b fr toS 0 (0 + 1)).occ 2).testBit (fr + 8)) with h2 | h2
        · exfalso
          obtain ⟨j, hj, hbj⟩ := (occ2_testBit_iff hb' (fr + 8)).mp h2
          rw [hbitNew j hj (fr + 8) (by omega)] at hbj
          rw [if_neg (by omega), if_neg (by rintro ⟨h, _⟩; omega)] at hbj
          exact absurd ((pc_clear_of_occ2 hWFo hmid hj).symm.trans hbj) Bool.false_ne_true
        · exact h2
    · -- black double push
      have hi6v : i = 6 := by rcases hd.1 with h | h <;> omega
      subst hi6v
      have hDD := hDouble.2 rfl hd.2
      have hfr6 : fr / 8 = 6 := hDD.1
      have hto16 : toS + 16 = fr := hDD.2.1
      have hmid : (b.occ 2).testBit (fr - 8) = false := hDD.2.2
      have hp0 : promo = 0 := by
        rcases hPromo with h | ⟨h1, h4, ⟨hi0v, _⟩ | ⟨_, h0⟩⟩
        · exact h
        · omega
        · have hh : toS / 8 = 0 := h0
          omega
      subst hp0
      have hepA : ¬((6 + 1 = 1 ∨ 6 + 1 = 7) ∧ b.ep_square = (toS : Int)) := by
        rintro ⟨_, hep⟩
        rcases hWF.2.2.2 with hm1 | ⟨hbw, _⟩ | ⟨_, h16, h24, _, _⟩
        · rw [hm1] at hep
          omega
        · rw [hw] at hbw
          exact absurd hbw (by simp)
        · rw [hep] at h16 h24
          omega
      have hcsA : ¬((6 + 1 = 6 ∨ 6 + 1 = 12) ∧ Nat.dist fr toS = 2 ∧ fr / 8 = toS / 8) := by
        rintro ⟨h, _⟩
        rcases h with h | h <;> omega
      have hps : (make_move_apply b fr toS 0 (6 + 1)).pieces
          = makePieces b.pieces b.white_to_move fr toS 0 (6 + 1)
              (pieceScan b.pieces (sq_to_bit toS)) (-1) (-1) := by
        unfold make_move_apply
        dsimp only
        rw [if_neg hepA, if_neg hcsA]
      have hep' : (make_move_apply b fr toS 0 (6 + 1)).ep_square
          = ((fr - 8 : Nat) : Int) := by
        unfold make_move_apply
        dsimp only
        rw [if_pos hd]
        show (fr : Int) + pawnPush (if 6 + 1 ≤ 6 then 0 else 1) = ((fr - 8 : Nat) : Int)
        have h48 : 48 ≤ fr := by omega
        norm_num [pawnPush]
        omega
      have hwtm' : (make_move_apply b fr toS 0 (6 + 1)).white_to_move = true := by
        show (!b.white_to_move) = true
        rw [hw]
        rfl
      have hbitNew : ∀ j, j < 12 → ∀ s, s < 64 →
          ((make_move_apply b fr toS 0 (6 + 1)).pc j).testBit s =
          (if s = toS then decide (j = moveTarget 0 (6 + 1))
           else if s = fr ∧ j = 6 + 1 - 1 then false
           else (b.pieces.getD j 0).testBit s) := by
        intro j hj s hs
        show ((make_move_apply b fr toS 0 (6 + 1)).pieces.getD j 0).testBit s = _
        rw [hps]
        exact mkBit_normal b.pieces b.white_to_move fr toS 0 (6 + 1)
          (pieceScan b.pieces (sq_to_bit toS)) h12 (by omega) (by omega)
          (by omega) (Or.inl rfl) hcap12 hToClearG j s hj hs
      right
      left
      refine ⟨hwtm', by rw [hep']; omega, by rw [hep']; omega, ?_, ?_⟩
      · have htn : ((make_move_apply b fr toS 0 (6 + 1)).ep_square).toNat = fr - 8 := by
          rw [hep']
          exact Int.toNat_natCast _
        rw [htn]
        have : fr - 8 - 8 = toS := by omega
        rw [this]
        rw [hbitNew 6 (by omega) toS hto64]
        simp [moveTarget]
      · have htn : ((make_move_apply b fr toS 0 (6 + 1)).ep_square).toNat = fr - 8 := by
          rw [hep']
          exact Int.toNat_natCast _
        rw [htn]
        rcases Bool.eq_false_or_eq_true
          (((make_move_apply b fr toS 0 (6 + 1)).occ 2).testBit (fr - 8)) with h2 | h2
        · exfalso
          obtain ⟨j, hj, hbj⟩ := (occ2_testBit_iff hb' (fr - 8)).mp h2
          rw [hbitNew j hj (fr - 8) (by omega)] at hbj
          rw [if_neg (by omega), if_neg (by rintro ⟨h, _⟩; omega)] at hbj
          exact absurd ((pc_clear_of_occ2 hWFo hmid hj).symm.trans hbj) Bool.false_ne_true
        · exact h2
  · -- not a double push: the new en-passant square is unset
    left
    show (if ((i + 1 = 1 ∨ i + 1 = 7) ∧ Nat.dist toS fr = 16) then
      (fr : Int) + pawnPush (if i + 1 ≤ 6 then 0 else 1) else -1) = -1
    rw [if_neg hd]

/-- Full well-formedness is preserved by make_move_apply on a pseudo-legal
move. -/
theorem WF_make {b : Board} {fr toS promo i : Nat} (hWF : WF b)
    (hG : GoodMoveAt b ⟨fr, toS, promo⟩ i) :
    WF (make_move_apply b fr toS promo (i + 1)) :=
  ⟨WFocc_make hWF hG, (make_cr b fr toS promo (i + 1)).1,
    (make_cr b fr toS promo (i + 1)).2, EpOk_make hWF hG⟩

/-! ## Threading of generate_legal_moves -/

theorem board_eta (b : Board) (hlv : b.legal_valid = false) :
    { b with legal_valid := false } = b := by
  cases b
  simp_all

theorem legalLoop_sub : ∀ (ms : List Move) (b : Board) (acc : List Move) (m : Move),
    m ∈ (legalLoop ms b acc).2 → m ∈ acc ∨ m ∈ ms := by
  intro ms
  induction ms with
  | nil =>
    intro b acc m hm
    exact Or.inl hm
  | cons m0 t ih =>
    intro b acc m hm
    unfold legalLoop at hm
    dsimp only at hm
    split at hm
    · rcases ih _ _ m hm with ha | ht
      · split at ha
        · exact Or.inl ha
        · rcases List.mem_append.mp ha with h | h
          · exact Or.inl h
          · exact Or.inr (by simp at h; simp [h])
      · exact Or.inr (List.mem_cons_of_mem _ ht)
    · rcases ih _ _ m hm with ha | ht
      · exact Or.inl ha
      · exact Or.inr (List.mem_cons_of_mem _ ht)

/-- Every move in the legal list of an invalidated board is pseudo-legal. -/
theorem legal_good {b : Board} (hWF : WF b) (hlv : b.legal_valid = false)
    {m : Move} (hm : m ∈ legalList b) : GoodMove b m := by
  unfold legalList generate_legal_moves at hm
  rw [if_neg (by rw [hlv]; simp)] at hm
  dsimp only at hm
  rcases legalLoop_sub _ _ _ m hm with h | h
  · exact absurd h (by simp)
  · exact pseudo_sound hWF h

theorem legalLoop_eq (b : Board) (hWF : WF b) (hlv : b.legal_valid = false)
    (hstk : b.undo_stack.length < 1024) :
    ∀ (ms acc : List Move), (∀ m ∈ ms, GoodMove b m) →
    legalLoop ms b acc =
      (b, acc ++ ms.filter
        (fun m => !(is_in_check (make_move b m.fr_sq m.to_sq m.promo).2 true))) := by
  intro ms
  induction ms with
  | nil =>
    intro acc h
    simp [legalLoop]
  | cons m0 t ih =>
    intro acc h
    obtain ⟨i, hGi⟩ := h m0 (List.mem_cons_self _ _)
    have hmk : make_move b m0.fr_sq m0.to_sq m0.promo =
        (true, make_move_apply b m0.fr_sq m0.to_sq m0.promo (i + 1)) :=
      make_move_eq hWF.1 hstk hGi.1 hGi.2.1 hGi.2.2.2.1 hGi.2.2.2.2.2.2.1
    have hundo : undo_move (make_move_apply b m0.fr_sq m0.to_sq m0.promo (i + 1)) = b := by
      rw [make_apply_undo hWF hGi, board_eta b hlv]
    unfold legalLoop
    dsimp only
    rw [hmk]
    dsimp only
    rw [if_pos rfl, hundo, ih _ (fun m hm => h m (List.mem_cons_of_mem _ hm)),
      List.filter_cons]
    by_cases hchk : is_in_check (make_move_apply b m0.fr_sq m0.to_sq m0.promo (i + 1)) true
    · rw [if_pos hchk]
      have : (!(is_in_check (make_move b m0.fr_sq m0.to_sq m0.promo).2 true)) = false := by
        rw [hmk]
        simpa using hchk
      rw [this]
      simp
    · rw [if_neg hchk]
      have : (!(is_in_check (make_move b m0.fr_sq m0.to_sq m0.promo).2 true)) = true := by
        rw [hmk]
        simpa using hchk
      rw [this]
      simp

theorem generate_legal_moves_eq (b : Board) (hWF : WF b) (hlv : b.legal_valid = false)
    (hstk : b.undo_stack.length < 1024) :
    generate_legal_moves b false =
      ({ generate_pseudo_legal_moves b with
          movesBuf := (generate_pseudo_legal_moves b).movesBuf.filter
            (fun m => !(is_in_check
              (make_move (generate_pseudo_legal_moves b) m.fr_sq m.to_sq m.promo).2 true)),
          legal_valid := true },
       ((generate_pseudo_legal_moves b).movesBuf.filter
         (fun m => !(is_in_check
           (make_move (generate_pseudo_legal_moves b) m.fr_sq m.to_sq m.promo).2
             true))).length) := by
  unfold generate_legal_moves
  rw [if_neg (by rw [hlv]; simp)]
  dsimp only
  rw [legalLoop_eq (generate_pseudo_legal_moves b) hWF rfl hstk _ []
    (fun m hm => pseudo_sound hWF hm)]
  simp

theorem legalList_eq (b : Board) (hWF : WF b) (hlv : b.legal_valid = false)
    (hstk : b.undo_stack.length < 1024) :
    legalList b = (generate_pseudo_legal_moves b).movesBuf.filter
      (fun m => !(is_in_check
        (make_move (generate_pseudo_legal_moves b) m.fr_sq m.to_sq m.promo).2 true)) := by
  unfold legalList
  rw [generate_legal_moves_eq b hWF hlv hstk]

theorem WF_startBoard : WF startBoard := by decide

theorem Reachable_WF {b : Board} (h : Reachable b) : WF b ∧ b.legal_valid = false := by
  induction h with
  | start => exact ⟨WF_startBoard, rfl⟩
  | @step b0 m hR hm ih =>
    obtain ⟨hWF, hlv⟩ := ih
    obtain ⟨i, hGi⟩ := legal_good hWF hlv hm
    have hmkor : (make_move b0 m.fr_sq m.to_sq m.promo).2 = { b0 with legal_valid := false }
        ∨ (make_move b0 m.fr_sq m.to_sq m.promo).2
          = make_move_apply b0 m.fr_sq m.to_sq m.promo (i + 1) := by
      by_cases hstk : b0.undo_stack.length < 1024
      · right
        rw [make_move_eq hWF.1 hstk hGi.1 hGi.2.1 hGi.2.2.2.1 hGi.2.2.2.2.2.2.1]
      · left
        have hfr64 : m.fr_sq < 64 := hGi.1
        have hto64 : m.to_sq < 64 := hGi.2.1
        unfold make_move
        rw [if_neg (by omega), if_pos (by omega)]
    rcases hmkor with he | he
    · rw [he]
      exact ⟨(hWF : WF _), rfl⟩
    · rw [he]
      exact ⟨WF_make hWF hGi, rfl⟩

/-! ## set_piece preserves occupancy well-formedness -/

theorem whiteUnion_lt {ps : List Nat} (h : ∀ j, j < 12 → ps.getD j 0 < 2 ^ 64) :
    whiteUnion ps < 2 ^ 64 := by
  unfold whiteUnion
  exact Nat.or_lt_two_pow (Nat.or_lt_two_pow (Nat.or_lt_two_pow (Nat.or_lt_two_pow
    (Nat.or_lt_two_pow (h 0 (by omega)) (h 1 (by omega))) (h 2 (by omega)))
    (h 3 (by omega))) (h 4 (by omega))) (h 5 (by omega))

theorem blackUnion_lt {ps : List Nat} (h : ∀ j, j < 12 → ps.getD j 0 < 2 ^ 64) :
    blackUnion ps < 2 ^ 64 := by
  unfold blackUnion
  exact Nat.or_lt_two_pow (Nat.or_lt_two_pow (Nat.or_lt_two_pow (Nat.or_lt_two_pow
    (Nat.or_lt_two_pow (h 6 (by omega)) (h 7 (by omega))) (h 8 (by omega)))
    (h 9 (by omega))) (h 10 (by omega)) ) (h 11 (by omega))

theorem WFocc_set_piece {b : Board} (hWFo : WFocc b) {sq : Int} {pt : Nat}
    (h1 : 1 ≤ pt) (h12p : pt ≤ 12) : WFocc (set_piece b sq pt) := by
  have h12 : b.pieces.length = 12 := hWFo.1
  have hbound : ∀ j, j < 12 → b.pieces.getD j 0 < 2 ^ 64 := fun j hj => hWFo.2.1 j hj
  have hocc : b.occupancy = occOf b.pieces := hWFo.2.2.2
  by_cases hok : sqOk sq = true
  case neg =>
    unfold set_piece
    rw [if_pos (by simp [Bool.eq_false_iff.mpr hok])]
    exact hWFo
  case pos =>
    have hn64 : sq.toNat < 64 := by
      rcases (sqOk_iff sq).mp hok with ⟨h0, h64⟩
      omega
    unfold set_piece
    rw [if_neg (by simp [hok])]
    dsimp only
    rw [if_pos (by omega : pt ≠ 0)]
    have hlm : (b.pieces.map (fun m => bclear m sq.toNat)).length = 12 := by
      rw [List.length_map, h12]
    have hbit' : ∀ j, j < 12 → ∀ s, s < 64 →
        ((lset (b.pieces.map (fun m => bclear m sq.toNat)) (pt - 1) sq.toNat).getD
          j 0).testBit s =
        (if j = pt - 1 ∧ s = sq.toNat then true
         else if s = sq.toNat then false
         else (b.pieces.getD j 0).testBit s) := by
      intro j hj s hs
      rw [testBit_getD_lset _ _ _ _ _ (by rw [hlm]; omega),
        testBit_getD_mapclear _ _ _ _ hs]
    constructor
    · show (lset (b.pieces.map (fun m => bclear m sq.toNat)) (pt - 1) sq.toNat).length = 12
      rw [length_lset, hlm]
    refine ⟨?_, ?_, ?_⟩
    · exact bound_lset _ _ _ hlm hn64 (bound_mapclear _ _ hbound)
    · exact disj_of_unique _ (bound_lset _ _ _ hlm hn64 (bound_mapclear _ _ hbound))
        (by
          intro s hs j hj k hk hjk hb
          rw [hbit' j hj s hs] at hb
          rw [hbit' k hk s hs]
          by_cases hsn : s = sq.toNat
          · by_cases hjp : j = pt - 1
            · rw [if_neg (by rintro ⟨hkp, _⟩; exact hjk (by omega)), if_pos hsn]
            · rw [if_neg (by rintro ⟨_, _⟩; exact hjp (by assumption)), if_pos hsn] at hb
              exact absurd hb (by simp)
          · rw [if_neg (by rintro ⟨_, h⟩; exact hsn h), if_neg hsn] at hb
            rw [if_neg (by rintro ⟨_, h⟩; exact hsn h), if_neg hsn]
            exact pc_unique_at hWFo hj hk hjk hb)
    · -- occupancy stores match the recompute
      have hset2 : ∀ (l : List Nat), l.length = 3 → ∀ x, lset l 2 x =
          [l.getD 0 0, l.getD 1 0, bset (l.getD 2 0) x] := by
        intro l hl x
        match l, hl with
        | [a, c, d], _ => rfl
      have hps' : (lset (b.pieces.map (fun m => bclear m sq.toNat))
          (pt - 1) sq.toNat).length = 12 := by rw [length_lset, hlm]
      rw [occOf_eq hps']
      rw [hocc, occOf_eq h12]
      show lset (lset [bclear (whiteUnion b.pieces) sq.toNat,
        bclear (blackUnion b.pieces) sq.toNat,
        bclear (whiteUnion b.pieces ||| blackUnion b.pieces) sq.toNat]
        (if pt ≤ 6 then 0 else 1) sq.toNat) 2 sq.toNat = _
      have hWU : ∀ s, s < 64 → (whiteUnion (lset (b.pieces.map
          (fun m => bclear m sq.toNat)) (pt - 1) sq.toNat)).testBit s =
          (if s = sq.toNat then decide (pt ≤ 6)
           else (whiteUnion b.pieces).testBit s) := by
        intro s hs
        rw [testBit_whiteUnion, testBit_whiteUnion]
        rw [hbit' 0 (by omega) s hs, hbit' 1 (by omega) s hs, hbit' 2 (by omega) s hs,
          hbit' 3 (by omega) s hs, hbit' 4 (by omega) s hs, hbit' 5 (by omega) s hs]
        by_cases hsn : s = sq.toNat
        · subst hsn
          by_cases hp6 : pt ≤ 6
          · have hpv : pt - 1 < 6 := by omega
            rcases (show pt - 1 = 0 ∨ pt - 1 = 1 ∨ pt - 1 = 2 ∨ pt - 1 = 3 ∨
              pt - 1 = 4 ∨ pt - 1 = 5 from by omega) with h | h | h | h | h | h <;>
              simp [h, hp6]
          · have hpv : 6 ≤ pt - 1 := by omega
            simp [hp6, show ¬ (0 = pt - 1) from by omega, show ¬ (1 = pt - 1) from by omega,
              show ¬ (2 = pt - 1) from by omega, show ¬ (3 = pt - 1) from by omega,
              show ¬ (4 = pt - 1) from by omega, show ¬ (5 = pt - 1) from by omega]
        · simp [hsn]
      have hBU : ∀ s, s < 64 → (blackUnion (lset (b.pieces.map
          (fun m => bclear m sq.toNat)) (pt - 1) sq.toNat)).testBit s =
          (if s = sq.toNat then decide (¬ pt ≤ 6)
           else (blackUnion b.pieces).testBit s) := by
        intro s hs
        rw [testBit_blackUnion, testBit_blackUnion]
        rw [hbit' 6 (by omega) s hs, hbit' 7 (by omega) s hs, hbit' 8 (by omega) s hs,
          hbit' 9 (by omega) s hs, hbit' 10 (by omega) s hs, hbit' 11 (by omega) s hs]
        by_cases hsn : s = sq.toNat
        · subst hsn
          by_cases hp6 : pt ≤ 6
          · simp [hp6, show ¬ (6 = pt - 1) from by omega, show ¬ (7 = pt - 1) from by omega,
              show ¬ (8 = pt - 1) from by omega, show ¬ (9 = pt - 1) from by omega,
              show ¬ (10 = pt - 1) from by omega, show ¬ (11 = pt - 1) from by omega]
          · rcases (show pt - 1 = 6 ∨ pt - 1 = 7 ∨ pt - 1 = 8 ∨ pt - 1 = 9 ∨
              pt - 1 = 10 ∨ pt - 1 = 11 from by omega) with h | h | h | h | h | h <;>
              simp [h, hp6]
        · simp [hsn]
      have hWlt := whiteUnion_lt hbound
      have hBlt := blackUnion_lt hbound
      have hWlt' := whiteUnion_lt (bound_lset (b.pieces.map (fun m => bclear m sq.toNat))
        (pt - 1) sq.toNat hlm hn64 (bound_mapclear b.pieces sq.toNat hbound))
      have hBlt' := blackUnion_lt (bound_lset (b.pieces.map (fun m => bclear m sq.toNat))
        (pt - 1) sq.toNat hlm hn64 (bound_mapclear b.pieces sq.toNat hbound))
      by_cases hp6 : pt ≤ 6
      · rw [if_pos hp6]
        show lset (lset _ 0 sq.toNat) 2 sq.toNat = _
        have hs0 : lset [bclear (whiteUnion b.pieces) sq.toNat,
            bclear (blackUnion b.pieces) sq.toNat,
            bclear (whiteUnion b.pieces ||| blackUnion b.pieces) sq.toNat] 0 sq.toNat =
            [bset (bclear (whiteUnion b.pieces) sq.toNat) sq.toNat,
             bclear (blackUnion b.pieces) sq.toNat,
             bclear (whiteUnion b.pieces ||| blackUnion b.pieces) sq.toNat] := rfl
        rw [hs0, hset2 _ (by rfl) _]
        refine List.ext_getElem (by simp) ?_
        intro j hj1 hj2
        simp only [List.length_cons, List.length_nil] at hj1
        interval_cases j
        · show bset (bclear (whiteUnion b.pieces) sq.toNat) sq.toNat = whiteUnion _
          apply mask_ext64 (bset_lt _ _ (bclear_lt _ _ hWlt) hn64) hWlt'
          intro s hs
          rw [hWU s hs, testBit_bset, testBit_bclear _ _ _ hs]
          by_cases hsn : s = sq.toNat <;> simp [hsn, hp6]
        · show bclear (blackUnion b.pieces) sq.toNat = blackUnion _
          apply mask_ext64 (bclear_lt _ _ hBlt) hBlt'
          intro s hs
          rw [hBU s hs, testBit_bclear _ _ _ hs]
          by_cases hsn : s = sq.toNat <;> simp [hsn, hp6]
        · show bset (bclear (whiteUnion b.pieces ||| blackUnion b.pieces) sq.toNat)
            sq.toNat = whiteUnion _ ||| blackUnion _
          apply mask_ext64 (bset_lt _ _ (bclear_lt _ _ (Nat.or_lt_two_pow hWlt hBlt)) hn64)
            (Nat.or_lt_two_pow hWlt' hBlt')
          intro s hs
          rw [testBit_bset, testBit_bclear _ _ _ hs, Nat.testBit_lor, Nat.testBit_lor,
            hWU s hs, hBU s hs]
          by_cases hsn : s = sq.toNat <;> simp [hsn, hp6]
      · rw [if_neg hp6]
        show lset (lset _ 1 sq.toNat) 2 sq.toNat = _
        have hs1 : lset [bclear (whiteUnion b.pieces) sq.toNat,
            bclear (blackUnion b.pieces) sq.toNat,
            bclear (whiteUnion b.pieces ||| blackUnion b.pieces) sq.toNat] 1 sq.toNat =
            [bclear (whiteUnion b.pieces) sq.toNat,
             bset (bclear (blackUnion b.pieces) sq.toNat) sq.toNat,
             bclear (whiteUnion b.pieces ||| blackUnion b.pieces) sq.toNat] := rfl
        rw [hs1, hset2 _ (by rfl) _]
        refine List.ext_getElem (by simp) ?_
        intro j hj1 hj2
        simp only [List.length_cons, List.length_nil] at hj1
        interval_cases j
        · show bclear (whiteUnion b.pieces) sq.toNat = whiteUnion _
          apply mask_ext64 (bclear_lt _ _ hWlt) hWlt'
          intro s hs
          rw [hWU s hs, testBit_bclear _ _ _ hs]
          by_cases hsn : s = sq.toNat <;> simp [hsn, hp6]
        · show bset (bclear (blackUnion b.pieces) sq.toNat) sq.toNat = blackUnion _
          apply mask_ext64 (bset_lt _ _ (bclear_lt _ _ hBlt) hn64) hBlt'
          intro s hs
          rw [hBU s hs, testBit_bset, testBit_bclear _ _ _ hs]
          by_cases hsn : s = sq.toNat <;> simp [hsn, hp6]
        · show bset (bclear (whiteUnion b.pieces ||| blackUnion b.pieces) sq.toNat)
            sq.toNat = whiteUnion _ ||| blackUnion _
          apply mask_ext64 (bset_lt _ _ (bclear_lt _ _ (Nat.or_lt_two_pow hWlt hBlt)) hn64)
            (Nat.or_lt_two_pow hWlt' hBlt')
          intro s hs
          rw [testBit_bset, testBit_bclear _ _ _ hs, Nat.testBit_lor, Nat.testBit_lor,
            hWU s hs, hBU s hs]
          by_cases hsn : s = sq.toNat <;> simp [hsn, hp6]

/-! ## Castling in generate_king_moves, both directions -/

theorem king_castle_white (b : Board) (hw : b.white_to_move = true) :
    ((⟨4, 6, 0⟩ : Move) ∈ generate_king_moves b (b.pc 5) (b.occ 0) [] ↔
      (findKingAux (b.pc 5) 64 0 = 4 ∧ is_in_check b false = false ∧
       b.castling &&& 1 ≠ 0 ∧
       b.occ 2 &&& (sq_to_bit 5 ||| sq_to_bit 6) = 0 ∧
       square_attacked b 6 false = false ∧ square_attacked b 5 false = false)) ∧
    ((⟨4, 2, 0⟩ : Move) ∈ generate_king_moves b (b.pc 5) (b.occ 0) [] ↔
      (findKingAux (b.pc 5) 64 0 = 4 ∧ is_in_check b false = false ∧
       b.castling &&& 2 ≠ 0 ∧
       b.occ 2 &&& (sq_to_bit 1 ||| sq_to_bit 2 ||| sq_to_bit 3) = 0 ∧
       square_attacked b 2 false = false ∧ square_attacked b 3 false = false)) := by
  rcases findKingAux_spec (b.pc 5) 64 0 with heq | ⟨k, heq, hbit, _, hk64⟩
  · constructor <;> constructor
    · intro h
      unfold generate_king_moves at h
      dsimp only at h
      rw [heq, if_pos rfl] at h
      exact absurd h (by simp)
    · rintro ⟨h4, _⟩
      rw [heq] at h4
      exact absurd h4 (by omega)
    · intro h
      unfold generate_king_moves at h
      dsimp only at h
      rw [heq, if_pos rfl] at h
      exact absurd h (by simp)
    · rintro ⟨h4, _⟩
      rw [heq] at h4
      exact absurd h4 (by omega)
  · have hn46 : (⟨4, 6, 0⟩ : Move) ∉ kingNormal (b.occ 0) k [] := by
      intro hmem
      rcases kingNormal_mem hmem with h | h
      · simp at h
      · obtain ⟨hfr, _, _, _, _, hdf⟩ := h
        have hk4 : k = 4 := by simpa using hfr.symm
        subst hk4
        simp [Nat.dist] at hdf
    have hn42 : (⟨4, 2, 0⟩ : Move) ∉ kingNormal (b.occ 0) k [] := by
      intro hmem
      rcases kingNormal_mem hmem with h | h
      · simp at h
      · obtain ⟨hfr, _, _, _, _, hdf⟩ := h
        have hk4 : k = 4 := by simpa using hfr.symm
        subst hk4
        simp [Nat.dist] at hdf
    have hlen1 : (kingNormal (b.occ 0) k []).length ≤ 8 := by
      have := kingNormal_length_le (b.occ 0) k []
      simpa using this
    unfold generate_king_moves
    dsimp only
    rw [heq, if_neg (by omega), Int.toNat_natCast]
    by_cases hchk : is_in_check b false = true
    · rw [if_pos hchk]
      constructor <;> constructor
      · intro h
        exact absurd h hn46
      · rintro ⟨_, hcf, _⟩
        rw [hchk] at hcf
        exact absurd hcf (by simp)
      · intro h
        exact absurd h hn42
      · rintro ⟨_, hcf, _⟩
        rw [hchk] at hcf
        exact absurd hcf (by simp)
    · have hchkf : is_in_check b false = false := by
        rcases Bool.eq_false_or_eq_true (is_in_check b false) with h | h
        · exact absurd h hchk
        · exact h
      rw [if_neg hchk, hw, if_pos rfl]
      by_cases hk4 : k = 4
      · subst hk4
        by_cases hC1 : b.castling &&& 1 ≠ 0 ∧ (4 : Nat) = 4 ∧
            b.occ 2 &&& (sq_to_bit 5 ||| sq_to_bit 6) = 0 ∧
            square_attacked b 6 false = false ∧ square_attacked b 5 false = false <;>
          by_cases hC2 : b.castling &&& 2 ≠ 0 ∧ (4 : Nat) = 4 ∧
              b.occ 2 &&& (sq_to_bit 1 ||| sq_to_bit 2 ||| sq_to_bit 3) = 0 ∧
              square_attacked b 2 false = false ∧ square_attacked b 3 false = false
        · rw [if_pos hC1, if_pos hC2]
          constructor <;> constructor
          · intro _
            exact ⟨by decide, hchkf, hC1.1, hC1.2.2.1, hC1.2.2.2.1, hC1.2.2.2.2⟩
          · intro _
            exact mem_addMove_mono (mem_addMove_self (by omega))
          · intro _
            exact ⟨by decide, hchkf, hC2.1, hC2.2.2.1, hC2.2.2.2.1, hC2.2.2.2.2⟩
          · intro _
            refine mem_addMove_self ?_
            have := length_addMove_le (kingNormal (b.occ 0) 4 []) 4 6 0
            omega
        · rw [if_pos hC1, if_neg hC2]
          constructor <;> constructor
          · intro _
            exact ⟨by decide, hchkf, hC1.1, hC1.2.2.1, hC1.2.2.2.1, hC1.2.2.2.2⟩
          · intro _
            exact mem_addMove_self (by omega)
          · intro h
            rcases mem_addMove h with h1 | h1
            · exact absurd h1 hn42
            · exact absurd h1 (by decide)
          · rintro ⟨_, _, hc2, ho2, ha2, ha3⟩
            exact absurd ⟨hc2, rfl, ho2, ha2, ha3⟩ hC2
        · rw [if_neg hC1, if_pos hC2]
          constructor <;> constructor
          · intro h
            rcases mem_addMove h with h1 | h1
            · exact absurd h1 hn46
            · exact absurd h1 (by decide)
          · rintro ⟨_, _, hc1, ho1, ha6, ha5⟩
            exact absurd ⟨hc1, rfl, ho1, ha6, ha5⟩ hC1
          · intro _
            exact ⟨by decide, hchkf, hC2.1, hC2.2.2.1, hC2.2.2.2.1, hC2.2.2.2.2⟩
          · intro _
            exact mem_addMove_self (by omega)
        · rw [if_neg hC1, if_neg hC2]
          constructor <;> constructor
          · intro h
            exact absurd h hn46
          · rintro ⟨_, _, hc1, ho1, ha6, ha5⟩
            exact absurd ⟨hc1, rfl, ho1, ha6, ha5⟩ hC1
          · intro h
            exact absurd h hn42
          · rintro ⟨_, _, hc2, ho2, ha2, ha3⟩
            exact absurd ⟨hc2, rfl, ho2, ha2, ha3⟩ hC2
      · have hC1f : ¬ (b.castling &&& 1 ≠ 0 ∧ k = 4 ∧
            b.occ 2 &&& (sq_to_bit 5 ||| sq_to_bit 6) = 0 ∧
            square_attacked b 6 false = false ∧ square_attacked b 5 false = false) := by
          rintro ⟨_, h4, _⟩
          exact hk4 h4
        have hC2f : ¬ (b.castling &&& 2 ≠ 0 ∧ k = 4 ∧
            b.occ 2 &&& (sq_to_bit 1 ||| sq_to_bit 2 ||| sq_to_bit 3) = 0 ∧
            square_attacked b 2 false = false ∧ square_attacked b 3 false = false) := by
          rintro ⟨_, h4, _⟩
          exact hk4 h4
        rw [if_neg hC1f, if_neg hC2f]
        constructor <;> constructor
        · intro h
          exact absurd h hn46
        · rintro ⟨h4, _⟩
          exact absurd (show k = 4 from by exact_mod_cast h4) hk4
        · intro h
          exact absurd h hn42
        · rintro ⟨h4, _⟩
          exact absurd (show k = 4 from by exact_mod_cast h4) hk4

theorem king_castle_black (b : Board) (hw : b.white_to_move = false) :
    ((⟨60, 62, 0⟩ : Move) ∈ generate_king_moves b (b.pc 11) (b.occ 1) [] ↔
      (findKingAux (b.pc 11) 64 0 = 60 ∧ is_in_check b false = false ∧
       b.castling &&& 4 ≠ 0 ∧
       b.occ 2 &&& (sq_to_bit 61 ||| sq_to_bit 62) = 0 ∧
       square_attacked b 62 true = false ∧ square_attacked b 61 true = false)) ∧
    ((⟨60, 58, 0⟩ : Move) ∈ generate_king_moves b (b.pc 11) (b.occ 1) [] ↔
      (findKingAux (b.pc 11) 64 0 = 60 ∧ is_in_check b false = false ∧
       b.castling &&& 8 ≠ 0 ∧
       b.occ 2 &&& (sq_to_bit 57 ||| sq_to_bit 58 ||| sq_to_bit 59) = 0 ∧
       square_attacked b 58 true = false ∧ square_attacked b 59 true = false)) := by
  rcases findKingAux_spec (b.pc 11) 64 0 with heq | ⟨k, heq, hbit, _, hk64⟩
  · constructor <;> constructor
    · intro h
      unfold generate_king_moves at h
      dsimp only at h
      rw [heq, if_pos rfl] at h
      exact absurd h (by simp)
    · rintro ⟨h4, _⟩
      rw [heq] at h4
      exact absurd h4 (by omega)
    · intro h
      unfold generate_king_moves at h
      dsimp only at h
      rw [heq, if_pos rfl] at h
      exact absurd h (by simp)
    · rintro ⟨h4, _⟩
      rw [heq] at h4
      exact absurd h4 (by omega)
  · have hn62 : (⟨60, 62, 0⟩ : Move) ∉ kingNormal (b.occ 1) k [] := by
      intro hmem
      rcases kingNormal_mem hmem with h | h
      · simp at h
      · obtain ⟨hfr, _, _, _, _, hdf⟩ := h
        have hk60 : k = 60 := by simpa using hfr.symm
        subst hk60
        simp [Nat.dist] at hdf
    have hn58 : (⟨60, 58, 0⟩ : Move) ∉ kingNormal (b.occ 1) k [] := by
      intro hmem
      rcases kingNormal_mem hmem with h | h
      · simp at h
      · obtain ⟨hfr, _, _, _, _, hdf⟩ := h
        have hk60 : k = 60 := by simpa using hfr.symm
        subst hk60
        simp [Nat.dist] at hdf
    have hlen1 : (kingNormal (b.occ 1) k []).length ≤ 8 := by
      have := kingNormal_length_le (b.occ 1) k []
      simpa using this
    unfold generate_king_moves
    dsimp only
    rw [heq, if_neg (by omega), Int.toNat_natCast]
    by_cases hchk : is_in_check b false = true
    · rw [if_pos hchk]
      constructor <;> constructor
      · intro h
        exact absurd h hn62
      · rintro ⟨_, hcf, _⟩
        rw [hchk] at hcf
        exact absurd hcf (by simp)
      · intro h
        exact absurd h hn58
      · rintro ⟨_, hcf, _⟩
        rw [hchk] at hcf
        exact absurd hcf (by simp)
    · have hchkf : is_in_check b false = false := by
        rcases Bool.eq_false_or_eq_true (is_in_check b false) with h | h
        · exact absurd h hchk
        · exact h
      rw [if_neg hchk, hw, if_neg (by simp)]
      by_cases hk60 : k = 60
      · subst hk60
        by_cases hC1 : b.castling &&& 4 ≠ 0 ∧ (60 : Nat) = 60 ∧
            b.occ 2 &&& (sq_to_bit 61 ||| sq_to_bit 62) = 0 ∧
            square_attacked b 62 true = false ∧ square_attacked b 61 true = false <;>
          by_cases hC2 : b.castling &&& 8 ≠ 0 ∧ (60 : Nat) = 60 ∧
              b.occ 2 &&& (sq_to_bit 57 ||| sq_to_bit 58 ||| sq_to_bit 59) = 0 ∧
              square_attacked b 58 true = false ∧ square_attacked b 59 true = false
        · rw [if_pos hC1, if_pos hC2]
          constructor <;> constructor
          · intro _
            exact ⟨by decide, hchkf, hC1.1, hC1.2.2.1, hC1.2.2.2.1, hC1.2.2.2.2⟩
          · intro _
            exact mem_addMove_mono (mem_addMove_self (by omega))
          · intro _
            exact ⟨by decide, hchkf, hC2.1, hC2.2.2.1, hC2.2.2.2.1, hC2.2.2.2.2⟩
          · intro _
            refine mem_addMove_self ?_
            have := length_addMove_le (kingNormal (b.occ 1) 60 []) 60 62 0
            omega
        · rw [if_pos hC1, if_neg hC2]
          constructor <;> constructor
          · intro _
            exact ⟨by decide, hchkf, hC1.1, hC1.2.2.1, hC1.2.2.2.1, hC1.2.2.2.2⟩
          · intro _
            exact mem_addMove_self (by omega)
          · intro h
            rcases mem_addMove h with h1 | h1
            · exact absurd h1 hn58
            · exact absurd h1 (by decide)
          · rintro ⟨_, _, hc2, ho2, ha2, ha3⟩
            exact absurd ⟨hc2, rfl, ho2, ha2, ha3⟩ hC2
        · rw [if_neg hC1, if_pos hC2]
          constructor <;> constructor
          · intro h
            rcases mem_addMove h with h1 | h1
            · exact absurd h1 hn62
            · exact absurd h1 (by decide)
          · rintro ⟨_, _, hc1, ho1, ha6, ha5⟩
            exact absurd ⟨hc1, rfl, ho1, ha6, ha5⟩ hC1
          · intro _
            exact ⟨by decide, hchkf, hC2.1, hC2.2.2.1, hC2.2.2.2.1, hC2.2.2.2.2⟩
          · intro _
            exact mem_addMove_self (by omega)
        · rw [if_neg hC1, if_neg hC2]
          constructor <;> constructor
          · intro h
            exact absurd h hn62
          · rintro ⟨_, _, hc1, ho1, ha6, ha5⟩
            exact absurd ⟨hc1, rfl, ho1, ha6, ha5⟩ hC1
          · intro h
            exact absurd h hn58
          · rintro ⟨_, _, hc2, ho2, ha2, ha3⟩
            exact absurd ⟨hc2, rfl, ho2, ha2, ha3⟩ hC2
      · have hC1f : ¬ (b.castling &&& 4 ≠ 0 ∧ k = 60 ∧
            b.occ 2 &&& (sq_to_bit 61 ||| sq_to_bit 62) = 0 ∧
            square_attacked b 62 true = false ∧ square_attacked b 61 true = false) := by
          rintro ⟨_, h4, _⟩
          exact hk60 h4
        have hC2f : ¬ (b.castling &&& 8 ≠ 0 ∧ k = 60 ∧
            b.occ 2 &&& (sq_to_bit 57 ||| sq_to_bit 58 ||| sq_to_bit 59) = 0 ∧
            square_attacked b 58 true = false ∧ square_attacked b 59 true = false) := by
          rintro ⟨_, h4, _⟩
          exact hk60 h4
        rw [if_neg hC1f, if_neg hC2f]
        constructor <;> constructor
        · intro h
          exact absurd h hn62
        · rintro ⟨h4, _⟩
          exact absurd (show k = 60 from by exact_mod_cast h4) hk60
        · intro h
          exact absurd h hn58
        · rintro ⟨h4, _⟩
          exact absurd (show k = 60 from by exact_mod_cast h4) hk60

theorem game_result_char (b : Board) (hWF : WF b) (hlv : b.legal_valid = false)
    (hstk : b.undo_stack.length < 1024) :
    (game_result b).2 =
      (if legalList b = [] then
        (if is_in_check b false = true then
          some (if b.white_to_move = true then (-1 : Int) else 1)
         else some 0)
       else none) := by
  unfold game_result
  rw [generate_legal_moves_eq b hWF hlv hstk, legalList_eq b hWF hlv hstk]
  dsimp only
  generalize (generate_pseudo_legal_moves b).movesBuf.filter
    (fun m => !(is_in_check
      (make_move (generate_pseudo_legal_moves b) m.fr_sq m.to_sq m.promo).2 true)) = F
  rcases F with _ | ⟨m0, t⟩
  · rw [if_neg (by simp), if_pos rfl]
    have hic : is_in_check { generate_pseudo_legal_moves b with
        movesBuf := ([] : List Move), legal_valid := true } false = is_in_check b false := rfl
    have hwt : ({ generate_pseudo_legal_moves b with
        movesBuf := ([] : List Move), legal_valid := true } : Board).white_to_move
        = b.white_to_move := rfl
    rw [hic, hwt]
    by_cases hchk : is_in_check b false = true
    · rw [if_pos hchk, if_pos hchk]
    · rw [if_neg hchk, if_neg hchk]
  · rw [if_pos (by simp), if_neg (by simp)]

/-! ## Helper: the failure paths of make_move -/

theorem make_move_fail_eq (b : Board) (fr toS promo : Nat)
    (h : 64 ≤ fr ∨ 64 ≤ toS ∨ 1024 ≤ b.undo_stack.length ∨
      pieceScan b.pieces (sq_to_bit fr) = 0) :
    make_move b fr toS promo = (false, { b with legal_valid := false }) := by
  unfold make_move
  by_cases h1 : 64 ≤ fr ∨ 64 ≤ toS
  · rw [if_pos h1]
  · rw [if_neg h1]
    by_cases h2 : 1024 ≤ b.undo_stack.length
    · rw [if_pos h2]
    · rw [if_neg h2]
      dsimp only
      have h3 : pieceScan b.pieces (sq_to_bit fr) = 0 := by
        rcases h with h | h | h | h
        · exact absurd (Or.inl h) h1
        · exact absurd (Or.inr h) h1
        · exact absurd h h2
        · exact h
      rw [if_pos h3]

/-! ## The claims -/

/-- C1: for every reachable position and every legal move with room on the
undo stack, make_move succeeds and undo_move then restores the position
bit-for-bit: the twelve piece bitboards, the three occupancy masks, the
side to move, the castling rights, the en-passant square and the
halfmove/fullmove counters all return to their prior values. -/
theorem make_undo_restores {b : Board} {m : Move} (hR : Reachable b)
    (hm : m ∈ legalList b) (hstk : b.undo_stack.length < 1024) :
    (make_move b m.fr_sq m.to_sq m.promo).1 = true ∧
    (undo_move (make_move b m.fr_sq m.to_sq m.promo).2).pieces = b.pieces ∧
    (undo_move (make_move b m.fr_sq m.to_sq m.promo).2).occupancy = b.occupancy ∧
    (undo_move (make_move b m.fr_sq m.to_sq m.promo).2).white_to_move = b.white_to_move ∧
    (undo_move (make_move b m.fr_sq m.to_sq m.promo).2).castling = b.castling ∧
    (undo_move (make_move b m.fr_sq m.to_sq m.promo).2).ep_square = b.ep_square ∧
    (undo_move (make_move b m.fr_sq m.to_sq m.promo).2).halfmove = b.halfmove ∧
    (undo_move (make_move b m.fr_sq m.to_sq m.promo).2).fullmove = b.fullmove := by
  obtain ⟨hWF, hlv⟩ := Reachable_WF hR
  obtain ⟨i, hGi⟩ := legal_good hWF hlv hm
  rw [make_move_eq hWF.1 hstk hGi.1 hGi.2.1 hGi.2.2.2.1 hGi.2.2.2.2.2.2.1]
  dsimp only
  rw [make_apply_undo hWF hGi]
  exact ⟨rfl, rfl, rfl, rfl, rfl, rfl, rfl, rfl⟩

theorem make_undo_restores_witness :
    ((⟨12, 28, 0⟩ : Move) ∈ legalList startBoard) ∧
    startBoard.undo_stack.length < 1024 ∧
    ((make_move startBoard 12 28 0).1 = true ∧
     (undo_move (make_move startBoard 12 28 0).2).pieces = startBoard.pieces ∧
     (undo_move (make_move startBoard 12 28 0).2).occupancy = startBoard.occupancy ∧
     (undo_move (make_move startBoard 12 28 0).2).white_to_move
       = startBoard.white_to_move ∧
     (undo_move (make_move startBoard 12 28 0).2).castling = startBoard.castling ∧
     (undo_move (make_move startBoard 12 28 0).2).ep_square = startBoard.ep_square ∧
     (undo_move (make_move startBoard 12 28 0).2).halfmove = startBoard.halfmove ∧
     (undo_move (make_move startBoard 12 28 0).2).fullmove = startBoard.fullmove) :=
  ⟨by decide, by decide,
    @make_undo_restores startBoard ⟨12, 28, 0⟩ Reachable.start (by decide) (by decide)⟩

/-- C3: clear does not invalidate the legal-move cache. After generating
legal moves in the start position (caching 20 moves and validating the
cache), clearing the board leaves the flag set, and the next
generate_legal_moves call returns the stale 20-move count while a forced
regeneration on the cleared board yields 0 moves. -/
theorem clear_stale_cache :
    (clearBoard (generate_legal_moves startBoard false).1).legal_valid = true ∧
    (generate_legal_moves (clearBoard
      (generate_legal_moves startBoard false).1) false).2 = 20 ∧
    (generate_legal_moves (clearBoard
      (generate_legal_moves startBoard false).1) true).2 = 0 := by decide

/-- C4: the internal make_move returns false, with no state change beyond
invalidating the legal-move cache, whenever the from- or to-square is out
of 0..63, the undo stack already holds 1024 entries, or no piece occupies
the from-square. (The public entry point truncates its arguments to uint8
first, so an out-of-range square such as 257 wraps into range instead of
failing; see the counterexample.) -/
theorem make_move_failure (b : Board) (fr toS promo : Nat)
    (h : 64 ≤ fr ∨ 64 ≤ toS ∨ 1024 ≤ b.undo_stack.length ∨
      pieceScan b.pieces (sq_to_bit fr) = 0) :
    make_move b fr toS promo = (false, { b with legal_valid := false }) :=
  make_move_fail_eq b fr toS promo h

theorem make_move_failure_witness :
    (64 ≤ (100 : Nat) ∨ 64 ≤ (16 : Nat) ∨ 1024 ≤ startBoard.undo_stack.length ∨
      pieceScan startBoard.pieces (sq_to_bit 100) = 0) ∧
    make_move startBoard 100 16 0 = (false, { startBoard with legal_valid := false }) :=
  ⟨Or.inl (by decide), make_move_failure startBoard 100 16 0 (Or.inl (by decide))⟩

theorem make_move_pub_wraps : (make_move_pub startBoard 257 16 0).1 = true := by decide

/-- C5: the halfmove clock behaves as claimed (reset on a pawn move or
capture, else incremented), but the fullmove number increments after
white's move, not after black's: from the start position white's 12→28
drives fullmove from 1 to 2, and black's reply 52→36 leaves it at 2. -/
theorem fullmove_bug :
    startBoard.white_to_move = true ∧ startBoard.fullmove = 1 ∧
    startBoard.halfmove = 0 ∧
    (make_move startBoard 1 18 0).1 = true ∧
    (make_move startBoard 1 18 0).2.halfmove = startBoard.halfmove + 1 ∧
    (make_move startBoard 12 28 0).1 = true ∧
    (make_move startBoard 12 28 0).2.halfmove = 0 ∧
    (make_move startBoard 12 28 0).2.fullmove = 2 ∧
    (make_move (make_move startBoard 12 28 0).2 52 36 0).1 = true ∧
    (make_move (make_move startBoard 12 28 0).2 52 36 0).2.fullmove = 2 := by decide

/-- C6: in pawn move generation, a diagonal pawn move onto the current
en-passant square with no piece on the target (an en-passant capture) is
emitted only when the capturing pawn stands on 0-indexed rank 4 for white
and rank 3 for black (the spec's 0-indexed ranks 5 and 4 are off by one). -/
theorem ep_capture_rank {ep : Int} {bb own opp side : Nat} {m : Move}
    (hm : m ∈ generate_pawn_moves ep bb own opp side [])
    (hep : (m.to_sq : Int) = ep)
    (hunocc : opp.testBit m.to_sq = false)
    (hdiag : m.fr_sq % 8 ≠ m.to_sq % 8) :
    (side = 0 → m.fr_sq / 8 = 4) ∧ (side = 1 → m.fr_sq / 8 = 3) := by
  rcases generate_pawn_moves_mem hm with h | ⟨s, hs64, _, hemit⟩
  · exact absurd h (by simp)
  have capcase : ∀ d : Int, capEmit ep opp side s d m →
      (side = 0 → m.fr_sq / 8 = 4) ∧ (side = 1 → m.fr_sq / 8 = 3) := by
    intro d hcap
    obtain ⟨_, hfr, _, _, hor, _⟩ := hcap
    rcases hor with hoppb | ⟨_, hrank⟩
    · rw [hunocc] at hoppb
      exact absurd hoppb (by simp)
    · constructor
      · intro h0
        subst h0
        rw [hfr]
        simpa using hrank
      · intro h1
        subst h1
        rw [hfr]
        simpa using hrank
  rcases hemit with hpush | hcap | hcap
  · exfalso
    obtain ⟨hok, hfr, _, hK⟩ := hpush
    apply hdiag
    by_cases hside : side = 0
    · have hps : pawnPush side = 8 := by rw [hside]; rfl
      have hpd : pawnDouble side = 16 := by rw [hside]; rfl
      rcases hK with ⟨hto, _⟩ | ⟨_, _, hok2, hto, _⟩
      · rw [hps] at hto
        rw [hfr, hto]
        omega
      · rw [hpd] at hto
        rw [hfr, hto]
        omega
    · have hps : pawnPush side = -8 := by unfold pawnPush; rw [if_neg hside]
      have hpd : pawnDouble side = -16 := by unfold pawnDouble; rw [if_neg hside]
      rcases hK with ⟨hto, _⟩ | ⟨_, _, hok2, hto, _⟩
      · rw [hps] at hto hok
        rcases (sqOk_iff _).mp hok with ⟨h0, _⟩
        rw [hfr, hto]
        omega
      · rw [hpd] at hto hok2
        rcases (sqOk_iff _).mp hok2 with ⟨h0, _⟩
        rw [hfr, hto]
        omega
  · exact capcase _ hcap
  · exact capcase _ hcap

theorem ep_capture_rank_witness :
    ((⟨36, 43, 0⟩ : Move) ∈ generate_pawn_moves
      (make_move (make_move (make_move (make_move startBoard 12 28 0).2
        48 40 0).2 28 36 0).2 51 35 0).2.ep_square
      ((make_move (make_move (make_move (make_move startBoard 12 28 0).2
        48 40 0).2 28 36 0).2 51 35 0).2.pc 0)
      ((make_move (make_move (make_move (make_move startBoard 12 28 0).2
        48 40 0).2 28 36 0).2 51 35 0).2.occ 0)
      ((make_move (make_move (make_move (make_move startBoard 12 28 0).2
        48 40 0).2 28 36 0).2 51 35 0).2.occ 1) 0 []) ∧
    ((0 = 0 → (36 : Nat) / 8 = 4) ∧ (0 = 1 → (36 : Nat) / 8 = 3)) :=
  ⟨by decide,
    @ep_capture_rank
      ((make_move (make_move (make_move (make_move startBoard 12 28 0).2
        48 40 0).2 28 36 0).2 51 35 0).2.ep_square)
      ((make_move (make_move (make_move (make_move startBoard 12 28 0).2
        48 40 0).2 28 36 0).2 51 35 0).2.pc 0)
      ((make_move (make_move (make_move (make_move startBoard 12 28 0).2
        48 40 0).2 28 36 0).2 51 35 0).2.occ 0)
      ((make_move (make_move (make_move (make_move startBoard 12 28 0).2
        48 40 0).2 28 36 0).2 51 35 0).2.occ 1)
      0 ⟨36, 43, 0⟩ (by decide) (by decide) (by decide) (by decide)⟩

theorem ep_capture_rank_cex :
    (⟨36, 43, 0⟩ : Move) ∈ generate_pawn_moves
      (make_move (make_move (make_move (make_move startBoard 12 28 0).2
        48 40 0).2 28 36 0).2 51 35 0).2.ep_square
      ((make_move (make_move (make_move (make_move startBoard 12 28 0).2
        48 40 0).2 28 36 0).2 51 35 0).2.pc 0)
      ((make_move (make_move (make_move (make_move startBoard 12 28 0).2
        48 40 0).2 28 36 0).2 51 35 0).2.occ 0)
      ((make_move (make_move (make_move (make_move startBoard 12 28 0).2
        48 40 0).2 28 36 0).2 51 35 0).2.occ 1) 0 [] ∧
    (make_move (make_move (make_move (make_move startBoard 12 28 0).2
      48 40 0).2 28 36 0).2 51 35 0).2.ep_square = 43 ∧
    (make_move (make_move (make_move (make_move startBoard 12 28 0).2
      48 40 0).2 28 36 0).2 51 35 0).2.white_to_move = true ∧
    (36 : Nat) / 8 ≠ 5 := by decide

/-- C7: a castling move appears in the generated king moves exactly when
the matching right bit is set, the king stands on its original square
(where the generator finds it), the squares strictly between king and rook
are empty, the side to move is not in check (castling is skipped entirely
in check), and the transit and destination squares are not attacked by the
opponent. -/
theorem castle_gen_iff (b : Board) :
    (b.white_to_move = true →
      (((⟨4, 6, 0⟩ : Move) ∈ generate_king_moves b (b.pc 5) (b.occ 0) [] ↔
        (findKingAux (b.pc 5) 64 0 = 4 ∧ is_in_check b false = false ∧
         b.castling &&& 1 ≠ 0 ∧
         b.occ 2 &&& (sq_to_bit 5 ||| sq_to_bit 6) = 0 ∧
         square_attacked b 6 false = false ∧ square_attacked b 5 false = false)) ∧
       ((⟨4, 2, 0⟩ : Move) ∈ generate_king_moves b (b.pc 5) (b.occ 0) [] ↔
        (findKingAux (b.pc 5) 64 0 = 4 ∧ is_in_check b false = false ∧
         b.castling &&& 2 ≠ 0 ∧
         b.occ 2 &&& (sq_to_bit 1 ||| sq_to_bit 2 ||| sq_to_bit 3) = 0 ∧
         square_attacked b 2 false = false ∧ square_attacked b 3 false = false)))) ∧
    (b.white_to_move = false →
      (((⟨60, 62, 0⟩ : Move) ∈ generate_king_moves b (b.pc 11) (b.occ 1) [] ↔
        (findKingAux (b.pc 11) 64 0 = 60 ∧ is_in_check b false = false ∧
         b.castling &&& 4 ≠ 0 ∧
         b.occ 2 &&& (sq_to_bit 61 ||| sq_to_bit 62) = 0 ∧
         square_attacked b 62 true = false ∧ square_attacked b 61 true = false)) ∧
       ((⟨60, 58, 0⟩ : Move) ∈ generate_king_moves b (b.pc 11) (b.occ 1) [] ↔
        (findKingAux (b.pc 11) 64 0 = 60 ∧ is_in_check b false = false ∧
         b.castling &&& 8 ≠ 0 ∧
         b.occ 2 &&& (sq_to_bit 57 ||| sq_to_bit 58 ||| sq_to_bit 59) = 0 ∧
         square_attacked b 58 true = false ∧ square_attacked b 59 true = false)))) :=
  ⟨fun hw => king_castle_white b hw, fun hw => king_castle_black b hw⟩

theorem castle_gen_iff_witness :
    ((make_move (make_move (set_piece (set_piece (set_piece (set_piece
      (clearBoard startBoard) 4 6) 7 4) 60 12) 8 1) 8 16 0).2 60 61 0).2.white_to_move
      = true) ∧
    ((⟨4, 6, 0⟩ : Move) ∈ generate_king_moves
      (make_move (make_move (set_piece (set_piece (set_piece (set_piece
        (clearBoard startBoard) 4 6) 7 4) 60 12) 8 1) 8 16 0).2 60 61 0).2
      ((make_move (make_move (set_piece (set_piece (set_piece (set_piece
        (clearBoard startBoard) 4 6) 7 4) 60 12) 8 1) 8 16 0).2 60 61 0).2.pc 5)
      ((make_move (make_move (set_piece (set_piece (set_piece (set_piece
        (clearBoard startBoard) 4 6) 7 4) 60 12) 8 1) 8 16 0).2 60 61 0).2.occ 0)
      []) :=
  ⟨by decide,
    (((castle_gen_iff (make_move (make_move (set_piece (set_piece (set_piece
      (set_piece (clearBoard startBoard) 4 6) 7 4) 60 12) 8 1) 8 16 0).2
      60 61 0).2).1 (by decide)).1).mpr (by decide)⟩

/-- C8: the occupancy invariant (disjoint side masks, combined mask their
union, each combined bit owned by exactly one piece bitboard) holds after
clear and after set_start_position, and is preserved by set_piece with a
valid piece type and by make_move and make-then-undo of a pseudo-legal
move from a well-formed position. It is not preserved by arbitrary
make_move calls (see the counterexample: the unvalidated castle path drops
the rook on an occupied square). -/
theorem occ_invariant :
    (∀ b : Board, OccInv (clearBoard b)) ∧
    OccInv startBoard ∧
    (∀ (b : Board) (sq : Int) (pt : Nat), WF b → 1 ≤ pt → pt ≤ 12 →
      OccInv (set_piece b sq pt)) ∧
    (∀ (b : Board) (m : Move), WF b → GoodMove b m →
      OccInv (make_move b m.fr_sq m.to_sq m.promo).2) ∧
    (∀ (b : Board) (m : Move), WF b → GoodMove b m → b.undo_stack.length < 1024 →
      OccInv (undo_move (make_move b m.fr_sq m.to_sq m.promo).2)) := by
  refine ⟨?_, ?_, ?_, ?_, ?_⟩
  · intro b
    refine ⟨show (0 : Nat) &&& 0 = 0 by decide, show (0 : Nat) = 0 ||| 0 by decide, ?_⟩
    intro s hs
    rw [show (clearBoard b).occ 2 = 0 from rfl, Nat.zero_testBit] at hs
    exact absurd hs (by simp)
  · exact WFocc_OccInv (by decide)
  · intro b sq pt hWF h1 h2
    exact WFocc_OccInv (WFocc_set_piece hWF.1 h1 h2)
  · intro b m hWF hG
    obtain ⟨i, hGi⟩ := hG
    by_cases hstk : b.undo_stack.length < 1024
    · rw [make_move_eq hWF.1 hstk hGi.1 hGi.2.1 hGi.2.2.2.1 hGi.2.2.2.2.2.2.1]
      exact WFocc_OccInv (WFocc_make hWF hGi)
    · rw [make_move_fail_eq b m.fr_sq m.to_sq m.promo (Or.inr (Or.inr (Or.inl (by omega))))]
      exact WFocc_OccInv hWF.1
  · intro b m hWF hG hstk
    obtain ⟨i, hGi⟩ := hG
    rw [make_move_eq hWF.1 hstk hGi.1 hGi.2.1 hGi.2.2.2.1 hGi.2.2.2.2.2.2.1]
    dsimp only
    rw [make_apply_undo hWF hGi]
    exact WFocc_OccInv hWF.1

theorem occ_invariant_witness :
    (WF startBoard ∧ 1 ≤ 1 ∧ (1 : Nat) ≤ 12) ∧ OccInv (set_piece startBoard 20 1) :=
  ⟨⟨by decide, by decide, by decide⟩,
    occ_invariant.2.2.1 startBoard 20 1 (by decide) (by decide) (by decide)⟩

theorem occ_invariant_cex :
    ¬ OccInv (make_move_pub (set_piece (set_piece (set_piece (clearBoard startBoard)
      4 6) 5 3) 7 4) 4 6 0).2 := by
  intro h
  obtain ⟨_, _, huniq⟩ := h
  obtain ⟨i, ⟨hi12, hbi⟩, huni⟩ := huniq 5 (by decide)
  have h2 := huni 2 ⟨by decide, by decide⟩
  have h3 := huni 3 ⟨by decide, by decide⟩
  omega

/-- C9: game_result returns the ongoing value (none) exactly when a legal
move exists; with zero legal moves it returns the win for the opponent of
the side to move (-1 when white is to move, 1 when black is) when that
side is in check, and the draw value 0 otherwise. -/
theorem game_result_spec (b : Board) (hWF : WF b) (hlv : b.legal_valid = false)
    (hstk : b.undo_stack.length < 1024) :
    (game_result b).2 =
      (if legalList b = [] then
        (if is_in_check b false = true then
          some (if b.white_to_move = true then (-1 : Int) else 1)
         else some 0)
       else none) :=
  game_result_char b hWF hlv hstk

theorem game_result_spec_witness :
    (WF startBoard ∧ startBoard.legal_valid = false ∧
      startBoard.undo_stack.length < 1024) ∧
    (game_result startBoard).2 =
      (if legalList startBoard = [] then
        (if is_in_check startBoard false = true then
          some (if startBoard.white_to_move = true then (-1 : Int) else 1)
         else some 0)
       else none) :=
  ⟨⟨by decide, rfl, by decide⟩, game_result_spec startBoard (by decide) rfl (by decide)⟩

/-- C10: make_move validates neither the side to move nor the piece's
movement rules: on any occupancy-well-formed position, for any in-range
squares with any piece on the from-square and room on the undo stack, it
returns true and applies the move, flipping the side to move and pushing
an undo record. -/
theorem make_no_validation {b : Board} {fr toS promo i : Nat}
    (hWFo : WFocc b) (hfr : fr < 64) (hto : toS < 64)
    (hstk : b.undo_stack.length < 1024) (hi : i < 12)
    (hbit : (b.pc i).testBit fr = true) :
    (make_move b fr toS promo).1 = true ∧
    (make_move b fr toS promo).2.white_to_move = !b.white_to_move ∧
    (make_move b fr toS promo).2.undo_stack.length = b.undo_stack.length + 1 := by
  rw [make_move_eq hWFo hstk hfr hto hi hbit]
  exact ⟨rfl, rfl, rfl⟩

theorem make_no_validation_witness :
    (WFocc startBoard ∧ (startBoard.pc 7).testBit 57 = true ∧
      startBoard.white_to_move = true) ∧
    ((make_move startBoard 57 20 0).1 = true ∧
     (make_move startBoard 57 20 0).2.white_to_move = !startBoard.white_to_move ∧
     (make_move startBoard 57 20 0).2.undo_stack.length
       = startBoard.undo_stack.length + 1) :=
  ⟨⟨by decide, by decide, by decide⟩,
    @make_no_validation startBoard 57 20 0 7 (by decide) (by decide) (by decide)
      (by decide) (by decide) (by decide)⟩
